import Mathlib

/-!
# Car sales analysis: chunked aggregation, merge and distribution

A shallow embedding of `data_parser.cpp` / `data_analyzer.cpp`.

Modelling conventions
* `double` revenue is an exact rational (`ℚ`): every statement about sums is a statement
  about exact numbers, not about IEEE rounding.  A text whose value is outside the range of
  `double` makes `std::stod` throw; that range error is part of the embedding
  (`strtodRangeError`).
* `int` is `Int`.  Signed overflow is undefined behaviour in C++, so the embedding describes
  the executions in which the `int` accumulator stays in range.
* `size_t` is `Nat` with every addition and multiplication reduced modulo `2 ^ 64`.
* `std::unordered_map<std::string, double>` is a key-unique association list; the order of
  the list stands for the iteration order of the container, which the standard leaves
  unspecified.  A key created by `operator[]` is placed at the front of the list, as in the
  container of the GNU C++ library while every key has a bucket of its own; only the example
  sequences with equal sums depend on this order.
* A `std::string` that is parsed is a `List Char`; the strings stored in a record are `String`.
* `std::optional` is `Option`, and a library call that throws is an `Option` as well: the
  `catch` blocks of the source turn `none` into the value they return.
* A `ChunkProcessor` is a function on the chunk, the `ChunkResult` it is passed and the state
  it has captured; it returns its verdict, the `ChunkResult` and the new captured state.
* A file is represented by what opening it gives: `none` when it cannot be opened,
  `some content` otherwise.  The value of `std::thread::hardware_concurrency()` is a parameter.
* A method of `CarSalesAnalyzer` that changes the object returns the new state next to its
  result.
-/

namespace car_sales

/-! ## Data model (`data_parser.hpp`, `data_analyzer.hpp`) -/

/-- Number of values of `size_t`: arithmetic on `size_t` is modulo this number. -/
def SIZE_T_MOD : Nat := 2 ^ 64

/-- One decoded row (`struct CarSaleRecord`). -/
structure CarSaleRecord where
  brand : String
  country : String
  year : Int
  quantity : Int
  revenue : ℚ
deriving DecidableEq

/-- Keys of an association list, in iteration order. -/
def keysOf (l : List (String × ℚ)) : List String := l.map Prod.fst

/-- The container `std::unordered_map<std::string, double>`: an association list without
repeated keys, listed in iteration order. -/
abbrev RevenueMap := { l : List (String × ℚ) // (keysOf l).Nodup }

/-- Lookup in the entry list (`find` on the container). -/
def findEntry : List (String × ℚ) → String → Option ℚ
  | [], _ => none
  | (k', x) :: rest, k => if k' = k then some x else findEntry rest k

/-- The statement `m[k] += v` for a key that the list holds: the entry is updated in place. -/
def updateEntry : List (String × ℚ) → String → ℚ → List (String × ℚ)
  | [], _, _ => []
  | (k', x) :: rest, k, v =>
    if k' = k then (k', x + v) :: rest else (k', x) :: updateEntry rest k v

/-- The statement `m[k] += v` on the entry list: an existing entry is updated in place, an
absent key is first created with the value-initialised `0.0`.  The new entry is put at the
front of the iteration order, where the container of the GNU C++ library links a node whose
bucket is empty. -/
def addEntry (l : List (String × ℚ)) (k : String) (v : ℚ) : List (String × ℚ) :=
  if k ∈ keysOf l then updateEntry l k v else (k, 0 + v) :: l

theorem keysOf_updateEntry (l : List (String × ℚ)) (k : String) (v : ℚ) :
    keysOf (updateEntry l k v) = keysOf l := by
  induction l with
  | nil => rfl
  | cons p rest ih =>
    obtain ⟨k', x⟩ := p
    by_cases h : k' = k
    · simp [updateEntry, keysOf, h]
    · simp only [updateEntry, if_neg h]
      simp only [keysOf, List.map_cons] at ih ⊢
      rw [ih]

theorem keysOf_addEntry (l : List (String × ℚ)) (k : String) (v : ℚ) :
    keysOf (addEntry l k v) = if k ∈ keysOf l then keysOf l else k :: keysOf l := by
  unfold addEntry
  by_cases h : k ∈ keysOf l
  · rw [if_pos h, if_pos h, keysOf_updateEntry]
  · rw [if_neg h, if_neg h]
    rfl

theorem nodup_addEntry (l : List (String × ℚ)) (k : String) (v : ℚ)
    (h : (keysOf l).Nodup) : (keysOf (addEntry l k v)).Nodup := by
  rw [keysOf_addEntry]
  split
  · exact h
  · rename_i hk
    exact List.nodup_cons.mpr ⟨hk, h⟩

namespace RevenueMap

/-- The empty container. -/
def empty : RevenueMap := ⟨[], List.nodup_nil⟩

/-- Entries in iteration order (`begin()` .. `end()`). -/
def entries (m : RevenueMap) : List (String × ℚ) := m.1

/-- Lookup of a key. -/
def find (m : RevenueMap) (k : String) : Option ℚ := findEntry m.1 k

/-- The statement `m[k] += v`. -/
def addAt (m : RevenueMap) (k : String) (v : ℚ) : RevenueMap :=
  ⟨addEntry m.1 k v, nodup_addEntry m.1 k v m.2⟩

end RevenueMap

/-- Result of a chunk processing operation (`struct ChunkResult`). -/
structure ChunkResult where
  records_processed : Nat
  records_failed : Nat
  errors : List String
  success : Bool
  audi_china_year_sales : Int
  bmw_2025_revenue : ℚ
  bmw_europe_revenue : RevenueMap

/-- The default constructor `ChunkResult()`. -/
def ChunkResult.new : ChunkResult :=
  { records_processed := 0, records_failed := 0, errors := [], success := true,
    audi_china_year_sales := 0, bmw_2025_revenue := 0, bmw_europe_revenue := RevenueMap.empty }

/-- State of a `CsvParser`: the configured chunk size, the running record counter and the
delimiter. -/
structure CsvParser where
  chunk_size_ : Nat
  _total_records_processed : Nat
  delimiter_ : Char

/-- The callback type `ChunkProcessor`: it receives the chunk and a `ChunkResult` it may
write to, and returns its verdict.  `σ` is the state the callback has captured; the callback
returns the new captured state as well. -/
abbrev ChunkProcessor (σ : Type) :=
  List CarSaleRecord → ChunkResult → σ → Bool × ChunkResult × σ

/-- Local variables of `parseString` (and of `parseFile`) while the lines are read, together
with the parser member `_total_records_processed` and the state captured by the processor. -/
structure ParseLoop (σ : Type) where
  overall_result : ChunkResult
  total_records_processed : Nat
  chunk : List CarSaleRecord
  line_number : Nat
  is_header : Bool
  captured : σ

/-! ## Library functions used by the decoder -/

/-- The classification `std::isspace` in the "C" locale: space, `\t`, `\n`, `\v`, `\f`, `\r`. -/
def isspace (c : Char) : Bool := c = ' ' ∨ (9 ≤ c.toNat ∧ c.toNat ≤ 13)

/-- The classification `std::isdigit`: the ten characters `0` .. `9`. -/
def isdigit (c : Char) : Bool := 48 ≤ c.toNat ∧ c.toNat ≤ 57

/-- Value of a decimal digit character. -/
def digitValue (c : Char) : Nat := c.toNat - 48

/-- Value of a run of decimal digits, most significant first. -/
def digitsValue (ds : List Char) : Nat := ds.foldl (fun acc c => acc * 10 + digitValue c) 0

/-- The call `str.rfind(c)`: the greatest index holding `c`, or `npos` (here `none`). -/
def rfind (c : Char) : List Char → Option Nat
  | [] => none
  | x :: rest =>
    match rfind c rest with
    | some i => some (i + 1)
    | none => if x = c then some 0 else none

/-- The call `std::stoi(str)`: leading white space is skipped, an optional sign is read, then
the longest run of decimal digits; what follows the digits is ignored.  The call throws
(here `none`) when there is no digit or when the value does not fit in `int`. -/
def stoi (str : List Char) : Option Int :=
  let s := str.dropWhile isspace
  let negative := s.head? = some '-'
  let body := if s.head? = some '-' ∨ s.head? = some '+' then s.tail else s
  let ds := body.takeWhile isdigit
  if ds = [] then none
  else
    let v : Int := if negative then -(digitsValue ds : Int) else (digitsValue ds : Int)
    if -(2 : Int) ^ 31 ≤ v ∧ v ≤ (2 : Int) ^ 31 - 1 then some v else none

/-- The least magnitude that the conversion to `double` rounds to infinity: `DBL_MAX` plus
half a unit in its last place, `2 ^ 1024 - 2 ^ 970`. -/
def DBL_OVERFLOW : ℚ := 2 ^ 1024 - 2 ^ 970

/-- `DBL_MIN`, the least positive normal `double`, `2 ^ (-1022)`. -/
def DBL_MIN : ℚ := 1 / 2 ^ 1022

/-- The exact value of the text that `strtod` converts, on the strings that reach `std::stod`
in `parseLine` (they passed `isNumeric`): an optional sign, then digits with at most one
point.  There is no conversion (here `none`) when the string holds no digit. -/
def strtodValue (str : List Char) : Option ℚ :=
  let negative := str.head? = some '-'
  let body := if str.head? = some '-' ∨ str.head? = some '+' then str.tail else str
  let ip := body.takeWhile isdigit
  let rest := body.dropWhile isdigit
  let fp := if rest.head? = some '.' then rest.tail.takeWhile isdigit else []
  if ip = [] ∧ fp = [] then none
  else
    let v : ℚ := (digitsValue ip : ℚ) + (digitsValue fp : ℚ) / (10 : ℚ) ^ fp.length
    some (if negative then -v else v)

/-- The test `errno == ERANGE` after `strtod` has converted the exact value `v`: the result
overflows (it rounds to infinity), or it underflows, that is, `v` is not zero, lies below
`DBL_MIN` in magnitude and is not a multiple of `2 ^ (-1074)`, so that no `double` holds it
exactly.  The C standard leaves the report of underflow to the implementation; the GNU C
library reports it. -/
def strtodRangeError (v : ℚ) : Bool :=
  decide (DBL_OVERFLOW ≤ v ∨ v ≤ -DBL_OVERFLOW) ||
    decide (((0 < v ∧ v < DBL_MIN) ∨ (-DBL_MIN < v ∧ v < 0)) ∧ (v * 2 ^ 1074).isInt = false)

/-- The call `std::stod(str)`: it throws `std::invalid_argument` when `strtod` converts
nothing and `std::out_of_range` when `strtod` reports a range error (both `none` here);
otherwise it returns the value, taken as the exact number. -/
def stod (str : List Char) : Option ℚ :=
  match strtodValue str with
  | none => none
  | some v => if strtodRangeError v then none else some v

/-- Reading with `std::getline` until it fails: the text is cut at every `\n`; a last line
without `\n` is returned when it is not empty.  `cur` is the line being read. -/
def getlineLoop : List Char → List Char → List (List Char)
  | [], cur => if cur = [] then [] else [cur]
  | c :: rest, cur => if c = '\n' then cur :: getlineLoop rest [] else getlineLoop rest (cur ++ [c])

/-- All lines that successive `std::getline` calls return on a stream holding `content`. -/
def getlines (content : List Char) : List (List Char) := getlineLoop content []

/-! ## `data_parser.cpp` -/

/-- The file-static set `EUROPEAN_COUNTRIES` of `data_parser.cpp`. -/
def EUROPEAN_COUNTRIES : List String :=
  ["Germany", "France", "United Kingdom", "UK", "Italy", "Spain", "Netherlands", "Belgium",
   "Austria", "Switzerland", "Sweden", "Norway", "Denmark", "Finland", "Poland",
   "Czech Republic", "Portugal", "Greece", "Ireland", "Hungary", "Romania", "Bulgaria",
   "Croatia", "Slovakia", "Slovenia", "Lithuania", "Latvia", "Estonia", "Luxembourg", "Malta",
   "Cyprus", "Iceland", "Serbia", "Montenegro", "North Macedonia", "Albania",
   "Bosnia and Herzegovina", "Moldova", "Ukraine", "Belarus", "Russia"]

/-- The file-static `isEuropeanCountry` of `data_parser.cpp`: membership in the set. -/
def isEuropeanCountry (country : String) : Bool := EUROPEAN_COUNTRIES.contains country

namespace CsvParser

/-- The constant `CsvParser::DEFAULT_CHUNK_SIZE`. -/
def DEFAULT_CHUNK_SIZE : Nat := 10000

/-- The constructor `CsvParser(chunk_size, delimiter)`: a chunk size of 0 is replaced by the
default. -/
def new (chunk_size : Nat) (delimiter : Char) : CsvParser :=
  { chunk_size_ := if chunk_size = 0 then DEFAULT_CHUNK_SIZE else chunk_size
    _total_records_processed := 0
    delimiter_ := delimiter }

/-- `CsvParser::extractYearFromDate`. -/
def extractYearFromDate (date_str : List Char) : Int :=
  if date_str.length < 10 then 0
  else
    match rfind '-' date_str with
    | none => 0
    | some last_dash =>
      if last_dash + 1 ≥ date_str.length then 0
      else
        match stoi ((date_str.drop (last_dash + 1)).take 4) with
        | some year => year
        | none => 0

/-- `CsvParser::trim`: white space is removed from the front, then from the back of what is
left. -/
def trim (str : List Char) : List Char :=
  ((str.dropWhile isspace).reverse.dropWhile isspace).reverse

/-- The loop of `splitLine` from the current character on; `field` is the field being
collected and `in_quotes` the quoting state.  After the loop the last field is pushed. -/
def splitLoop (delimiter : Char) : List Char → List Char → Bool → List (List Char)
  | [], field, _ => [trim field]
  | c :: rest, field, in_quotes =>
    if c = '"' then splitLoop delimiter rest field (!in_quotes)
    else if c = delimiter ∧ in_quotes = false then trim field :: splitLoop delimiter rest [] in_quotes
    else splitLoop delimiter rest (field ++ [c]) in_quotes

/-- `CsvParser::splitLine`. -/
def splitLine (line : List Char) (delimiter : Char) : List (List Char) :=
  splitLoop delimiter line [] false

/-- The loop of `isNumeric` from the current character on: `false` when the loop returns
`false`, `true` when it runs to the end. -/
def numericLoop : List Char → Bool → Bool
  | [], _ => true
  | c :: rest, has_dot =>
    if c = '.' then (if has_dot then false else numericLoop rest true)
    else if !isdigit c then false
    else numericLoop rest has_dot

/-- `CsvParser::isNumeric`. -/
def isNumeric (str : List Char) : Bool :=
  match str with
  | [] => false
  | c :: rest =>
    let body := if c = '-' ∨ c = '+' then rest else c :: rest
    if numericLoop body false then decide (body ≠ []) else false

/-- `CsvParser::parseLine`.  An exception thrown inside the `try` block is caught and gives
`nullopt`. -/
def parseLine (p : CsvParser) (line : List Char) : Option CarSaleRecord :=
  if line = [] then none
  else
    let fields := splitLine line p.delimiter_
    if fields.length < 21 then none
    else
      let brand := fields.getD 8 []
      let country := fields.getD 2 []
      let year := extractYearFromDate (fields.getD 1 [])
      if !isNumeric (fields.getD 20 []) then none
      else
        match stod (fields.getD 20 []) with
        | none => none
        | some revenue =>
          if brand = [] ∨ country = [] then none
          else if year < 1900 ∨ year > 2100 then none
          else some ⟨String.mk brand, String.mk country, year, 1, revenue⟩

/-- The block of `parseString` that hands the current chunk to the processor: a fresh
`ChunkResult chunk_result` is passed, a `false` verdict clears `overall_result.success`, and
the chunk size is added to both record counters. -/
def invokeProcessor {σ : Type} (processor : ChunkProcessor σ) (st : ParseLoop σ) : ParseLoop σ :=
  let verdict := processor st.chunk ChunkResult.new st.captured
  let overall :=
    if verdict.1 = false then { st.overall_result with success := false } else st.overall_result
  { st with
    overall_result :=
      { overall with
        records_processed := (overall.records_processed + st.chunk.length) % SIZE_T_MOD }
    total_records_processed := (st.total_records_processed + st.chunk.length) % SIZE_T_MOD
    captured := verdict.2.2 }

/-- The `else` branch of `parseString` for a line that does not decode: the failure counter
grows and a message is logged while fewer than 100 messages are held. -/
def recordFailure (overall : ChunkResult) (line_number : Nat) : ChunkResult :=
  let counted := { overall with records_failed := (overall.records_failed + 1) % SIZE_T_MOD }
  if counted.errors.length < 100 then
    { counted with
      errors := counted.errors ++ ["Failed to parse line " ++ toString line_number] }
  else counted

/-- The decoding part of the loop body: a decoded record is pushed on the chunk, a failure is
counted and logged. -/
def decodeLine {σ : Type} (p : CsvParser) (st : ParseLoop σ) (line : List Char) : ParseLoop σ :=
  match parseLine p line with
  | some record => { st with chunk := st.chunk ++ [record] }
  | none => { st with overall_result := recordFailure st.overall_result st.line_number }

/-- The block `if (chunk.size() >= chunk_size_)` of the loop body: the chunk is handed to the
processor and cleared. -/
def flushIfFull {σ : Type} (p : CsvParser) (processor : ChunkProcessor σ) (st : ParseLoop σ) :
    ParseLoop σ :=
  if st.chunk.length ≥ p.chunk_size_ then { invokeProcessor processor st with chunk := [] }
  else st

/-- Body of the `while (std::getline(stream, line))` loop of `parseString`: the line is
counted; the header line and blank lines are passed over; any other line is decoded and the
chunk size is tested. -/
def parseStringLine {σ : Type} (p : CsvParser) (processor : ChunkProcessor σ)
    (st : ParseLoop σ) (line : List Char) : ParseLoop σ :=
  let st0 := { st with line_number := (st.line_number + 1) % SIZE_T_MOD }
  if st0.is_header = true then { st0 with is_header := false }
  else if trim line = [] then st0
  else flushIfFull p processor (decodeLine p st0 line)

/-- `CsvParser::parseString`: the loop over the lines of the content, then the remaining
records.  It returns `overall_result`, the parser with its updated counter and the state
captured by the processor. -/
def parseString {σ : Type} (p : CsvParser) (content : List Char) (processor : ChunkProcessor σ)
    (captured : σ) : ChunkResult × CsvParser × σ :=
  let start : ParseLoop σ :=
    { overall_result := ChunkResult.new, total_records_processed := 0, chunk := [],
      line_number := 0, is_header := true, captured := captured }
  let st := (getlines content).foldl (parseStringLine p processor) start
  let fin := if st.chunk = [] then st else invokeProcessor processor st
  (fin.overall_result, { p with _total_records_processed := fin.total_records_processed },
    fin.captured)

/-- The block of `parseFile` that hands the current chunk to the processor.  It is the block
of `parseString` with one more statement: after a `false` verdict `message` is pushed on
`overall_result.errors`. -/
def invokeProcessorFile {σ : Type} (processor : ChunkProcessor σ) (st : ParseLoop σ)
    (message : String) : ParseLoop σ :=
  let verdict := processor st.chunk ChunkResult.new st.captured
  let overall :=
    if verdict.1 = false then
      { st.overall_result with
        success := false
        errors := st.overall_result.errors ++ [message] }
    else st.overall_result
  { st with
    overall_result :=
      { overall with
        records_processed := (overall.records_processed + st.chunk.length) % SIZE_T_MOD }
    total_records_processed := (st.total_records_processed + st.chunk.length) % SIZE_T_MOD
    captured := verdict.2.2 }

/-- The `else` branch of `parseFile` for a line that does not decode: the failure counter
grows and, while fewer than 100 messages are held, a message with the line number and the
first 50 characters of the line is logged. -/
def recordFailureFile (overall : ChunkResult) (line_number : Nat) (line : List Char) :
    ChunkResult :=
  let counted := { overall with records_failed := (overall.records_failed + 1) % SIZE_T_MOD }
  if counted.errors.length < 100 then
    { counted with
      errors := counted.errors ++
        ["Failed to parse line " ++ toString line_number ++ ": " ++
          (if line.length > 50 then String.mk (line.take 50) ++ "..." else String.mk line)] }
  else counted

/-- The decoding part of the loop body of `parseFile`. -/
def decodeLineFile {σ : Type} (p : CsvParser) (st : ParseLoop σ) (line : List Char) :
    ParseLoop σ :=
  match parseLine p line with
  | some record => { st with chunk := st.chunk ++ [record] }
  | none => { st with overall_result := recordFailureFile st.overall_result st.line_number line }

/-- The block `if (chunk.size() >= chunk_size_)` of the loop body of `parseFile`. -/
def flushIfFullFile {σ : Type} (p : CsvParser) (processor : ChunkProcessor σ)
    (st : ParseLoop σ) : ParseLoop σ :=
  if st.chunk.length ≥ p.chunk_size_ then
    { invokeProcessorFile processor st
        ("Chunk processing failed at line " ++ toString st.line_number) with chunk := [] }
  else st

/-- Body of the `while (std::getline(file, line))` loop of `parseFile`. -/
def parseFileLine {σ : Type} (p : CsvParser) (processor : ChunkProcessor σ)
    (st : ParseLoop σ) (line : List Char) : ParseLoop σ :=
  let st0 := { st with line_number := (st.line_number + 1) % SIZE_T_MOD }
  if st0.is_header = true then { st0 with is_header := false }
  else if trim line = [] then st0
  else flushIfFullFile p processor (decodeLineFile p st0 line)

/-- `CsvParser::parseFile`.  The file system is represented by what opening `filename` gives:
`none` when the file cannot be opened, `some content` otherwise. -/
def parseFile {σ : Type} (p : CsvParser) (filename : String) (file : Option (List Char))
    (processor : ChunkProcessor σ) (captured : σ) : ChunkResult × CsvParser × σ :=
  match file with
  | none =>
    ({ ChunkResult.new with success := false, errors := ["Failed to open file: " ++ filename] },
      { p with _total_records_processed := 0 }, captured)
  | some content =>
    let start : ParseLoop σ :=
      { overall_result := ChunkResult.new, total_records_processed := 0, chunk := [],
        line_number := 0, is_header := true, captured := captured }
    let st := (getlines content).foldl (parseFileLine p processor) start
    let fin :=
      if st.chunk = [] then st
      else invokeProcessorFile processor st "Final chunk processing failed"
    (fin.overall_result, { p with _total_records_processed := fin.total_records_processed },
      fin.captured)

/-- Body of the loop of `processChunkAnalysis` for one record. -/
def analysisStep (result : ChunkResult) (record : CarSaleRecord) : ChunkResult :=
  let r1 :=
    if record.brand = "Audi" ∧ record.country = "China" ∧ record.year = 2025 then
      { result with audi_china_year_sales := result.audi_china_year_sales + record.quantity }
    else result
  if record.brand = "BMW" ∧ record.year = 2025 then
    let r2 := { r1 with bmw_2025_revenue := r1.bmw_2025_revenue + record.revenue }
    if isEuropeanCountry record.country then
      { r2 with bmw_europe_revenue := r2.bmw_europe_revenue.addAt record.country record.revenue }
    else r2
  else r1

/-- `CsvParser::processChunkAnalysis(chunk, result)`: the loop over the chunk, then
`result.records_processed = chunk.size()`. -/
def processChunkAnalysis (chunk : List CarSaleRecord) (result : ChunkResult) : ChunkResult :=
  { chunk.foldl analysisStep result with records_processed := chunk.length }

/-- `CsvParser::mergeResults(target, source)`.  The source is a `const` reference, so the
embedding returns the new target only. -/
def mergeResults (target source : ChunkResult) : ChunkResult :=
  { target with
    audi_china_year_sales := target.audi_china_year_sales + source.audi_china_year_sales
    bmw_2025_revenue := target.bmw_2025_revenue + source.bmw_2025_revenue
    records_processed := (target.records_processed + source.records_processed) % SIZE_T_MOD
    records_failed := (target.records_failed + source.records_failed) % SIZE_T_MOD
    bmw_europe_revenue :=
      source.bmw_europe_revenue.entries.foldl (fun m e => m.addAt e.1 e.2)
        target.bmw_europe_revenue
    success := if !source.success then false else target.success }

/-- `records_per_thread = (total_records + num_threads - 1) / num_threads` on `size_t`;
`num_threads` is at least 1 at this point of `parseFileConcurrent`. -/
def recordsPerThread (total_records num_threads : Nat) : Nat :=
  ((total_records + num_threads - 1) % SIZE_T_MOD) / num_threads

/-- The dispatch loop of `parseFileConcurrent` (`for (t = 0; t < num_threads; ++t)`), started
at index `t` with `remaining = num_threads - t` iterations left; it returns the chunks copied
for the workers, in launch order.  The copy `[begin + start_idx, begin + end_idx)` is defined
only for `start_idx <= end_idx`. -/
def dispatchFrom (all_records : List CarSaleRecord) (records_per_thread : Nat) :
    Nat → Nat → List (List CarSaleRecord)
  | 0, _ => []
  | remaining + 1, t =>
    let start_idx := (t * records_per_thread) % SIZE_T_MOD
    if start_idx ≥ all_records.length then []
    else
      let end_idx := min ((start_idx + records_per_thread) % SIZE_T_MOD) all_records.length
      ((all_records.drop start_idx).take (end_idx - start_idx)) ::
        dispatchFrom all_records records_per_thread remaining (t + 1)

/-- Chunks handed to the workers by `parseFileConcurrent` for `num_threads` workers. -/
def dispatchChunks (all_records : List CarSaleRecord) (num_threads : Nat) :
    List (List CarSaleRecord) :=
  dispatchFrom all_records (recordsPerThread all_records.length num_threads) num_threads 0

/-- The task run by one worker: a fresh `ChunkResult`, `processChunkAnalysis`, then
`result.success = true`. -/
def workerTask (chunk : List CarSaleRecord) : ChunkResult :=
  { processChunkAnalysis chunk ChunkResult.new with success := true }

/-- The join loop of `parseFileConcurrent`: every partial is merged into `overall_result` in
launch order. -/
def collectResults (overall_result : ChunkResult) (partials : List ChunkResult) : ChunkResult :=
  partials.foldl mergeResults overall_result

/-- The part of `parseFileConcurrent` that follows decoding: the early return on an empty
record sequence, dispatch, join and the final `overall_result.success = true`.  The worker
tasks of the embedding are total functions, so the `catch` branch of the join loop is not
entered. -/
def aggregateConcurrent (overall_result : ChunkResult) (all_records : List CarSaleRecord)
    (num_threads : Nat) : ChunkResult :=
  if all_records.isEmpty then { overall_result with success := true }
  else
    { collectResults overall_result ((dispatchChunks all_records num_threads).map workerTask)
      with success := true }

/-- The reading loop of `parseFileConcurrent`: the header line is passed over and every
later line whose trimmed text is not empty is kept. -/
def readDataLines (content : List Char) : List (List Char) :=
  ((getlines content).drop 1).filter (fun line => !(trim line).isEmpty)

/-- The decoding loop of `parseFileConcurrent`: a decoded record is pushed on `all_records`,
a failure increments `overall_result.records_failed`. -/
def decodeAllLines (p : CsvParser) (overall_result : ChunkResult)
    (all_lines : List (List Char)) : List CarSaleRecord × ChunkResult :=
  all_lines.foldl
    (fun acc line =>
      match parseLine p line with
      | some record => (acc.1 ++ [record], acc.2)
      | none => (acc.1, { acc.2 with records_failed := (acc.2.records_failed + 1) % SIZE_T_MOD }))
    ([], overall_result)

/-- `CsvParser::parseFileConcurrent`.  The file is represented as in `parseFile`;
`hardware_concurrency` is the value of `std::thread::hardware_concurrency()`. -/
def parseFileConcurrent (p : CsvParser) (filename : String) (file : Option (List Char))
    (num_threads hardware_concurrency : Nat) : ChunkResult × CsvParser :=
  let overall_result := ChunkResult.new
  let p0 := { p with _total_records_processed := 0 }
  let num_threads :=
    if num_threads = 0 then (if hardware_concurrency = 0 then 4 else hardware_concurrency)
    else num_threads
  match file with
  | none =>
    ({ overall_result with success := false, errors := ["Failed to open file: " ++ filename] },
      p0)
  | some content =>
    let all_lines := readDataLines content
    if all_lines.isEmpty then ({ overall_result with success := true }, p0)
    else
      let decoded := decodeAllLines p overall_result all_lines
      if decoded.1.isEmpty then ({ decoded.2 with success := true }, p0)
      else
        let result := aggregateConcurrent decoded.2 decoded.1 num_threads
        (result, { p with _total_records_processed := result.records_processed })

/-- `CsvParser::setChunkSize`. -/
def setChunkSize (p : CsvParser) (size : Nat) : CsvParser :=
  { p with chunk_size_ := size }

/-- The dispatch loop of `parseFileConcurrent` once more, returning the index pairs
`(start_idx, end_idx)` from which the chunks are copied instead of the chunks. -/
def dispatchRangesFrom (total_records records_per_thread : Nat) : Nat → Nat → List (Nat × Nat)
  | 0, _ => []
  | remaining + 1, t =>
    let start_idx := (t * records_per_thread) % SIZE_T_MOD
    if start_idx ≥ total_records then []
    else
      let end_idx := min ((start_idx + records_per_thread) % SIZE_T_MOD) total_records
      (start_idx, end_idx) ::
        dispatchRangesFrom total_records records_per_thread remaining (t + 1)

/-- Index pairs of the chunks dispatched for `total_records` records and `num_threads`
workers. -/
def dispatchRanges (total_records num_threads : Nat) : List (Nat × Nat) :=
  dispatchRangesFrom total_records (recordsPerThread total_records num_threads) num_threads 0

/-- The join loop of `parseFileConcurrent` with both branches of its `try`: for every worker,
`future.get()` either gives the partial, which is merged, or throws, and then the `catch`
branch clears `success` and logs the message of the exception. -/
def joinLoop (overall_result : ChunkResult) (outcomes : List (Except String ChunkResult)) :
    ChunkResult :=
  outcomes.foldl
    (fun overall outcome =>
      match outcome with
      | Except.ok part => mergeResults overall part
      | Except.error what =>
        { overall with success := false, errors := overall.errors ++ ["Thread error: " ++ what] })
    overall_result

/-- The part of `parseFileConcurrent` that follows decoding, for workers that may throw:
`task` gives, for the chunk of a worker, what `future.get()` returns or the message of the
exception it throws. -/
def aggregateConcurrentWith (task : List CarSaleRecord → Except String ChunkResult)
    (overall_result : ChunkResult) (all_records : List CarSaleRecord) (num_threads : Nat) :
    ChunkResult :=
  if all_records.isEmpty then { overall_result with success := true }
  else
    { joinLoop overall_result ((dispatchChunks all_records num_threads).map task)
      with success := true }

/-- `CsvParser::parseFileConcurrent` for workers that may throw (see
`aggregateConcurrentWith`); every other statement is as in `parseFileConcurrent`. -/
def parseFileConcurrentWith (task : List CarSaleRecord → Except String ChunkResult)
    (p : CsvParser) (filename : String) (file : Option (List Char))
    (num_threads hardware_concurrency : Nat) : ChunkResult × CsvParser :=
  let overall_result := ChunkResult.new
  let p0 := { p with _total_records_processed := 0 }
  let num_threads :=
    if num_threads = 0 then (if hardware_concurrency = 0 then 4 else hardware_concurrency)
    else num_threads
  match file with
  | none =>
    ({ overall_result with success := false, errors := ["Failed to open file: " ++ filename] },
      p0)
  | some content =>
    let all_lines := readDataLines content
    if all_lines.isEmpty then ({ overall_result with success := true }, p0)
    else
      let decoded := decodeAllLines p overall_result all_lines
      if decoded.1.isEmpty then ({ decoded.2 with success := true }, p0)
      else
        let result := aggregateConcurrentWith task decoded.2 decoded.1 num_threads
        (result, { p with _total_records_processed := result.records_processed })

end CsvParser

/-! ## `data_analyzer.cpp` -/

/-- Analysis result containing all computed metrics (`struct AnalysisResult`). -/
structure AnalysisResult where
  audi_china_year_sales : Int
  bmw_year_total_revenue : ℚ
  _bmw_europe_revenuedistribution : List (String × ℚ)
  total_records_processed : Nat
  total_records_failed : Nat
  analysis_complete : Bool
  errors : List String

/-- State of a `CarSalesAnalyzer`: the owned parser (member `_parser` of the class, here
`parser_`), the accumulated metrics and the statistics. -/
structure CarSalesAnalyzer where
  parser_ : CsvParser
  _audi_china_year_sales : Int
  _bmw_2025_revenue : ℚ
  _bmw_europe_revenue : RevenueMap
  _total_records_processed : Nat
  _total_records_failed : Nat
  _errors : List String

namespace CarSalesAnalyzer

/-- The static member `CarSalesAnalyzer::EUROPEAN_COUNTRIES`. -/
def EUROPEAN_COUNTRIES : List String :=
  ["Germany", "France", "United Kingdom", "UK", "Italy", "Spain", "Netherlands", "Belgium",
   "Austria", "Switzerland", "Sweden", "Norway", "Denmark", "Finland", "Poland",
   "Czech Republic", "Portugal", "Greece", "Ireland", "Hungary", "Romania", "Bulgaria",
   "Croatia", "Slovakia", "Slovenia", "Lithuania", "Latvia", "Estonia", "Luxembourg", "Malta",
   "Cyprus", "Iceland", "Serbia", "Montenegro", "North Macedonia", "Albania",
   "Bosnia and Herzegovina", "Moldova", "Ukraine", "Belarus", "Russia"]

/-- `CarSalesAnalyzer::isEuropeanCountry`. -/
def isEuropeanCountry (country : String) : Bool := EUROPEAN_COUNTRIES.contains country

/-- The constructor `CarSalesAnalyzer(chunk_size)`; the parser is built with the tab
delimiter. -/
def new (chunk_size : Nat) : CarSalesAnalyzer :=
  { parser_ := CsvParser.new chunk_size '\t'
    _audi_china_year_sales := 0, _bmw_2025_revenue := 0, _bmw_europe_revenue := RevenueMap.empty,
    _total_records_processed := 0, _total_records_failed := 0, _errors := [] }

/-- `CarSalesAnalyzer::reset`: every accumulated value is cleared, the parser is kept. -/
def reset (a : CarSalesAnalyzer) : CarSalesAnalyzer :=
  { a with
    _audi_china_year_sales := 0, _bmw_2025_revenue := 0, _bmw_europe_revenue := RevenueMap.empty,
    _total_records_processed := 0, _total_records_failed := 0, _errors := [] }

/-- `CarSalesAnalyzer::processRecord`. -/
def processRecord (a : CarSalesAnalyzer) (record : CarSaleRecord) : CarSalesAnalyzer :=
  let a1 :=
    if record.brand = "Audi" ∧ record.country = "China" ∧ record.year = 2025 then
      { a with _audi_china_year_sales := a._audi_china_year_sales + record.quantity }
    else a
  if record.brand = "BMW" ∧ record.year = 2025 then
    let a2 := { a1 with _bmw_2025_revenue := a1._bmw_2025_revenue + record.revenue }
    if isEuropeanCountry record.country then
      { a2 with
        _bmw_europe_revenue := a2._bmw_europe_revenue.addAt record.country record.revenue }
    else a2
  else a1

/-- `CarSalesAnalyzer::processChunk`. -/
def processChunk (a : CarSalesAnalyzer) (records : List CarSaleRecord) : CarSalesAnalyzer :=
  let a1 := records.foldl processRecord a
  { a1 with
    _total_records_processed := (a1._total_records_processed + records.length) % SIZE_T_MOD }

/-- One step of the insertion sort: `val` moves left past every element that the comparator
`a.second > b.second` puts after it. -/
def linearInsert (val : String × ℚ) : List (String × ℚ) → List (String × ℚ)
  | [] => [val]
  | e :: rest => if val.2 > e.2 then val :: e :: rest else e :: linearInsert val rest

/-- The call `std::sort(begin, end, [](a, b) { return a.second > b.second; })`.  The library
promises a rearrangement ordered by the comparator; the embedding runs the insertion sort
that the library applies to short ranges, which consults the comparator only. -/
def sortByRevenueDesc (v : List (String × ℚ)) : List (String × ℚ) :=
  v.foldl (fun sorted val => linearInsert val sorted) []

/-- `CarSalesAnalyzer::getBmwEuropeRevenueDistribution`: the entries are copied in iteration
order and sorted by revenue, highest first. -/
def getBmwEuropeRevenueDistribution (a : CarSalesAnalyzer) : List (String × ℚ) :=
  sortByRevenueDesc a._bmw_europe_revenue.entries

/-- `CarSalesAnalyzer::getResults`. -/
def getResults (a : CarSalesAnalyzer) : AnalysisResult :=
  { audi_china_year_sales := a._audi_china_year_sales
    bmw_year_total_revenue := a._bmw_2025_revenue
    _bmw_europe_revenuedistribution := getBmwEuropeRevenueDistribution a
    total_records_processed := a._total_records_processed
    total_records_failed := a._total_records_failed
    errors := a._errors
    analysis_complete := true }

/-- The lambda `processor` of `analyzeFile` and `analyzeString`, which captures `this`:
`processChunk(chunk)`, then `result.success = true`, `result.records_processed = chunk.size()`
and `return true`.  `processChunk` is a total function of the embedding, so the `catch`
branch is not entered. -/
def processor : ChunkProcessor CarSalesAnalyzer := fun chunk result a =>
  (true, { result with success := true, records_processed := chunk.length },
    a.processChunk chunk)

/-- `CarSalesAnalyzer::analyzeString`.  It returns the result and the analyzer after the
call. -/
def analyzeString (a : CarSalesAnalyzer) (content : List Char) :
    AnalysisResult × CarSalesAnalyzer :=
  let a0 := a.reset
  let run := CsvParser.parseString a0.parser_ content processor a0
  let parse_result := run.1
  let a1 :=
    { run.2.2 with
      parser_ := run.2.1
      _total_records_failed := parse_result.records_failed
      _errors := parse_result.errors }
  if parse_result.success = false then ({ a1.getResults with analysis_complete := false }, a1)
  else (a1.getResults, a1)

/-- `CarSalesAnalyzer::analyzeFile`, with the file and `hardware_concurrency` represented as
in `parseFile` and `parseFileConcurrent`. -/
def analyzeFile (a : CarSalesAnalyzer) (filename : String) (file : Option (List Char))
    (use_concurrent : Bool) (num_threads hardware_concurrency : Nat) :
    AnalysisResult × CarSalesAnalyzer :=
  let a0 := a.reset
  if use_concurrent = true then
    let run := CsvParser.parseFileConcurrent a0.parser_ filename file num_threads
      hardware_concurrency
    let parse_result := run.1
    let a1 : CarSalesAnalyzer :=
      { parser_ := run.2
        _audi_china_year_sales := parse_result.audi_china_year_sales
        _bmw_2025_revenue := parse_result.bmw_2025_revenue
        _bmw_europe_revenue := parse_result.bmw_europe_revenue
        _total_records_processed := parse_result.records_processed
        _total_records_failed := parse_result.records_failed
        _errors := parse_result.errors }
    if parse_result.success = false then ({ a1.getResults with analysis_complete := false }, a1)
    else (a1.getResults, a1)
  else
    let run := CsvParser.parseFile a0.parser_ filename file processor a0
    let parse_result := run.1
    let a1 :=
      { run.2.2 with
        parser_ := run.2.1
        _total_records_failed := parse_result.records_failed
        _errors := parse_result.errors }
    if parse_result.success = false then ({ a1.getResults with analysis_complete := false }, a1)
    else (a1.getResults, a1)

/-- The concurrent branch of `analyzeFile` after the call of the parser: the results are
transferred into the analyzer and the completion flag follows `parse_result.success`. -/
def transferConcurrent (run : ChunkResult × CsvParser) : AnalysisResult × CarSalesAnalyzer :=
  let parse_result := run.1
  let a1 : CarSalesAnalyzer :=
    { parser_ := run.2
      _audi_china_year_sales := parse_result.audi_china_year_sales
      _bmw_2025_revenue := parse_result.bmw_2025_revenue
      _bmw_europe_revenue := parse_result.bmw_europe_revenue
      _total_records_processed := parse_result.records_processed
      _total_records_failed := parse_result.records_failed
      _errors := parse_result.errors }
  if parse_result.success = false then ({ a1.getResults with analysis_complete := false }, a1)
  else (a1.getResults, a1)

end CarSalesAnalyzer

/-! ## Specification-side definitions -/

/-- Combination of two optional bucket values: what `target[k] += v` leaves in the target when
the source holds `b` and the target held `a`. -/
def mergeOpt (a b : Option ℚ) : Option ℚ :=
  match b with
  | none => a
  | some v => some (a.getD 0 + v)

/-- Records that match Metric A: brand "Audi", country "China", year 2025. -/
def audiChinaRecords (records : List CarSaleRecord) : List CarSaleRecord :=
  records.filter (fun r => r.brand = "Audi" ∧ r.country = "China" ∧ r.year = 2025)

/-- Records that match Metric B: brand "BMW", year 2025. -/
def bmwRecords (records : List CarSaleRecord) : List CarSaleRecord :=
  records.filter (fun r => r.brand = "BMW" ∧ r.year = 2025)

/-- Records that match Metric B and carry the country `k`. -/
def bmwRecordsIn (records : List CarSaleRecord) (k : String) : List CarSaleRecord :=
  records.filter (fun r => r.brand = "BMW" ∧ r.year = 2025 ∧ r.country = k)

/-- Sum of `quantity` over a list of records. -/
def totalQuantity (records : List CarSaleRecord) : Int := (records.map (·.quantity)).sum

/-- Exact sum of `revenue` over a list of records. -/
def totalRevenue (records : List CarSaleRecord) : ℚ := (records.map (·.revenue)).sum

/-- Bucket of region `k` after the records have been aggregated into a map whose bucket for
`k` was `o`. -/
def bucketAfter (o : Option ℚ) (records : List CarSaleRecord) (k : String) : Option ℚ :=
  if isEuropeanCountry k = true ∧ bmwRecordsIn records k ≠ [] then
    some (o.getD 0 + totalRevenue (bmwRecordsIn records k))
  else o

/-- The three metric updates of one record on the triple (unit count, revenue sum, region
map); `processChunkAnalysis` and `processRecord` both perform exactly these. -/
def metricStep (m : Int × ℚ × RevenueMap) (r : CarSaleRecord) : Int × ℚ × RevenueMap :=
  (if r.brand = "Audi" ∧ r.country = "China" ∧ r.year = 2025 then m.1 + r.quantity else m.1,
   if r.brand = "BMW" ∧ r.year = 2025 then m.2.1 + r.revenue else m.2.1,
   if r.brand = "BMW" ∧ r.year = 2025 ∧ isEuropeanCountry r.country = true then
     m.2.2.addAt r.country r.revenue
   else m.2.2)

/-- The three metrics held by a `ChunkResult`. -/
def ChunkResult.metrics (r : ChunkResult) : Int × ℚ × RevenueMap :=
  (r.audi_china_year_sales, r.bmw_2025_revenue, r.bmw_europe_revenue)

/-- The three metrics held by a `CarSalesAnalyzer`. -/
def CarSalesAnalyzer.metrics (a : CarSalesAnalyzer) : Int × ℚ × RevenueMap :=
  (a._audi_china_year_sales, a._bmw_2025_revenue, a._bmw_europe_revenue)

/-- Bucket of region `k` after one record, when it was `o` before. -/
def stepBucket (o : Option ℚ) (r : CarSaleRecord) (k : String) : Option ℚ :=
  if r.brand = "BMW" ∧ r.year = 2025 ∧ isEuropeanCountry r.country = true ∧ r.country = k then
    some (o.getD 0 + r.revenue)
  else o

/-- Two results carry the same unit count, the same revenue sum, the same region-to-revenue
mapping and the same `records_processed`. -/
def sameAggregates (x y : ChunkResult) : Prop :=
  x.audi_china_year_sales = y.audi_china_year_sales ∧
  x.bmw_2025_revenue = y.bmw_2025_revenue ∧
  (∀ k, x.bmw_europe_revenue.find k = y.bmw_europe_revenue.find k) ∧
  x.records_processed = y.records_processed

/-! ## Specification-side definitions for the decoder -/

/-- A date of the form DD-MM-YYYY: two digits, a dash, two digits, a dash, four digits. -/
def isDateDDMMYYYY : List Char → Bool
  | [d1, d2, a, m1, m2, b, y1, y2, y3, y4] =>
    isdigit d1 && isdigit d2 && decide (a = '-') && isdigit m1 && isdigit m2 &&
      decide (b = '-') && isdigit y1 && isdigit y2 && isdigit y3 && isdigit y4
  | _ => false

/-- Numeric value of the YYYY part of a ten-character date. -/
def dateYear : List Char → Int
  | [_, _, _, _, _, _, y1, y2, y3, y4] =>
    1000 * (digitValue y1 : Int) + 100 * (digitValue y2 : Int) + 10 * (digitValue y3 : Int) +
      (digitValue y4 : Int)
  | _ => 0

/-- A string without its optional leading `+` or `-`. -/
def stripSign : List Char → List Char
  | [] => []
  | c :: rest => if c = '-' ∨ c = '+' then rest else c :: rest

/-- The price grammar: an optional leading `+` or `-`, then a non-empty run of digits and
points with at most one point. -/
def matchesPriceGrammar (str : List Char) : Prop :=
  stripSign str ≠ [] ∧ (∀ c ∈ stripSign str, isdigit c = true ∨ c = '.') ∧
    (stripSign str).count '.' ≤ 1

/-- A decimal numeral: a string of the price grammar that holds at least one digit. -/
def isDecimalNumeral (str : List Char) : Prop :=
  matchesPriceGrammar str ∧ ∃ c ∈ stripSign str, isdigit c = true

/-- Exact value of a decimal numeral: the digits read as one integer, scaled by the number of
digits behind the point, with the sign in front. -/
def decimalValue (str : List Char) : ℚ :=
  let body := stripSign str
  let scaled : ℚ := (digitsValue (body.filter isdigit) : ℚ) /
    (10 : ℚ) ^ ((body.dropWhile (fun c => c ≠ '.')).drop 1).length
  if str.head? = some '-' then -scaled else scaled

/-- Value of a string that is, as a whole, an optional sign followed by digits only. -/
def integerValue (str : List Char) : Option Int :=
  if stripSign str ≠ [] ∧ (stripSign str).all isdigit then
    some (if str.head? = some '-' then -(digitsValue (stripSign str) : Int)
      else (digitsValue (stripSign str) : Int))
  else none

/-- A number within the range of `double`: below the overflow bound in magnitude, and zero
or of magnitude at least `DBL_MIN`. -/
def fitsDouble (v : ℚ) : Prop :=
  -DBL_OVERFLOW < v ∧ v < DBL_OVERFLOW ∧ (v = 0 ∨ DBL_MIN ≤ v ∨ v ≤ -DBL_MIN)

/-- Field `i` of a line, as `splitLine` returns it for the parser's delimiter (already
trimmed). -/
def fieldAt (p : CsvParser) (line : List Char) (i : Nat) : List Char :=
  (CsvParser.splitLine line p.delimiter_).getD i []

instance : DecidablePred matchesPriceGrammar := fun str => by
  unfold matchesPriceGrammar
  infer_instance

instance : DecidablePred isDecimalNumeral := fun str => by
  unfold isDecimalNumeral
  infer_instance

instance : DecidablePred fitsDouble := fun v => by
  unfold fitsDouble
  infer_instance

/-- The helper `createLine` of the tests: a tab-separated row of 43 columns with the given
date, country, manufacturer and price text. -/
def createLine (sale_date country manufacturer sale_price : String) : List Char :=
  ("SALE001\t" ++ sale_date ++ "\t" ++ country ++ "\tRegion\t0.0\t0.0\tD001\tDealer 1\t" ++
    manufacturer ++ "\tModel\t2025\tSedan\tPetrol\tAutomatic\tAWD\tBlack\tVIN123\tNew\t0\t0\t" ++
    sale_price ++ "\tUSD\tTRUE\tLease\tIn-store\tB001\t35\tMale\t75000\tS001\tSales 1\t48\t" ++
    "Manufacturer\tFeatures\t120\t25\t32\t2.0\t201\t280\t4.5\t\tFALSE").toList

/-! ## Specification-side definitions for `parseString` -/

/-- A line that holds white space only (or nothing). -/
def isBlank (line : List Char) : Bool := line.all isspace

/-- Records decoded from a list of lines, in order; blank lines are passed over. -/
def decodedOf (p : CsvParser) (lines : List (List Char)) : List CarSaleRecord :=
  (lines.filter (fun l => !isBlank l)).filterMap (CsvParser.parseLine p)

/-- Number of lines of a list that are not blank and do not decode. -/
def failedOf (p : CsvParser) (lines : List (List Char)) : Nat :=
  ((lines.filter (fun l => !isBlank l)).filter
    (fun l => (CsvParser.parseLine p l).isNone)).length

/-- The decoded records of a content: the records of the lines after the first. -/
def decodedRecords (p : CsvParser) (content : List Char) : List CarSaleRecord :=
  decodedOf p ((getlines content).drop 1)

/-- Number of lines after the first that are not blank and do not decode. -/
def failedLineCount (p : CsvParser) (content : List Char) : Nat :=
  failedOf p ((getlines content).drop 1)

/-- The log kept by an instrumented processor: every batch it received, with its verdict. -/
abbrev CallLog := List (List CarSaleRecord × Bool)

/-- A processor instrumented to log its calls: it behaves as `processor` on the captured state
and appends the batch and the verdict to the log. -/
def recording {σ : Type} (processor : ChunkProcessor σ) : ChunkProcessor (σ × CallLog) :=
  fun chunk result captured =>
    ((processor chunk result captured.1).1, (processor chunk result captured.1).2.1,
      ((processor chunk result captured.1).2.2,
        captured.2 ++ [(chunk, (processor chunk result captured.1).1)]))

/-- Batches of a call log, in invocation order. -/
def batchesOf (log : CallLog) : List (List CarSaleRecord) := log.map Prod.fst

/-- The loop state without the call log. -/
def ParseLoop.forget {σ : Type} (st : ParseLoop (σ × CallLog)) : ParseLoop σ :=
  { overall_result := st.overall_result
    total_records_processed := st.total_records_processed
    chunk := st.chunk
    line_number := st.line_number
    is_header := st.is_header
    captured := st.captured.1 }

/-- Invariant of the reading loop of `parseString` run with an instrumented processor, after
lines that decode to `D` and hold `F` failures; `slack` is 1 between the push of a record and
the test of the chunk size. -/
structure LoopInv {σ : Type} (c : Nat) (D : List CarSaleRecord) (F : Nat) (slack : Nat)
    (st : ParseLoop (σ × CallLog)) : Prop where
  header : st.is_header = false
  failed : st.overall_result.records_failed = F % SIZE_T_MOD
  errors : st.overall_result.errors.length = min F 100
  records : (batchesOf st.captured.2).flatten ++ st.chunk = D
  processed : st.overall_result.records_processed =
    ((batchesOf st.captured.2).map List.length).sum % SIZE_T_MOD
  total : st.total_records_processed =
    ((batchesOf st.captured.2).map List.length).sum % SIZE_T_MOD
  success : st.overall_result.success = st.captured.2.all (fun e => e.2)
  full : 1 ≤ c → ∀ b ∈ batchesOf st.captured.2, b.length = c
  room : 1 ≤ c → st.chunk.length < c + slack

/-- What the instrumented run of `parseString` leaves behind, in terms of the decoded records
and the failures of the lines after the first. -/
structure RunSummary (c : Nat) (D : List CarSaleRecord) (F : Nat) (res : ChunkResult)
    (total : Nat) (log : CallLog) : Prop where
  records : (batchesOf log).flatten = D
  failed : res.records_failed = F % SIZE_T_MOD
  errors : res.errors.length = min F 100
  processed : res.records_processed = D.length % SIZE_T_MOD
  handed : res.records_processed = ((batchesOf log).map List.length).sum % SIZE_T_MOD
  total : total = D.length % SIZE_T_MOD
  success : res.success = log.all (fun e => e.2)
  full : 1 ≤ c → ∀ b ∈ (batchesOf log).dropLast, b.length = c
  last : 1 ≤ c → ∀ b, (batchesOf log).getLast? = some b → 1 ≤ b.length ∧ b.length ≤ c
  count : 1 ≤ c → (batchesOf log).length = (D.length + c - 1) / c

/-- The calls that `parseString` makes to the processor: the log an instrumented copy of the
processor keeps, starting from the empty log. -/
def callsOf {σ : Type} (p : CsvParser) (content : List Char) (processor : ChunkProcessor σ)
    (captured : σ) : CallLog :=
  (CsvParser.parseString p content (recording processor) (captured, [])).2.2.2

/-- Two loop states that agree on every field but the captured state, where the captured
states are related by `R`. -/
def ParseLoop.Related {σ τ : Type} (R : σ → τ → Prop) (st : ParseLoop σ) (st' : ParseLoop τ) :
    Prop :=
  st.overall_result = st'.overall_result ∧
  st.total_records_processed = st'.total_records_processed ∧
  st.chunk = st'.chunk ∧ st.line_number = st'.line_number ∧ st.is_header = st'.is_header ∧
  R st.captured st'.captured

/-- The processor `q` on `σ` and the processor `q'` on `τ` give the same verdict on related
states and leave related states. -/
def Simulates {σ τ : Type} (R : σ → τ → Prop) (q : ChunkProcessor σ) (q' : ChunkProcessor τ) :
    Prop :=
  ∀ chunk s t, R s t →
    (q chunk ChunkResult.new s).1 = (q' chunk ChunkResult.new t).1 ∧
    R (q chunk ChunkResult.new s).2.2 (q' chunk ChunkResult.new t).2.2

/-- State that the captured state reaches when the processor receives the batches in order,
each with a fresh `ChunkResult`. -/
def afterBatches {σ : Type} (processor : ChunkProcessor σ) (batches : List (List CarSaleRecord))
    (captured : σ) : σ :=
  batches.foldl (fun s b => (processor b ChunkResult.new s).2.2) captured

/-- The run of `parseString` on the lines that follow the header line. -/
def parseDataLines {σ : Type} (p : CsvParser) (lines : List (List Char))
    (processor : ChunkProcessor σ) (captured : σ) : ChunkResult × CsvParser × σ :=
  let st := lines.foldl (CsvParser.parseStringLine p processor)
    { overall_result := ChunkResult.new, total_records_processed := 0, chunk := [],
      line_number := (0 + 1) % SIZE_T_MOD, is_header := false, captured := captured }
  let fin := if st.chunk = [] then st else CsvParser.invokeProcessor processor st
  (fin.overall_result, { p with _total_records_processed := fin.total_records_processed },
    fin.captured)

/-- Number of delimiter characters of the line that are preceded by an even number of
double-quote characters. -/
def delimitersOutsideQuotes (line : List Char) (delimiter : Char) : Nat :=
  ((List.range line.length).filter
    (fun i => decide (line.getD i ' ' = delimiter ∧ (line.take i).count '"' % 2 = 0))).length

/-- The same count for a text that follows `quotes` double-quote characters. -/
def delimitersAfterQuotes (quotes : Nat) (line : List Char) (delimiter : Char) : Nat :=
  ((List.range line.length).filter
    (fun i =>
      decide (line.getD i ' ' = delimiter ∧ (quotes + (line.take i).count '"') % 2 = 0))).length

/-- The ranges named by the specification for `n` records and `W` workers:
`[t * r, min ((t + 1) * r) n)` for `r = ceil (n / W)` and `t = 0, 1, ...` while `t * r < n`. -/
def shareRanges (n W : Nat) : List (Nat × Nat) :=
  ((List.range n).takeWhile (fun t => decide (t * ((n + W - 1) / W) < n))).map
    (fun t => (t * ((n + W - 1) / W), min ((t + 1) * ((n + W - 1) / W)) n))

/-- The loop state without the logged messages. -/
def ParseLoop.withoutErrors {σ : Type} (st : ParseLoop σ) : ParseLoop σ :=
  { st with overall_result := { st.overall_result with errors := [] } }

/-! ## Example inputs -/

/-- Example input for partition invariance: five decoded records. -/
def exampleRecords : List CarSaleRecord :=
  [⟨"Audi", "China", 2025, 1, 45000⟩, ⟨"BMW", "Germany", 2025, 1, 48000⟩,
   ⟨"BMW", "China", 2025, 1, 150000⟩, ⟨"BMW", "France", 2025, 1, 75000⟩,
   ⟨"BMW", "Germany", 2025, 1, 52000⟩]

/-- Example merge target: three records processed, one failed, one region bucket. -/
def exampleTarget : ChunkResult :=
  { records_processed := 3, records_failed := 1, errors := [], success := true,
    audi_china_year_sales := 2, bmw_2025_revenue := 48000,
    bmw_europe_revenue := RevenueMap.empty.addAt "Germany" 48000 }

/-- Example merge source: four records processed, two failed, two region buckets. -/
def exampleSource : ChunkResult :=
  { records_processed := 4, records_failed := 2, errors := [], success := false,
    audi_china_year_sales := 1, bmw_2025_revenue := 127000,
    bmw_europe_revenue := (RevenueMap.empty.addAt "France" 75000).addAt "Germany" 52000 }

/-- A processor that counts its invocations and accepts every batch. -/
def countingProcessor : ChunkProcessor Nat := fun _ result n => (true, result, n + 1)

/-- A processor that rejects every batch (the test `ProcessorFailure`). -/
def failingProcessor : ChunkProcessor Unit := fun _ result u => (false, result, u)

/-- A short header line, with its line end. -/
def exampleHeader : List Char := "sale_id\tsale_date\tcountry\n".toList

/-- A row of exactly 21 short columns with the given date, country, manufacturer and price
text, without line end. -/
def shortRow (sale_date country manufacturer sale_price : String) : List Char :=
  ("S1\t" ++ sale_date ++ "\t" ++ country ++ "\tR\t0\t0\tD1\tN\t" ++ manufacturer ++
    "\tM\t2025\tS\tP\tA\tW\tB\tV\tN\t0\t0\t" ++ sale_price).toList

/-- Ten valid rows after the header, with prices 45000 .. 45009 (as in the test
`ChunkingWithSmallChunkSize`). -/
def tenRows : List Char :=
  exampleHeader ++
    (["45000", "45001", "45002", "45003", "45004", "45005", "45006", "45007", "45008",
      "45009"].map (fun price => shortRow "15-01-2025" "China" "Audi" price ++ ['\n'])).flatten

/-- A header, a valid row, a blank line, a row with too few fields, a row with a bad price and
a second valid row without line end. -/
def mixedRows : List Char :=
  exampleHeader ++ shortRow "15-01-2025" "China" "Audi" "45000" ++ "\n   \n".toList ++
    "SALE001\t15-01-2025\tChina\n".toList ++ shortRow "15-01-2025" "China" "Audi" "4x" ++
    ['\n'] ++ shortRow "20-02-2025" "Germany" "BMW" "75000"

/-- A header followed by 101 lines that do not decode. -/
def manyBadRows : List Char := exampleHeader ++ (List.replicate 101 "bad\n".toList).flatten

/-- A valid Audi/China/2025 row, without line end. -/
def audiRow : List Char := shortRow "15-01-2025" "China" "Audi" "45000"

/-- A header, 100 lines that do not decode and one valid row. -/
def badRowsThenValidRow : List Char :=
  exampleHeader ++ (List.replicate 100 "bad\n".toList).flatten ++ audiRow

/-- A header, one line that does not decode and one valid row. -/
def badRowAndValidRow : List Char := exampleHeader ++ "bad\n".toList ++ audiRow ++ ['\n']

/-- A header followed by two lines of white space. -/
def headerAndBlankLines : List Char := exampleHeader ++ "   \n\t\n".toList

/-- A line of three fields, without line end. -/
def threeFieldLine : List Char := "SALE001\t15-01-2025\tChina".toList

/-- A header followed by one line that does not decode. -/
def headerAndBadRow : List Char := exampleHeader ++ "bad\n".toList

/-- A worker task that throws for every chunk. -/
def throwingTask : List CarSaleRecord → Except String ChunkResult :=
  fun _ => Except.error "std::bad_alloc"

/-- A row of 21 columns with a valid date, country and brand whose price is the decimal
numeral 1 followed by 400 zeros. -/
def hugePriceRow : List Char :=
  shortRow "15-01-2025" "China" "Audi" (String.mk ('1' :: List.replicate 400 '0'))

/-! ## Lemmas on the container -/

theorem findEntry_updateEntry (l : List (String × ℚ)) (k : String) (v : ℚ) (k' : String) :
    findEntry (updateEntry l k v) k' =
      if k' = k then (findEntry l k).map (fun x => x + v) else findEntry l k' := by
  induction l with
  | nil =>
    by_cases h : k' = k
    · simp [updateEntry, findEntry, h]
    · simp [updateEntry, findEntry, h]
  | cons p rest ih =>
    obtain ⟨k1, x⟩ := p
    by_cases h1 : k1 = k
    · subst h1
      by_cases h : k' = k1
      · subst h
        simp [updateEntry, findEntry]
      · have h' : ¬ k1 = k' := fun e => h e.symm
        simp [updateEntry, findEntry, h, h']
    · by_cases h : k' = k
      · subst h
        simp [updateEntry, findEntry, h1, ih]
      · simp only [updateEntry, if_neg h1, findEntry, ih, if_neg h]

theorem findEntry_of_mem_keys (l : List (String × ℚ)) (k : String) (h : k ∈ keysOf l) :
    ∃ x, findEntry l k = some x := by
  induction l with
  | nil => cases h
  | cons p rest ih =>
    obtain ⟨k1, x⟩ := p
    by_cases h1 : k1 = k
    · exact ⟨x, by simp [findEntry, h1]⟩
    · have hrest : k ∈ keysOf rest := by
        simp only [keysOf, List.map_cons, List.mem_cons] at h
        rcases h with h | h
        · exact absurd h.symm h1
        · exact h
      obtain ⟨y, hy⟩ := ih hrest
      exact ⟨y, by simp [findEntry, h1, hy]⟩

theorem findEntry_of_not_mem_keys (l : List (String × ℚ)) (k : String) (h : k ∉ keysOf l) :
    findEntry l k = none := by
  induction l with
  | nil => rfl
  | cons p rest ih =>
    obtain ⟨k1, x⟩ := p
    simp only [keysOf, List.map_cons, List.mem_cons, not_or] at h
    have h1 : ¬ k1 = k := fun e => h.1 e.symm
    simp only [findEntry, if_neg h1]
    exact ih h.2

theorem findEntry_addEntry (l : List (String × ℚ)) (k : String) (v : ℚ) (k' : String) :
    findEntry (addEntry l k v) k' =
      if k' = k then some ((findEntry l k).getD 0 + v) else findEntry l k' := by
  unfold addEntry
  by_cases hk : k ∈ keysOf l
  · obtain ⟨x, hx⟩ := findEntry_of_mem_keys l k hk
    rw [if_pos hk, findEntry_updateEntry, hx]
    rfl
  · have hnone := findEntry_of_not_mem_keys l k hk
    rw [if_neg hk, hnone]
    by_cases h : k' = k
    · subst h
      simp [findEntry]
    · have h' : ¬ k = k' := fun e => h e.symm
      simp [findEntry, h, h']

theorem findEntry_eq_none_of_not_mem (l : List (String × ℚ)) (k : String)
    (h : k ∉ keysOf l) : findEntry l k = none := by
  induction l with
  | nil => rfl
  | cons p rest ih =>
    obtain ⟨k1, x⟩ := p
    simp only [keysOf, List.map_cons, List.mem_cons, not_or] at h
    have h1 : ¬ k1 = k := fun e => h.1 e.symm
    simp only [findEntry, if_neg h1]
    exact ih h.2

theorem findEntry_isSome_iff (l : List (String × ℚ)) (k : String) :
    (findEntry l k).isSome ↔ k ∈ keysOf l := by
  induction l with
  | nil => simp [findEntry, keysOf]
  | cons p rest ih =>
    obtain ⟨k1, x⟩ := p
    by_cases h1 : k1 = k
    · subst h1
      simp [findEntry, keysOf]
    · have h' : ¬ k = k1 := fun e => h1 e.symm
      simp only [findEntry, if_neg h1, ih]
      simp [keysOf, h']

theorem find_foldl_addAt (s : List (String × ℚ)) (hs : (keysOf s).Nodup) (t : RevenueMap)
    (k : String) :
    (s.foldl (fun m e => m.addAt e.1 e.2) t).find k = mergeOpt (t.find k) (findEntry s k) := by
  induction s generalizing t with
  | nil => simp [findEntry, mergeOpt]
  | cons p rest ih =>
    obtain ⟨k1, v1⟩ := p
    simp only [keysOf, List.map_cons, List.nodup_cons] at hs
    rw [List.foldl_cons, ih hs.2]
    simp only [RevenueMap.find, RevenueMap.addAt, findEntry_addEntry, findEntry]
    by_cases h : k = k1
    · subst h
      have hn : findEntry rest k = none := findEntry_eq_none_of_not_mem rest k hs.1
      simp [hn, mergeOpt]
    · have h' : ¬ k1 = k := fun e => h e.symm
      simp [h, h']

/-! ## Lemmas on `mergeResults` -/

theorem mergeOpt_comm (a b : Option ℚ) : mergeOpt a b = mergeOpt b a := by
  cases a <;> cases b <;> simp [mergeOpt, add_comm]

theorem mergeOpt_assoc (a b c : Option ℚ) :
    mergeOpt (mergeOpt a b) c = mergeOpt a (mergeOpt b c) := by
  cases a <;> cases b <;> cases c <;> simp [mergeOpt, add_assoc]

open CsvParser

theorem find_mergeResults (target source : ChunkResult) (k : String) :
    (mergeResults target source).bmw_europe_revenue.find k =
      mergeOpt (target.bmw_europe_revenue.find k) (source.bmw_europe_revenue.find k) := by
  simp only [mergeResults, RevenueMap.entries]
  exact find_foldl_addAt _ source.bmw_europe_revenue.2 _ k

theorem mem_keys_iff_find (m : RevenueMap) (k : String) :
    k ∈ keysOf m.entries ↔ (m.find k).isSome := (findEntry_isSome_iff m.1 k).symm

theorem success_mergeResults (target source : ChunkResult) :
    (mergeResults target source).success = (target.success && source.success) := by
  obtain ⟨_, _, _, ts, _, _, _⟩ := target
  obtain ⟨_, _, _, ss, _, _, _⟩ := source
  cases ts <;> cases ss <;> rfl

/-! ## Lemmas on the aggregation loop -/

theorem metrics_analysisStep (res : ChunkResult) (r : CarSaleRecord) :
    (analysisStep res r).metrics = metricStep res.metrics r := by
  unfold analysisStep metricStep ChunkResult.metrics
  split_ifs <;> simp_all

theorem metrics_processRecord (a : CarSalesAnalyzer) (r : CarSaleRecord) :
    (a.processRecord r).metrics = metricStep a.metrics r := by
  have hEU : CarSalesAnalyzer.isEuropeanCountry r.country = isEuropeanCountry r.country := rfl
  unfold CarSalesAnalyzer.processRecord metricStep CarSalesAnalyzer.metrics
  rw [hEU]
  split_ifs <;> simp_all

theorem metrics_foldl_analysisStep (chunk : List CarSaleRecord) (res : ChunkResult) :
    (chunk.foldl analysisStep res).metrics = chunk.foldl metricStep res.metrics := by
  induction chunk generalizing res with
  | nil => rfl
  | cons r rest ih => rw [List.foldl_cons, List.foldl_cons, ih, metrics_analysisStep]

theorem metrics_foldl_processRecord (records : List CarSaleRecord) (a : CarSalesAnalyzer) :
    (records.foldl CarSalesAnalyzer.processRecord a).metrics =
      records.foldl metricStep a.metrics := by
  induction records generalizing a with
  | nil => rfl
  | cons r rest ih => rw [List.foldl_cons, List.foldl_cons, ih, metrics_processRecord]

theorem foldl_metricStep_fst (records : List CarSaleRecord) (m : Int × ℚ × RevenueMap) :
    (records.foldl metricStep m).1 = m.1 + totalQuantity (audiChinaRecords records) := by
  induction records generalizing m with
  | nil => simp [totalQuantity, audiChinaRecords]
  | cons r rest ih =>
    rw [List.foldl_cons, ih]
    by_cases h : r.brand = "Audi" ∧ r.country = "China" ∧ r.year = 2025
    · simp [metricStep, totalQuantity, audiChinaRecords, List.filter_cons, h, add_assoc]
    · simp [metricStep, totalQuantity, audiChinaRecords, List.filter_cons, h]

theorem foldl_metricStep_snd (records : List CarSaleRecord) (m : Int × ℚ × RevenueMap) :
    (records.foldl metricStep m).2.1 = m.2.1 + totalRevenue (bmwRecords records) := by
  induction records generalizing m with
  | nil => simp [totalRevenue, bmwRecords]
  | cons r rest ih =>
    rw [List.foldl_cons, ih]
    by_cases h : r.brand = "BMW" ∧ r.year = 2025
    · simp [metricStep, totalRevenue, bmwRecords, List.filter_cons, h, add_assoc]
    · simp [metricStep, totalRevenue, bmwRecords, List.filter_cons, h]

theorem bmwRecordsIn_cons_pos (r : CarSaleRecord) (rest : List CarSaleRecord) (k : String)
    (h : r.brand = "BMW" ∧ r.year = 2025 ∧ r.country = k) :
    bmwRecordsIn (r :: rest) k = r :: bmwRecordsIn rest k :=
  List.filter_cons_of_pos (decide_eq_true h)

theorem bmwRecordsIn_cons_neg (r : CarSaleRecord) (rest : List CarSaleRecord) (k : String)
    (h : ¬ (r.brand = "BMW" ∧ r.year = 2025 ∧ r.country = k)) :
    bmwRecordsIn (r :: rest) k = bmwRecordsIn rest k :=
  List.filter_cons_of_neg (by simpa using h)

theorem totalRevenue_cons (r : CarSaleRecord) (rest : List CarSaleRecord) :
    totalRevenue (r :: rest) = r.revenue + totalRevenue rest := by
  simp [totalRevenue]

theorem find_metricStep (m : Int × ℚ × RevenueMap) (r : CarSaleRecord) (k : String) :
    (metricStep m r).2.2.find k = stepBucket (m.2.2.find k) r k := by
  unfold metricStep stepBucket
  by_cases hc : r.brand = "BMW" ∧ r.year = 2025 ∧ isEuropeanCountry r.country = true
  · by_cases hk : k = r.country
    · have hc' : r.brand = "BMW" ∧ r.year = 2025 ∧ isEuropeanCountry r.country = true ∧
          r.country = k := ⟨hc.1, hc.2.1, hc.2.2, hk.symm⟩
      rw [if_pos hc, if_pos hc']
      simp only [RevenueMap.find, RevenueMap.addAt, findEntry_addEntry, if_pos hk]
      rw [hk]
    · have hc' : ¬ (r.brand = "BMW" ∧ r.year = 2025 ∧ isEuropeanCountry r.country = true ∧
          r.country = k) := fun h => hk h.2.2.2.symm
      rw [if_pos hc, if_neg hc']
      simp only [RevenueMap.find, RevenueMap.addAt, findEntry_addEntry, if_neg hk]
  · have hc' : ¬ (r.brand = "BMW" ∧ r.year = 2025 ∧ isEuropeanCountry r.country = true ∧
        r.country = k) := fun h => hc ⟨h.1, h.2.1, h.2.2.1⟩
    rw [if_neg hc, if_neg hc']

theorem bucketAfter_cons (o : Option ℚ) (r : CarSaleRecord) (rest : List CarSaleRecord)
    (k : String) : bucketAfter o (r :: rest) k = bucketAfter (stepBucket o r k) rest k := by
  by_cases hc : r.brand = "BMW" ∧ r.year = 2025 ∧ r.country = k
  · by_cases he : isEuropeanCountry k = true
    · have hs : stepBucket o r k = some (o.getD 0 + r.revenue) :=
        if_pos ⟨hc.1, hc.2.1, by rw [hc.2.2]; exact he, hc.2.2⟩
      rw [hs]
      unfold bucketAfter
      rw [bmwRecordsIn_cons_pos r rest k hc, totalRevenue_cons]
      by_cases hr : bmwRecordsIn rest k = []
      · simp [he, hr, totalRevenue]
      · simp [he, hr, add_assoc]
    · have hs : stepBucket o r k = o :=
        if_neg (fun h => he (by rw [← h.2.2.2]; exact h.2.2.1))
      rw [hs]
      unfold bucketAfter
      rw [if_neg (fun h => he h.1), if_neg (fun h => he h.1)]
  · have hs : stepBucket o r k = o := if_neg (fun h => hc ⟨h.1, h.2.1, h.2.2.2⟩)
    rw [hs]
    unfold bucketAfter
    rw [bmwRecordsIn_cons_neg r rest k hc]

theorem foldl_metricStep_find (records : List CarSaleRecord) (m : Int × ℚ × RevenueMap)
    (k : String) :
    (records.foldl metricStep m).2.2.find k = bucketAfter (m.2.2.find k) records k := by
  induction records generalizing m with
  | nil => simp [bucketAfter, bmwRecordsIn]
  | cons r rest ih => rw [List.foldl_cons, ih, bucketAfter_cons, find_metricStep]

/-! ## Lemmas on the distribution and on the closed forms -/

theorem findEntry_eq_some_iff (l : List (String × ℚ)) (hl : (keysOf l).Nodup) (k : String)
    (v : ℚ) : findEntry l k = some v ↔ (k, v) ∈ l := by
  induction l with
  | nil => simp [findEntry]
  | cons p rest ih =>
    obtain ⟨k1, x⟩ := p
    simp only [keysOf, List.map_cons, List.nodup_cons] at hl
    by_cases h1 : k1 = k
    · subst h1
      simp only [findEntry, if_true, List.mem_cons, Prod.mk.injEq, true_and, Option.some.injEq]
      constructor
      · intro h; exact Or.inl h.symm
      · rintro (h | h)
        · exact h.symm
        · exact absurd (List.mem_map_of_mem Prod.fst h) hl.1
    · have h' : ¬ k = k1 := fun e => h1 e.symm
      simp only [findEntry, if_neg h1, List.mem_cons, Prod.mk.injEq, h', false_and, false_or]
      exact ih hl.2

theorem perm_linearInsert (val : String × ℚ) (l : List (String × ℚ)) :
    (CarSalesAnalyzer.linearInsert val l).Perm (val :: l) := by
  induction l with
  | nil => exact List.Perm.refl _
  | cons e rest ih =>
    unfold CarSalesAnalyzer.linearInsert
    split
    · exact List.Perm.refl _
    · exact (List.Perm.cons e ih).trans (List.Perm.swap val e rest)

theorem perm_foldl_linearInsert (v sorted : List (String × ℚ)) :
    (v.foldl (fun sorted val => CarSalesAnalyzer.linearInsert val sorted) sorted).Perm
      (v ++ sorted) := by
  induction v generalizing sorted with
  | nil => exact List.Perm.refl _
  | cons x rest ih =>
    rw [List.foldl_cons]
    refine (ih _).trans ?_
    refine (List.Perm.append_left rest (perm_linearInsert x sorted)).trans ?_
    exact List.perm_middle

theorem perm_sortByRevenueDesc (v : List (String × ℚ)) :
    (CarSalesAnalyzer.sortByRevenueDesc v).Perm v := by
  have h := perm_foldl_linearInsert v []
  simpa [CarSalesAnalyzer.sortByRevenueDesc] using h

theorem pairwise_linearInsert (val : String × ℚ) (l : List (String × ℚ))
    (h : l.Pairwise (fun x y => x.2 ≥ y.2)) :
    (CarSalesAnalyzer.linearInsert val l).Pairwise (fun x y => x.2 ≥ y.2) := by
  induction l with
  | nil => simp [CarSalesAnalyzer.linearInsert]
  | cons e rest ih =>
    rw [List.pairwise_cons] at h
    unfold CarSalesAnalyzer.linearInsert
    split
    · rename_i hgt
      refine List.pairwise_cons.mpr ⟨?_, List.pairwise_cons.mpr h⟩
      intro y hy
      rcases List.mem_cons.mp hy with rfl | hy
      · exact le_of_lt hgt
      · exact le_trans (h.1 y hy) (le_of_lt hgt)
    · rename_i hgt
      refine List.pairwise_cons.mpr ⟨?_, ih h.2⟩
      intro y hy
      rcases List.mem_cons.mp ((perm_linearInsert val rest).subset hy) with rfl | hy
      · exact not_lt.mp hgt
      · exact h.1 y hy

theorem pairwise_sortByRevenueDesc (v : List (String × ℚ)) :
    (CarSalesAnalyzer.sortByRevenueDesc v).Pairwise (fun x y => x.2 ≥ y.2) := by
  unfold CarSalesAnalyzer.sortByRevenueDesc
  suffices h : ∀ sorted : List (String × ℚ), sorted.Pairwise (fun x y => x.2 ≥ y.2) →
      (v.foldl (fun sorted val => CarSalesAnalyzer.linearInsert val sorted) sorted).Pairwise
        (fun x y => x.2 ≥ y.2) from h [] List.Pairwise.nil
  induction v with
  | nil => intro sorted hs; exact hs
  | cons x rest ih =>
    intro sorted hs
    rw [List.foldl_cons]
    exact ih _ (pairwise_linearInsert x sorted hs)

theorem metrics_reset (a : CarSalesAnalyzer) : a.reset.metrics = (0, 0, RevenueMap.empty) := rfl

theorem metrics_processChunk (a : CarSalesAnalyzer) (records : List CarSaleRecord) :
    (a.processChunk records).metrics = records.foldl metricStep a.metrics := by
  rw [← metrics_foldl_processRecord]
  rfl

theorem metrics_processChunkAnalysis (chunk : List CarSaleRecord) (res : ChunkResult) :
    (processChunkAnalysis chunk res).metrics = chunk.foldl metricStep res.metrics := by
  rw [← metrics_foldl_analysisStep]
  rfl

theorem bmwRecordsIn_ne_nil_iff (records : List CarSaleRecord) (k : String) :
    bmwRecordsIn records k ≠ [] ↔
      ∃ r ∈ records, r.brand = "BMW" ∧ r.year = 2025 ∧ r.country = k := by
  unfold bmwRecordsIn
  rw [Ne, List.filter_eq_nil_iff]
  simp

theorem isEuropeanCountry_iff (k : String) :
    isEuropeanCountry k = true ↔ k ∈ CarSalesAnalyzer.EUROPEAN_COUNTRIES := by
  unfold isEuropeanCountry
  rw [List.contains_iff_exists_mem_beq]
  constructor
  · rintro ⟨c, hc, hb⟩
    rw [eq_of_beq hb]
    exact hc
  · intro h
    exact ⟨k, h, beq_self_eq_true k⟩

/-! ## Lemmas on dispatch and join -/

theorem join_dispatchFrom (all_records : List CarSaleRecord) (r : Nat) :
    ∀ (remaining t : Nat), (t + remaining) * r < SIZE_T_MOD →
      all_records.length ≤ (t + remaining) * r →
      (dispatchFrom all_records r remaining t).flatten = all_records.drop (t * r) := by
  intro remaining
  induction remaining with
  | zero =>
    intro t _ hcov
    simp only [dispatchFrom, List.flatten_nil]
    exact (List.drop_eq_nil_of_le (by simpa using hcov)).symm
  | succ rem ih =>
    intro t hfit hcov
    have hle1 : t * r ≤ (t + (rem + 1)) * r := Nat.mul_le_mul_right r (by omega)
    have hle2 : t * r + r ≤ (t + (rem + 1)) * r := by
      have : (t + 1) * r ≤ (t + (rem + 1)) * r := Nat.mul_le_mul_right r (by omega)
      rw [Nat.add_mul, Nat.one_mul] at this
      exact this
    have hs : (t * r) % SIZE_T_MOD = t * r := Nat.mod_eq_of_lt (by omega)
    have he : (t * r + r) % SIZE_T_MOD = t * r + r := Nat.mod_eq_of_lt (by omega)
    have hnext : (t + 1) * r = t * r + r := by rw [Nat.add_mul, Nat.one_mul]
    have hih := ih (t + 1) (by rw [show t + 1 + rem = t + (rem + 1) by omega]; exact hfit)
      (by rw [show t + 1 + rem = t + (rem + 1) by omega]; exact hcov)
    simp only [dispatchFrom, hs, he]
    by_cases hstart : t * r ≥ all_records.length
    · rw [if_pos hstart]
      simp only [List.flatten_nil]
      exact (List.drop_eq_nil_of_le hstart).symm
    · rw [if_neg hstart, List.flatten_cons, hih, hnext, ← List.drop_drop]
      by_cases hend : t * r + r ≤ all_records.length
      · rw [Nat.min_eq_left hend, Nat.add_sub_cancel_left]
        exact List.take_append_drop r _
      · have hlen : (List.drop (t * r) all_records).length ≤ r := by
          rw [List.length_drop]; omega
        rw [Nat.min_eq_right (by omega), List.take_of_length_le (by rw [List.length_drop]),
          List.drop_eq_nil_of_le hlen, List.append_nil]

theorem join_dispatchChunks (all_records : List CarSaleRecord) (num_threads : Nat)
    (hW : 1 ≤ num_threads) (hfit : all_records.length + num_threads - 1 < 2 ^ 64) :
    (dispatchChunks all_records num_threads).flatten = all_records := by
  unfold dispatchChunks
  have hr : recordsPerThread all_records.length num_threads =
      (all_records.length + num_threads - 1) / num_threads := by
    unfold recordsPerThread SIZE_T_MOD
    rw [Nat.mod_eq_of_lt hfit]
  have hdm := Nat.div_add_mod (all_records.length + num_threads - 1) num_threads
  have hmod := Nat.mod_lt (all_records.length + num_threads - 1) (show num_threads > 0 by omega)
  have h := join_dispatchFrom all_records (recordsPerThread all_records.length num_threads)
    num_threads 0
    (by rw [hr, Nat.zero_add]; unfold SIZE_T_MOD; omega)
    (by rw [hr, Nat.zero_add]; omega)
  simpa using h


theorem audiChinaRecords_append (a b : List CarSaleRecord) :
    audiChinaRecords (a ++ b) = audiChinaRecords a ++ audiChinaRecords b := by
  simp [audiChinaRecords]

theorem bmwRecords_append (a b : List CarSaleRecord) :
    bmwRecords (a ++ b) = bmwRecords a ++ bmwRecords b := by
  simp [bmwRecords]

theorem totalQuantity_append (a b : List CarSaleRecord) :
    totalQuantity (a ++ b) = totalQuantity a + totalQuantity b := by
  simp [totalQuantity]

theorem totalRevenue_append (a b : List CarSaleRecord) :
    totalRevenue (a ++ b) = totalRevenue a + totalRevenue b := by
  simp [totalRevenue]

theorem bucketAfter_nil (o : Option ℚ) (k : String) : bucketAfter o [] k = o := by
  simp [bucketAfter, bmwRecordsIn]

theorem bucketAfter_append (o : Option ℚ) (a b : List CarSaleRecord) (k : String) :
    bucketAfter o (a ++ b) k = bucketAfter (bucketAfter o a k) b k := by
  induction a generalizing o with
  | nil => rw [List.nil_append, bucketAfter_nil]
  | cons r rest ih => rw [List.cons_append, bucketAfter_cons, ih, ← bucketAfter_cons]

theorem mergeOpt_bucketAfter_none (o : Option ℚ) (records : List CarSaleRecord) (k : String) :
    mergeOpt o (bucketAfter none records k) = bucketAfter o records k := by
  unfold bucketAfter
  split <;> simp [mergeOpt]

/-- Closed form of the three metrics of `processChunkAnalysis` on a fresh result. -/
theorem processChunkAnalysis_new (chunk : List CarSaleRecord) :
    (processChunkAnalysis chunk ChunkResult.new).audi_china_year_sales =
      totalQuantity (audiChinaRecords chunk) ∧
    (processChunkAnalysis chunk ChunkResult.new).bmw_2025_revenue =
      totalRevenue (bmwRecords chunk) ∧
    (∀ k, (processChunkAnalysis chunk ChunkResult.new).bmw_europe_revenue.find k =
      bucketAfter none chunk k) ∧
    (processChunkAnalysis chunk ChunkResult.new).records_processed = chunk.length := by
  have hm := metrics_processChunkAnalysis chunk ChunkResult.new
  have h1 := foldl_metricStep_fst chunk ChunkResult.new.metrics
  have h2 := foldl_metricStep_snd chunk ChunkResult.new.metrics
  rw [← hm] at h1 h2
  refine ⟨?_, ?_, ?_, rfl⟩
  · simpa [ChunkResult.metrics, ChunkResult.new] using h1
  · simpa [ChunkResult.metrics, ChunkResult.new] using h2
  · intro k
    have h3 := foldl_metricStep_find chunk ChunkResult.new.metrics k
    rw [← hm] at h3
    exact h3

theorem collectResults_workerTask (shares : List (List CarSaleRecord)) :
    ∀ acc : ChunkResult, acc.records_processed < SIZE_T_MOD →
      (collectResults acc (shares.map workerTask)).audi_china_year_sales =
        acc.audi_china_year_sales + totalQuantity (audiChinaRecords shares.flatten) ∧
      (collectResults acc (shares.map workerTask)).bmw_2025_revenue =
        acc.bmw_2025_revenue + totalRevenue (bmwRecords shares.flatten) ∧
      (∀ k, (collectResults acc (shares.map workerTask)).bmw_europe_revenue.find k =
        bucketAfter (acc.bmw_europe_revenue.find k) shares.flatten k) ∧
      (collectResults acc (shares.map workerTask)).records_processed =
        (acc.records_processed + shares.flatten.length) % SIZE_T_MOD := by
  induction shares with
  | nil =>
    intro acc hacc
    refine ⟨?_, ?_, ?_, ?_⟩
    · simp [collectResults, audiChinaRecords, totalQuantity]
    · simp [collectResults, bmwRecords, totalRevenue]
    · intro k
      simp [collectResults, bucketAfter_nil]
    · simp [collectResults, Nat.mod_eq_of_lt hacc]
  | cons s rest ih =>
    intro acc hacc
    obtain ⟨p1, p2, p3, p4⟩ := processChunkAnalysis_new s
    have hstep : collectResults acc ((s :: rest).map workerTask) =
        collectResults (mergeResults acc (workerTask s)) (rest.map workerTask) := rfl
    have hlt : (mergeResults acc (workerTask s)).records_processed < SIZE_T_MOD :=
      Nat.mod_lt _ (by unfold SIZE_T_MOD; decide)
    obtain ⟨i1, i2, i3, i4⟩ := ih (mergeResults acc (workerTask s)) hlt
    rw [hstep]
    refine ⟨?_, ?_, ?_, ?_⟩
    · rw [i1, List.flatten_cons, audiChinaRecords_append, totalQuantity_append, ← add_assoc]
      congr 1
      show acc.audi_china_year_sales +
        (processChunkAnalysis s ChunkResult.new).audi_china_year_sales = _
      rw [p1]
    · rw [i2, List.flatten_cons, bmwRecords_append, totalRevenue_append, ← add_assoc]
      congr 1
      show acc.bmw_2025_revenue + (processChunkAnalysis s ChunkResult.new).bmw_2025_revenue = _
      rw [p2]
    · intro k
      rw [i3, List.flatten_cons, bucketAfter_append, find_mergeResults]
      congr 1
      have hw : (workerTask s).bmw_europe_revenue.find k = bucketAfter none s k := p3 k
      rw [hw, mergeOpt_bucketAfter_none]
    · rw [i4, List.flatten_cons, List.length_append]
      have hw : (mergeResults acc (workerTask s)).records_processed =
          (acc.records_processed + s.length) % SIZE_T_MOD := rfl
      rw [hw]
      unfold SIZE_T_MOD
      omega

theorem aggregateConcurrent_new (records : List CarSaleRecord) (W : Nat) (hW : 1 ≤ W)
    (hfit : records.length + W - 1 < 2 ^ 64) :
    sameAggregates (aggregateConcurrent ChunkResult.new records W)
      (processChunkAnalysis records ChunkResult.new) := by
  obtain ⟨p1, p2, p3, p4⟩ := processChunkAnalysis_new records
  unfold sameAggregates
  rw [p1, p2, p4]
  unfold aggregateConcurrent
  by_cases he : records.isEmpty = true
  · rw [if_pos he]
    have hnil : records = [] := List.isEmpty_iff.mp he
    subst hnil
    refine ⟨?_, ?_, ?_, ?_⟩
    · rfl
    · rfl
    · intro k
      rw [p3 k, bucketAfter_nil]
      rfl
    · rfl
  · rw [if_neg he]
    obtain ⟨c1, c2, c3, c4⟩ := collectResults_workerTask (dispatchChunks records W)
      ChunkResult.new (by unfold SIZE_T_MOD ChunkResult.new; decide)
    rw [join_dispatchChunks records W hW hfit] at c1 c2 c3 c4
    refine ⟨?_, ?_, ?_, ?_⟩
    · show (collectResults ChunkResult.new _).audi_china_year_sales = _
      rw [c1]
      simp [ChunkResult.new]
    · show (collectResults ChunkResult.new _).bmw_2025_revenue = _
      rw [c2]
      simp [ChunkResult.new]
    · intro k
      show (collectResults ChunkResult.new _).bmw_europe_revenue.find k = _
      rw [c3 k, p3 k]
      rfl
    · show (collectResults ChunkResult.new _).records_processed = _
      rw [c4]
      have h0 : ChunkResult.new.records_processed = 0 := rfl
      rw [h0, Nat.zero_add]
      unfold SIZE_T_MOD
      exact Nat.mod_eq_of_lt (by omega)

/-! ## Further lemmas used by the claims -/

theorem find_processChunk_reset (a : CarSalesAnalyzer) (records : List CarSaleRecord)
    (k : String) :
    (a.reset.processChunk records)._bmw_europe_revenue.find k =
      bucketAfter none records k := by
  have h := foldl_metricStep_find records a.reset.metrics k
  rw [← metrics_processChunk] at h
  exact h

theorem bucketAfter_perm (o : Option ℚ) (l₁ l₂ : List CarSaleRecord) (h : l₁.Perm l₂)
    (k : String) : bucketAfter o l₁ k = bucketAfter o l₂ k := by
  have hp : (bmwRecordsIn l₁ k).Perm (bmwRecordsIn l₂ k) := h.filter _
  have hs : totalRevenue (bmwRecordsIn l₁ k) = totalRevenue (bmwRecordsIn l₂ k) :=
    (hp.map _).sum_eq
  have hn : bmwRecordsIn l₁ k ≠ [] ↔ bmwRecordsIn l₂ k ≠ [] := by
    rw [Ne, Ne, ← List.length_eq_zero, ← List.length_eq_zero, hp.length_eq]
  unfold bucketAfter
  rw [hs]
  by_cases hc : isEuropeanCountry k = true ∧ bmwRecordsIn l₂ k ≠ []
  · rw [if_pos hc, if_pos ⟨hc.1, hn.mpr hc.2⟩]
  · rw [if_neg hc, if_neg (fun h => hc ⟨h.1, hn.mp h.2⟩)]

theorem distribution_processChunk_reset (a : CarSalesAnalyzer)
    (records : List CarSaleRecord) :
    (a.reset.processChunk records).getBmwEuropeRevenueDistribution =
      CarSalesAnalyzer.sortByRevenueDesc
        (records.foldl metricStep (0, 0, RevenueMap.empty)).2.2.entries := by
  have h := metrics_processChunk a.reset records
  rw [metrics_reset] at h
  rw [← h]
  rfl

theorem perm_entries_of_find_eq (m₁ m₂ : RevenueMap)
    (h : ∀ k, m₁.find k = m₂.find k) : m₁.entries.Perm m₂.entries := by
  refine (List.perm_ext_iff_of_nodup (List.Nodup.of_map Prod.fst m₁.2)
    (List.Nodup.of_map Prod.fst m₂.2)).mpr ?_
  rintro ⟨k, v⟩
  have h1 := findEntry_eq_some_iff m₁.1 m₁.2 k v
  have h2 := findEntry_eq_some_iff m₂.1 m₂.2 k v
  have hk : findEntry m₁.1 k = findEntry m₂.1 k := h k
  rw [hk] at h1
  exact h1.symm.trans h2

theorem sortByRevenueDesc_eq_of_perm (v w : List (String × ℚ)) (hp : v.Perm w)
    (hd : (v.map Prod.snd).Nodup) :
    CarSalesAnalyzer.sortByRevenueDesc v = CarSalesAnalyzer.sortByRevenueDesc w := by
  have pv := perm_sortByRevenueDesc v
  have pw := perm_sortByRevenueDesc w
  have hperm : (CarSalesAnalyzer.sortByRevenueDesc v).Perm (CarSalesAnalyzer.sortByRevenueDesc w) :=
    pv.trans (hp.trans pw.symm)
  have strict : ∀ l : List (String × ℚ), l.Perm v →
      l.Pairwise (fun x y => x.2 ≥ y.2) → l.Pairwise (fun x y => x.2 > y.2) := by
    intro l hl hs
    have hnd : (l.map Prod.snd).Nodup := ((hl.map Prod.snd).nodup_iff).mpr hd
    have hne : l.Pairwise (fun x y => x.2 ≠ y.2) := List.pairwise_map.mp hnd
    exact hs.imp₂ (fun x y hge hne => lt_of_le_of_ne hge (Ne.symm hne)) hne
  haveI : IsAntisymm (String × ℚ) (fun x y => x.2 > y.2) :=
    ⟨fun x y h1 h2 => absurd h1 (lt_asymm h2)⟩
  exact List.eq_of_perm_of_sorted hperm
    (strict _ pv (pairwise_sortByRevenueDesc v))
    (strict _ (pw.trans hp.symm) (pairwise_sortByRevenueDesc w))

/-- Insertion keeps the entries of a given sum in their order and puts the new entry behind
those of the same sum. -/
theorem filter_linearInsert (val : String × ℚ) (l : List (String × ℚ)) (v : ℚ)
    (h : l.Pairwise (fun x y => x.2 ≥ y.2)) :
    (CarSalesAnalyzer.linearInsert val l).filter (fun e => decide (e.2 = v)) =
      l.filter (fun e => decide (e.2 = v)) ++ (if val.2 = v then [val] else []) := by
  induction l with
  | nil =>
    unfold CarSalesAnalyzer.linearInsert
    by_cases hv : val.2 = v <;> simp [hv]
  | cons e rest ih =>
    rw [List.pairwise_cons] at h
    unfold CarSalesAnalyzer.linearInsert
    by_cases hgt : val.2 > e.2
    · rw [if_pos hgt]
      by_cases hv : val.2 = v
      · have hnone : (e :: rest).filter (fun x => decide (x.2 = v)) = [] := by
          rw [List.filter_eq_nil_iff]
          intro y hy
          have hle : y.2 ≤ e.2 := by
            rcases List.mem_cons.mp hy with rfl | hy
            · exact le_refl _
            · exact h.1 y hy
          have : y.2 ≠ v := by
            intro e1
            rw [e1, ← hv] at hle
            exact absurd hgt (not_lt.mpr hle)
          simpa using this
        rw [List.filter_cons, hnone, if_pos hv]
        simp [hv]
      · rw [List.filter_cons, if_neg hv]
        simp [hv]
    · rw [if_neg hgt, List.filter_cons, List.filter_cons, ih h.2]
      split <;> simp

theorem filter_foldl_linearInsert (l sorted : List (String × ℚ)) (v : ℚ)
    (hs : sorted.Pairwise (fun x y => x.2 ≥ y.2)) :
    (l.foldl (fun sorted val => CarSalesAnalyzer.linearInsert val sorted) sorted).filter
        (fun e => decide (e.2 = v)) =
      sorted.filter (fun e => decide (e.2 = v)) ++ l.filter (fun e => decide (e.2 = v)) := by
  induction l generalizing sorted with
  | nil => simp
  | cons x rest ih =>
    rw [List.foldl_cons, ih _ (pairwise_linearInsert x sorted hs), filter_linearInsert x sorted v hs,
      List.filter_cons]
    by_cases hv : x.2 = v <;> simp [hv]

/-- The sort is stable: the entries of a given sum keep their order. -/
theorem filter_sortByRevenueDesc (l : List (String × ℚ)) (v : ℚ) :
    (CarSalesAnalyzer.sortByRevenueDesc l).filter (fun e => decide (e.2 = v)) =
      l.filter (fun e => decide (e.2 = v)) := by
  unfold CarSalesAnalyzer.sortByRevenueDesc
  rw [filter_foldl_linearInsert l [] v List.Pairwise.nil]
  rfl

theorem reverse_ne_self_of_nodup (l : List (String × ℚ)) (hn : l.Nodup) (x y : String × ℚ)
    (hx : x ∈ l) (hy : y ∈ l) (hxy : x ≠ y) : l.reverse ≠ l := by
  intro h
  cases l with
  | nil => cases hx
  | cons a t =>
    have ht : t ≠ [] := by
      rintro rfl
      rw [List.mem_singleton] at hx hy
      exact hxy (hx.trans hy.symm)
    rw [List.reverse_cons] at h
    cases hr : t.reverse with
    | nil => exact ht (List.reverse_eq_nil_iff.mp hr)
    | cons b s =>
      rw [hr, List.cons_append] at h
      have hb : b = a := (List.cons.inj h).1
      have hmem : b ∈ t := by
        rw [← List.mem_reverse, hr]
        exact List.mem_cons_self _ _
      rw [hb] at hmem
      exact (List.nodup_cons.mp hn).1 hmem

theorem findEntry_perm (l l' : List (String × ℚ)) (hp : l.Perm l') (hl : (keysOf l).Nodup)
    (k : String) : findEntry l k = findEntry l' k := by
  have hl' : (keysOf l').Nodup := (hp.map Prod.fst).nodup_iff.mp hl
  apply Option.ext
  intro v
  rw [Option.mem_def, Option.mem_def, findEntry_eq_some_iff l hl,
    findEntry_eq_some_iff l' hl']
  exact hp.mem_iff

/-! ## Claims -/

/-- C1 (partition invariance).  For every record sequence and every worker count `W >= 1`
with `n + W - 1` below `2 ^ 64`, dispatching the contiguous shares of size `ceil(n / W)`,
aggregating every share from a fresh result and merging the partials into a fresh result, as
`parseFileConcurrent` does, yields the same unit count, revenue sum, region-to-revenue
mapping and `records_processed` as one `processChunkAnalysis` run over the whole sequence;
hence two admissible worker counts (in particular 1, 2, 4 and 8) give the same merged
result. -/
theorem partition_invariance (records : List CarSaleRecord) (W : Nat) (hW : 1 ≤ W)
    (hfit : records.length + W - 1 < 2 ^ 64) :
    sameAggregates (aggregateConcurrent ChunkResult.new records W)
      (processChunkAnalysis records ChunkResult.new) ∧
    ∀ W' : Nat, 1 ≤ W' → records.length + W' - 1 < 2 ^ 64 →
      sameAggregates (aggregateConcurrent ChunkResult.new records W)
        (aggregateConcurrent ChunkResult.new records W') := by
  have h := aggregateConcurrent_new records W hW hfit
  refine ⟨h, fun W' hW' hfit' => ?_⟩
  have h' := aggregateConcurrent_new records W' hW' hfit'
  exact ⟨h.1.trans h'.1.symm, h.2.1.trans h'.2.1.symm,
    fun k => (h.2.2.1 k).trans (h'.2.2.1 k).symm, h.2.2.2.trans h'.2.2.2.symm⟩

/-- Witness for C1: five records and two workers, compared with the single run and with four
workers. -/
theorem partition_invariance_witness :
    1 ≤ 2 ∧ exampleRecords.length + 2 - 1 < 2 ^ 64 ∧
    sameAggregates (aggregateConcurrent ChunkResult.new exampleRecords 2)
      (processChunkAnalysis exampleRecords ChunkResult.new) ∧
    sameAggregates (aggregateConcurrent ChunkResult.new exampleRecords 2)
      (aggregateConcurrent ChunkResult.new exampleRecords 4) :=
  ⟨by decide, by decide,
    (partition_invariance exampleRecords 2 (by decide) (by decide)).1,
    (partition_invariance exampleRecords 2 (by decide) (by decide)).2 4 (by decide)
      (by decide)⟩

/-- C2 (Metric A).  `processChunk` applied to a reset analyzer leaves the unit count equal to
the sum of `quantity` over exactly the records with brand "Audi", country "China" and year
2025; every other record contributes nothing.  Three Audi/China rows dated 2024, 2025 and
2026 give a count of exactly 1. -/
theorem processChunk_unit_count :
    (∀ (a : CarSalesAnalyzer) (records : List CarSaleRecord),
      (a.reset.processChunk records)._audi_china_year_sales =
        totalQuantity (audiChinaRecords records)) ∧
    ∀ a : CarSalesAnalyzer,
      (a.reset.processChunk
        [⟨"Audi", "China", 2024, 1, 45000⟩, ⟨"Audi", "China", 2025, 1, 52000⟩,
         ⟨"Audi", "China", 2026, 1, 58000⟩])._audi_china_year_sales = 1 := by
  have main : ∀ (a : CarSalesAnalyzer) (records : List CarSaleRecord),
      (a.reset.processChunk records)._audi_china_year_sales =
        totalQuantity (audiChinaRecords records) := by
    intro a records
    have h := foldl_metricStep_fst records a.reset.metrics
    rw [← metrics_processChunk] at h
    simpa [CarSalesAnalyzer.metrics, CarSalesAnalyzer.reset] using h
  refine ⟨main, fun a => ?_⟩
  rw [main]
  decide

/-- C3 (Metric B).  `processChunk` applied to a reset analyzer leaves the revenue sum equal to
the exact sum of `revenue` over exactly the records with brand "BMW" and year 2025, whatever
their country: in the example the BMW-2025 rows from China and the USA are added to the
scalar sum, the Audi row and the 2024 row are not. -/
theorem processChunk_revenue_sum :
    (∀ (a : CarSalesAnalyzer) (records : List CarSaleRecord),
      (a.reset.processChunk records)._bmw_2025_revenue = totalRevenue (bmwRecords records)) ∧
    ∀ a : CarSalesAnalyzer,
      (a.reset.processChunk
        [⟨"BMW", "Germany", 2025, 1, 48000⟩, ⟨"BMW", "China", 2025, 1, 150000⟩,
         ⟨"BMW", "USA", 2025, 1, 120000⟩, ⟨"Audi", "Germany", 2025, 1, 70000⟩,
         ⟨"BMW", "Germany", 2024, 1, 30000⟩])._bmw_2025_revenue = 318000 := by
  have main : ∀ (a : CarSalesAnalyzer) (records : List CarSaleRecord),
      (a.reset.processChunk records)._bmw_2025_revenue = totalRevenue (bmwRecords records) := by
    intro a records
    have h := foldl_metricStep_snd records a.reset.metrics
    rw [← metrics_processChunk] at h
    simpa [CarSalesAnalyzer.metrics, CarSalesAnalyzer.reset] using h
  refine ⟨main, fun a => ?_⟩
  rw [main]
  decide!

/-- C4 (Metric C).  After `processChunk` on a reset analyzer a country is a key of
`getBmwEuropeRevenueDistribution` exactly when it belongs to `EUROPEAN_COUNTRIES` and some
processed record has brand "BMW", year 2025 and that country; no key occurs twice, and the
country is paired with `v` exactly when `v` is the exact sum of `revenue` over those
records. -/
theorem distribution_membership (a : CarSalesAnalyzer) (records : List CarSaleRecord)
    (country : String) :
    (country ∈ keysOf (a.reset.processChunk records).getBmwEuropeRevenueDistribution ↔
      country ∈ CarSalesAnalyzer.EUROPEAN_COUNTRIES ∧
        ∃ r ∈ records, r.brand = "BMW" ∧ r.year = 2025 ∧ r.country = country) ∧
    (keysOf (a.reset.processChunk records).getBmwEuropeRevenueDistribution).Nodup ∧
    (∀ v : ℚ, (country, v) ∈ (a.reset.processChunk records).getBmwEuropeRevenueDistribution ↔
      (country ∈ CarSalesAnalyzer.EUROPEAN_COUNTRIES ∧
        ∃ r ∈ records, r.brand = "BMW" ∧ r.year = 2025 ∧ r.country = country) ∧
      v = totalRevenue (bmwRecordsIn records country)) := by
  have hperm := perm_sortByRevenueDesc (a.reset.processChunk records)._bmw_europe_revenue.entries
  have hnd : (keysOf (a.reset.processChunk records)._bmw_europe_revenue.entries).Nodup :=
    (a.reset.processChunk records)._bmw_europe_revenue.2
  have hpair : ∀ v : ℚ,
      (country, v) ∈ (a.reset.processChunk records).getBmwEuropeRevenueDistribution ↔
      (country ∈ CarSalesAnalyzer.EUROPEAN_COUNTRIES ∧
        ∃ r ∈ records, r.brand = "BMW" ∧ r.year = 2025 ∧ r.country = country) ∧
      v = totalRevenue (bmwRecordsIn records country) := by
    intro v
    unfold CarSalesAnalyzer.getBmwEuropeRevenueDistribution
    rw [hperm.mem_iff, ← findEntry_eq_some_iff _ hnd]
    have hf : findEntry (a.reset.processChunk records)._bmw_europe_revenue.entries country =
        bucketAfter none records country := find_processChunk_reset a records country
    rw [hf, bucketAfter, ← isEuropeanCountry_iff, ← bmwRecordsIn_ne_nil_iff]
    split
    · rename_i hc
      simp only [Option.getD_none, zero_add, Option.some.injEq]
      constructor
      · intro h; exact ⟨hc, h.symm⟩
      · intro h; exact h.2.symm
    · rename_i hc
      constructor
      · intro h; cases h
      · intro h; exact absurd h.1 hc
  refine ⟨?_, ?_, hpair⟩
  · constructor
    · intro h
      obtain ⟨p, hp, hk⟩ := List.mem_map.mp h
      obtain ⟨k, v⟩ := p
      simp only at hk
      subst hk
      exact ((hpair v).mp hp).1
    · intro h
      exact List.mem_map.mpr ⟨(country, _), (hpair _).mpr ⟨h, rfl⟩, rfl⟩
  · exact ((hperm.map Prod.fst).nodup_iff).mpr hnd

/-- C5 (commutativity of the merge).  Merging `b` into `a` and merging `a` into `b` give the
same unit count, revenue sum, region-to-revenue mapping, `records_processed`,
`records_failed` and success flag. -/
theorem mergeResults_commutative (a b : ChunkResult) :
    (mergeResults a b).audi_china_year_sales = (mergeResults b a).audi_china_year_sales ∧
    (mergeResults a b).bmw_2025_revenue = (mergeResults b a).bmw_2025_revenue ∧
    (∀ k, (mergeResults a b).bmw_europe_revenue.find k =
      (mergeResults b a).bmw_europe_revenue.find k) ∧
    (mergeResults a b).records_processed = (mergeResults b a).records_processed ∧
    (mergeResults a b).records_failed = (mergeResults b a).records_failed ∧
    (mergeResults a b).success = (mergeResults b a).success := by
  refine ⟨?_, ?_, ?_, ?_, ?_, ?_⟩
  · simp only [mergeResults]; exact add_comm _ _
  · simp only [mergeResults]; exact add_comm _ _
  · intro k
    rw [find_mergeResults, find_mergeResults, mergeOpt_comm]
  · simp only [mergeResults, Nat.add_comm]
  · simp only [mergeResults, Nat.add_comm]
  · simp only [success_mergeResults, Bool.and_comm]

/-- C6 (associativity of the merge).  Merging `b` into `a` and then `c` into the result gives
the same unit count, revenue sum, region-to-revenue mapping, `records_processed`,
`records_failed` and success flag as merging `c` into `b` first and that into `a`. -/
theorem mergeResults_associative (a b c : ChunkResult) :
    (mergeResults (mergeResults a b) c).audi_china_year_sales =
      (mergeResults a (mergeResults b c)).audi_china_year_sales ∧
    (mergeResults (mergeResults a b) c).bmw_2025_revenue =
      (mergeResults a (mergeResults b c)).bmw_2025_revenue ∧
    (∀ k, (mergeResults (mergeResults a b) c).bmw_europe_revenue.find k =
      (mergeResults a (mergeResults b c)).bmw_europe_revenue.find k) ∧
    (mergeResults (mergeResults a b) c).records_processed =
      (mergeResults a (mergeResults b c)).records_processed ∧
    (mergeResults (mergeResults a b) c).records_failed =
      (mergeResults a (mergeResults b c)).records_failed ∧
    (mergeResults (mergeResults a b) c).success =
      (mergeResults a (mergeResults b c)).success := by
  refine ⟨?_, ?_, ?_, ?_, ?_, ?_⟩
  · simp only [mergeResults]; exact add_assoc _ _ _
  · simp only [mergeResults]; exact add_assoc _ _ _
  · intro k
    simp only [find_mergeResults, mergeOpt_assoc]
  · simp only [mergeResults, SIZE_T_MOD]; omega
  · simp only [mergeResults, SIZE_T_MOD]; omega
  · simp only [success_mergeResults, Bool.and_assoc]

/-- C7 (effect of the merge).  After `mergeResults(target, source)` the unit count and the
revenue sum are the sums of the two inputs' values; `records_processed` and `records_failed`
are the `size_t` sums, which are the plain sums whenever these fit in `size_t`; every bucket
is the target's old bucket (0 if absent) plus the source's bucket (0 if absent), present
exactly for the keys of either input; the success flag is the logical AND of the two
flags. -/
theorem mergeResults_effect (target source : ChunkResult) :
    (mergeResults target source).audi_china_year_sales =
      target.audi_china_year_sales + source.audi_china_year_sales ∧
    (mergeResults target source).bmw_2025_revenue =
      target.bmw_2025_revenue + source.bmw_2025_revenue ∧
    (mergeResults target source).records_processed =
      (target.records_processed + source.records_processed) % 2 ^ 64 ∧
    (mergeResults target source).records_failed =
      (target.records_failed + source.records_failed) % 2 ^ 64 ∧
    (target.records_processed + source.records_processed < 2 ^ 64 →
      (mergeResults target source).records_processed =
        target.records_processed + source.records_processed) ∧
    (target.records_failed + source.records_failed < 2 ^ 64 →
      (mergeResults target source).records_failed =
        target.records_failed + source.records_failed) ∧
    (∀ k, (mergeResults target source).bmw_europe_revenue.find k =
      if k ∈ keysOf target.bmw_europe_revenue.entries ∨
          k ∈ keysOf source.bmw_europe_revenue.entries then
        some ((target.bmw_europe_revenue.find k).getD 0 +
          (source.bmw_europe_revenue.find k).getD 0)
      else none) ∧
    (∀ k, k ∈ keysOf (mergeResults target source).bmw_europe_revenue.entries ↔
      k ∈ keysOf target.bmw_europe_revenue.entries ∨
        k ∈ keysOf source.bmw_europe_revenue.entries) ∧
    (mergeResults target source).success = (target.success && source.success) := by
  have hfind : ∀ k, (mergeResults target source).bmw_europe_revenue.find k =
      if k ∈ keysOf target.bmw_europe_revenue.entries ∨
          k ∈ keysOf source.bmw_europe_revenue.entries then
        some ((target.bmw_europe_revenue.find k).getD 0 +
          (source.bmw_europe_revenue.find k).getD 0)
      else none := by
    intro k
    rw [find_mergeResults]
    simp only [mem_keys_iff_find]
    cases target.bmw_europe_revenue.find k <;> cases source.bmw_europe_revenue.find k <;>
      simp [mergeOpt]
  refine ⟨rfl, rfl, rfl, rfl, ?_, ?_, hfind, ?_, ?_⟩
  · intro h
    exact Nat.mod_eq_of_lt h
  · intro h
    exact Nat.mod_eq_of_lt h
  · intro k
    rw [mem_keys_iff_find, hfind]
    split <;> simp_all
  · exact success_mergeResults target source

/-- Witness for C7: the counters 3 + 4 and 1 + 2 fit in `size_t` and are added exactly. -/
theorem mergeResults_effect_witness :
    exampleTarget.records_processed + exampleSource.records_processed < 2 ^ 64 ∧
    exampleTarget.records_failed + exampleSource.records_failed < 2 ^ 64 ∧
    (mergeResults exampleTarget exampleSource).records_processed =
      exampleTarget.records_processed + exampleSource.records_processed ∧
    (mergeResults exampleTarget exampleSource).records_failed =
      exampleTarget.records_failed + exampleSource.records_failed :=
  ⟨by decide, by decide,
    (mergeResults_effect exampleTarget exampleSource).2.2.2.2.1 (by decide),
    (mergeResults_effect exampleTarget exampleSource).2.2.2.2.2.1 (by decide)⟩

/-- C8 (order independence).  For every record sequence and every permutation of it,
`processChunkAnalysis` run from a fresh `ChunkResult` yields the same unit count, the same
exact revenue sum and the same region-to-revenue mapping. -/
theorem processChunkAnalysis_order_independent (l₁ l₂ : List CarSaleRecord)
    (h : l₁.Perm l₂) :
    (processChunkAnalysis l₁ ChunkResult.new).audi_china_year_sales =
      (processChunkAnalysis l₂ ChunkResult.new).audi_china_year_sales ∧
    (processChunkAnalysis l₁ ChunkResult.new).bmw_2025_revenue =
      (processChunkAnalysis l₂ ChunkResult.new).bmw_2025_revenue ∧
    ∀ k, (processChunkAnalysis l₁ ChunkResult.new).bmw_europe_revenue.find k =
      (processChunkAnalysis l₂ ChunkResult.new).bmw_europe_revenue.find k := by
  obtain ⟨a1, a2, a3, _⟩ := processChunkAnalysis_new l₁
  obtain ⟨b1, b2, b3, _⟩ := processChunkAnalysis_new l₂
  refine ⟨?_, ?_, ?_⟩
  · rw [a1, b1]
    exact ((h.filter _).map _).sum_eq
  · rw [a2, b2]
    exact ((h.filter _).map _).sum_eq
  · intro k
    rw [a3, b3]
    exact bucketAfter_perm none l₁ l₂ h k

/-- Witness for C8: two records in both orders. -/
theorem processChunkAnalysis_order_independent_witness :
    List.Perm
      [(⟨"BMW", "Germany", 2025, 1, 48000⟩ : CarSaleRecord), ⟨"Audi", "China", 2025, 1, 52000⟩]
      [⟨"Audi", "China", 2025, 1, 52000⟩, ⟨"BMW", "Germany", 2025, 1, 48000⟩] ∧
    ((processChunkAnalysis
        [⟨"BMW", "Germany", 2025, 1, 48000⟩, ⟨"Audi", "China", 2025, 1, 52000⟩]
        ChunkResult.new).audi_china_year_sales =
      (processChunkAnalysis
        [⟨"Audi", "China", 2025, 1, 52000⟩, ⟨"BMW", "Germany", 2025, 1, 48000⟩]
        ChunkResult.new).audi_china_year_sales ∧
    (processChunkAnalysis
        [⟨"BMW", "Germany", 2025, 1, 48000⟩, ⟨"Audi", "China", 2025, 1, 52000⟩]
        ChunkResult.new).bmw_2025_revenue =
      (processChunkAnalysis
        [⟨"Audi", "China", 2025, 1, 52000⟩, ⟨"BMW", "Germany", 2025, 1, 48000⟩]
        ChunkResult.new).bmw_2025_revenue ∧
    ∀ k, (processChunkAnalysis
        [⟨"BMW", "Germany", 2025, 1, 48000⟩, ⟨"Audi", "China", 2025, 1, 52000⟩]
        ChunkResult.new).bmw_europe_revenue.find k =
      (processChunkAnalysis
        [⟨"Audi", "China", 2025, 1, 52000⟩, ⟨"BMW", "Germany", 2025, 1, 48000⟩]
        ChunkResult.new).bmw_europe_revenue.find k) :=
  ⟨List.Perm.swap _ _ _, processChunkAnalysis_order_independent _ _ (List.Perm.swap _ _ _)⟩

/-- C9 (distribution sort).  In every accumulator state the sequence returned by
`getBmwEuropeRevenueDistribution`, and the distribution field of `getResults`, is in
non-increasing order of revenue: every entry's sum is at least the sum of every later entry,
in particular of the next one.  Germany 48000, France 75000, Italy 35000 yields
France, Germany, Italy. -/
theorem distribution_sorted_descending :
    (∀ a : CarSalesAnalyzer,
      a.getBmwEuropeRevenueDistribution.Pairwise (fun x y => x.2 ≥ y.2) ∧
      a.getBmwEuropeRevenueDistribution.Chain' (fun x y => x.2 ≥ y.2) ∧
      a.getResults._bmw_europe_revenuedistribution.Pairwise (fun x y => x.2 ≥ y.2) ∧
      a.getResults._bmw_europe_revenuedistribution.Chain' (fun x y => x.2 ≥ y.2)) ∧
    ∀ a : CarSalesAnalyzer,
      (a.reset.processChunk
        [⟨"BMW", "Germany", 2025, 1, 48000⟩, ⟨"BMW", "France", 2025, 1, 75000⟩,
         ⟨"BMW", "Italy", 2025, 1, 35000⟩]).getBmwEuropeRevenueDistribution =
      [("France", 75000), ("Germany", 48000), ("Italy", 35000)] := by
  refine ⟨fun a => ?_, fun a => ?_⟩
  · have h := pairwise_sortByRevenueDesc a._bmw_europe_revenue.entries
    exact ⟨h, List.Pairwise.chain' h, h, List.Pairwise.chain' h⟩
  · rw [distribution_processChunk_reset]
    decide!

/-- Counterexample for C10.  Germany and France both hold the sum 100.  After the records
France, Germany the distribution lists Germany before France although "France" is the smaller
name; after the records Germany, France it lists France before Germany.  Both accumulator
states hold the same region-to-sum mapping and the two sequences differ, so the returned
sequence is not a function of the mapping alone, it depends on the insertion order, and no
rule on names orders the tie. -/
theorem tie_order_follows_insertion_not_name :
    ((CarSalesAnalyzer.new 100).reset.processChunk
        [⟨"BMW", "France", 2025, 1, 100⟩,
         ⟨"BMW", "Germany", 2025, 1, 100⟩]).getBmwEuropeRevenueDistribution =
      [("Germany", 100), ("France", 100)] ∧
    "France" < "Germany" ∧
    ((CarSalesAnalyzer.new 100).reset.processChunk
        [⟨"BMW", "Germany", 2025, 1, 100⟩,
         ⟨"BMW", "France", 2025, 1, 100⟩]).getBmwEuropeRevenueDistribution =
      [("France", 100), ("Germany", 100)] ∧
    (∀ k,
      ((CarSalesAnalyzer.new 100).reset.processChunk
        [⟨"BMW", "Germany", 2025, 1, 100⟩,
         ⟨"BMW", "France", 2025, 1, 100⟩])._bmw_europe_revenue.find k =
      ((CarSalesAnalyzer.new 100).reset.processChunk
        [⟨"BMW", "France", 2025, 1, 100⟩,
         ⟨"BMW", "Germany", 2025, 1, 100⟩])._bmw_europe_revenue.find k) := by
  refine ⟨by decide!, by decide!, by decide!, fun k => ?_⟩
  rw [find_processChunk_reset, find_processChunk_reset]
  exact bucketAfter_perm none _ _ (List.Perm.swap _ _ _) k

/-- C10 as amended.  In every accumulator state the distribution is a rearrangement of the
mapping's entries in non-increasing order of sum; the comparator looks at sums only and no
rule on names is applied.  When the sums are pairwise distinct, every state that holds the
same region-to-sum mapping returns the same sequence.  When two regions have equal sums, some
state that holds the same mapping returns a different sequence: the order of regions with
equal sums follows the iteration order of the container, not the mapping. -/
theorem distribution_determined_up_to_ties (a : CarSalesAnalyzer) :
    a.getBmwEuropeRevenueDistribution.Perm a._bmw_europe_revenue.entries ∧
    a.getBmwEuropeRevenueDistribution.Pairwise (fun x y => x.2 ≥ y.2) ∧
    ((a._bmw_europe_revenue.entries.map Prod.snd).Nodup →
      ∀ b : CarSalesAnalyzer,
        (∀ k, b._bmw_europe_revenue.find k = a._bmw_europe_revenue.find k) →
        b.getBmwEuropeRevenueDistribution = a.getBmwEuropeRevenueDistribution) ∧
    (¬ (a._bmw_europe_revenue.entries.map Prod.snd).Nodup →
      ∃ b : CarSalesAnalyzer,
        (∀ k, b._bmw_europe_revenue.find k = a._bmw_europe_revenue.find k) ∧
        b.getBmwEuropeRevenueDistribution ≠ a.getBmwEuropeRevenueDistribution) := by
  refine ⟨perm_sortByRevenueDesc _, pairwise_sortByRevenueDesc _, ?_, ?_⟩
  · intro hdistinct b hmap
    exact (sortByRevenueDesc_eq_of_perm _ _
      (perm_entries_of_find_eq _ _ (fun k => (hmap k).symm)) hdistinct).symm
  · intro htie
    have hkeys : (keysOf a._bmw_europe_revenue.entries).Nodup := a._bmw_europe_revenue.2
    have hnodup : a._bmw_europe_revenue.entries.Nodup := List.Nodup.of_map Prod.fst hkeys
    rw [List.nodup_map_iff_inj_on hnodup] at htie
    push_neg at htie
    obtain ⟨x, hx, y, hy, hsum, hxy⟩ := htie
    have hrev : (keysOf a._bmw_europe_revenue.entries.reverse).Nodup := by
      unfold keysOf
      rw [List.map_reverse]
      exact List.nodup_reverse.mpr hkeys
    refine ⟨{ a with _bmw_europe_revenue := ⟨a._bmw_europe_revenue.entries.reverse, hrev⟩ },
      fun k => findEntry_perm _ _ (List.reverse_perm _) hrev k, ?_⟩
    intro hEq
    have hf := congrArg (List.filter (fun e => decide (e.2 = x.2))) hEq
    unfold CarSalesAnalyzer.getBmwEuropeRevenueDistribution at hf
    rw [filter_sortByRevenueDesc, filter_sortByRevenueDesc] at hf
    have hf' : (a._bmw_europe_revenue.entries.filter (fun e => decide (e.2 = x.2))).reverse =
        a._bmw_europe_revenue.entries.filter (fun e => decide (e.2 = x.2)) := by
      rw [← List.filter_reverse]
      exact hf
    exact reverse_ne_self_of_nodup _ (hnodup.filter _) x y
      (List.mem_filter.mpr ⟨hx, by simp⟩) (List.mem_filter.mpr ⟨hy, by simp [hsum]⟩) hxy hf'

/-- Witness for C10 as amended: Germany 48000 and France 75000 give the same sequence for
both insertion orders; Germany 100 and France 100 do not determine the sequence. -/
theorem distribution_determined_up_to_ties_witness :
    (((CarSalesAnalyzer.new 100).reset.processChunk
        [⟨"BMW", "Germany", 2025, 1, 48000⟩,
         ⟨"BMW", "France", 2025, 1, 75000⟩])._bmw_europe_revenue.entries.map Prod.snd).Nodup ∧
    ((CarSalesAnalyzer.new 100).reset.processChunk
        [⟨"BMW", "France", 2025, 1, 75000⟩,
         ⟨"BMW", "Germany", 2025, 1, 48000⟩]).getBmwEuropeRevenueDistribution =
      ((CarSalesAnalyzer.new 100).reset.processChunk
        [⟨"BMW", "Germany", 2025, 1, 48000⟩,
         ⟨"BMW", "France", 2025, 1, 75000⟩]).getBmwEuropeRevenueDistribution ∧
    ¬ (((CarSalesAnalyzer.new 100).reset.processChunk
        [⟨"BMW", "Germany", 2025, 1, 100⟩,
         ⟨"BMW", "France", 2025, 1, 100⟩])._bmw_europe_revenue.entries.map Prod.snd).Nodup ∧
    (∃ b : CarSalesAnalyzer,
      (∀ k, b._bmw_europe_revenue.find k =
        ((CarSalesAnalyzer.new 100).reset.processChunk
          [⟨"BMW", "Germany", 2025, 1, 100⟩,
           ⟨"BMW", "France", 2025, 1, 100⟩])._bmw_europe_revenue.find k) ∧
      b.getBmwEuropeRevenueDistribution ≠
        ((CarSalesAnalyzer.new 100).reset.processChunk
          [⟨"BMW", "Germany", 2025, 1, 100⟩,
           ⟨"BMW", "France", 2025, 1, 100⟩]).getBmwEuropeRevenueDistribution) :=
  ⟨by decide!,
    (distribution_determined_up_to_ties
      ((CarSalesAnalyzer.new 100).reset.processChunk
        [⟨"BMW", "Germany", 2025, 1, 48000⟩,
         ⟨"BMW", "France", 2025, 1, 75000⟩])).2.2.1 (by decide!) _
      (fun k => by
        rw [find_processChunk_reset, find_processChunk_reset]
        exact bucketAfter_perm none _ _ (List.Perm.swap _ _ _) k),
    by decide!,
    (distribution_determined_up_to_ties
      ((CarSalesAnalyzer.new 100).reset.processChunk
        [⟨"BMW", "Germany", 2025, 1, 100⟩,
         ⟨"BMW", "France", 2025, 1, 100⟩])).2.2.2 (by decide!)⟩

/-! ## Lemmas on characters and library functions -/

theorem isdigit_bounds {c : Char} (h : isdigit c = true) : 48 ≤ c.toNat ∧ c.toNat ≤ 57 := by
  simpa [isdigit] using h

theorem isdigit_ne_dash {c : Char} (h : isdigit c = true) : c ≠ '-' := by
  rintro rfl
  revert h
  decide

theorem isdigit_ne_plus {c : Char} (h : isdigit c = true) : c ≠ '+' := by
  rintro rfl
  revert h
  decide

theorem isdigit_ne_dot {c : Char} (h : isdigit c = true) : c ≠ '.' := by
  rintro rfl
  revert h
  decide

theorem isdigit_not_isspace {c : Char} (h : isdigit c = true) : isspace c = false := by
  have hb := isdigit_bounds h
  have hne : c ≠ ' ' := by
    rintro rfl
    revert h
    decide
  simp only [isspace, hne, false_or, decide_eq_false_iff_not, not_and, not_le]
  intro _
  omega

theorem digitValue_le_nine {c : Char} (h : isdigit c = true) : digitValue c ≤ 9 := by
  have hb := isdigit_bounds h
  unfold digitValue
  omega

theorem rfind_eq_none (c : Char) (s : List Char) (h : c ∉ s) : rfind c s = none := by
  induction s with
  | nil => rfl
  | cons x rest ih =>
    simp only [List.mem_cons, not_or] at h
    have hx : ¬ x = c := fun e => h.1 e.symm
    simp [rfind, ih h.2, hx]

theorem rfind_append_cons (c : Char) (pre suf : List Char) (h : c ∉ suf) :
    rfind c (pre ++ c :: suf) = some pre.length := by
  induction pre with
  | nil => simp [rfind, rfind_eq_none c suf h]
  | cons x rest ih => simp [rfind, ih]

theorem extractYearFromDate_split (pre suf : List Char) (h : '-' ∉ suf) :
    extractYearFromDate (pre ++ '-' :: suf) =
      if (pre ++ '-' :: suf).length < 10 ∨ suf = [] then 0
      else (stoi (suf.take 4)).getD 0 := by
  unfold extractYearFromDate
  by_cases hlen : (pre ++ '-' :: suf).length < 10
  · rw [if_pos hlen, if_pos (Or.inl hlen)]
  · rw [if_neg hlen, rfind_append_cons '-' pre suf h]
    by_cases hs : suf = []
    · subst hs
      simp
    · have hpos : 0 < suf.length := List.length_pos.mpr hs
      have hge : ¬ (pre.length + 1 ≥ (pre ++ '-' :: suf).length) := by
        simp only [List.length_append, List.length_cons]
        omega
      have hdrop : List.drop (pre.length + 1) (pre ++ '-' :: suf) = suf := by
        rw [List.drop_append_eq_append_drop]
        simp
      simp only [hge, if_false, hdrop, hlen, hs, or_self]
      cases stoi (List.take 4 suf) <;> rfl

theorem extractYearFromDate_no_dash (s : List Char) (h : '-' ∉ s) :
    extractYearFromDate s = 0 := by
  unfold extractYearFromDate
  rw [rfind_eq_none '-' s h]
  simp

theorem stoi_four_digits (y1 y2 y3 y4 : Char) (h1 : isdigit y1 = true) (h2 : isdigit y2 = true)
    (h3 : isdigit y3 = true) (h4 : isdigit y4 = true) :
    stoi [y1, y2, y3, y4] =
      some (1000 * (digitValue y1 : Int) + 100 * (digitValue y2 : Int) +
        10 * (digitValue y3 : Int) + (digitValue y4 : Int)) := by
  have n1 := digitValue_le_nine h1
  have n2 := digitValue_le_nine h2
  have n3 := digitValue_le_nine h3
  have n4 := digitValue_le_nine h4
  simp [stoi, List.dropWhile, List.takeWhile, isdigit_not_isspace h1, isdigit_ne_dash h1,
    isdigit_ne_plus h1, h1, h2, h3, h4, digitsValue]
  refine ⟨⟨by omega, by omega⟩, by ring⟩

theorem extractYearFromDate_date (s : List Char) (h : isDateDDMMYYYY s = true) :
    extractYearFromDate s = dateYear s := by
  match s, h with
  | [d1, d2, a, m1, m2, b, y1, y2, y3, y4], h =>
    simp only [isDateDDMMYYYY, Bool.and_eq_true, decide_eq_true_eq] at h
    obtain ⟨⟨⟨⟨⟨⟨⟨⟨⟨hd1, hd2⟩, ha⟩, hm1⟩, hm2⟩, hb⟩, h1⟩, h2⟩, h3⟩, h4⟩ := h
    subst ha hb
    have hsuf : '-' ∉ [y1, y2, y3, y4] := by
      simp only [List.mem_cons, List.mem_singleton, not_or, List.mem_nil_iff, or_false]
      exact ⟨fun e => isdigit_ne_dash h1 e.symm, fun e => isdigit_ne_dash h2 e.symm,
        fun e => isdigit_ne_dash h3 e.symm, fun e => isdigit_ne_dash h4 e.symm⟩
    have hsplit := extractYearFromDate_split [d1, d2, '-', m1, m2] [y1, y2, y3, y4] hsuf
    simp only [List.cons_append, List.nil_append] at hsplit
    rw [hsplit]
    simp [stoi_four_digits y1 y2 y3 y4 h1 h2 h3 h4, dateYear]


theorem numericLoop_eq_true_iff (body : List Char) (has_dot : Bool) :
    numericLoop body has_dot = true ↔
      (∀ c ∈ body, isdigit c = true ∨ c = '.') ∧
        body.count '.' ≤ (if has_dot = true then 0 else 1) := by
  induction body generalizing has_dot with
  | nil => simp [numericLoop]
  | cons c rest ih =>
    by_cases hc : c = '.'
    · subst hc
      cases has_dot
      · simp [numericLoop, ih]
      · simp [numericLoop]
    · by_cases hd : isdigit c = true
      · have hne : ('.' == c) = false := by
          simp only [beq_eq_false_iff_ne, ne_eq]
          exact fun e => hc e.symm
        simp [numericLoop, hc, hd, ih, List.count_cons, hne]
      · simp [numericLoop, hc, hd]

theorem isNumeric_eq_true_iff (str : List Char) :
    isNumeric str = true ↔ matchesPriceGrammar str := by
  unfold matchesPriceGrammar
  cases str with
  | nil => simp [isNumeric, stripSign]
  | cons c rest =>
    have hloop := numericLoop_eq_true_iff (stripSign (c :: rest)) false
    simp only [Bool.false_eq_true, if_false] at hloop
    show (if numericLoop (stripSign (c :: rest)) false = true then
        decide (stripSign (c :: rest) ≠ []) else false) = true ↔ _
    by_cases hl : numericLoop (stripSign (c :: rest)) false = true
    · rw [if_pos hl]
      have h2 := hloop.mp hl
      simp only [decide_eq_true_eq]
      exact ⟨fun h => ⟨h, h2⟩, fun h => h.1⟩
    · rw [if_neg hl]
      constructor
      · intro h; cases h
      · intro h; exact absurd (hloop.mpr h.2) hl

theorem stod_body_eq_stripSign (str : List Char) :
    (if str.head? = some '-' ∨ str.head? = some '+' then str.tail else str) = stripSign str := by
  cases str with
  | nil => simp [stripSign]
  | cons c rest => simp [stripSign]

theorem foldl_digits (ds : List Char) (acc : Nat) :
    ds.foldl (fun acc c => acc * 10 + digitValue c) acc =
      acc * 10 ^ ds.length + digitsValue ds := by
  induction ds generalizing acc with
  | nil => simp [digitsValue]
  | cons d rest ih =>
    unfold digitsValue
    rw [List.foldl_cons, List.foldl_cons, ih, ih (0 * 10 + digitValue d)]
    simp only [List.length_cons, digitsValue]
    ring

theorem digitsValue_append (a b : List Char) :
    digitsValue (a ++ b) = digitsValue a * 10 ^ b.length + digitsValue b := by
  unfold digitsValue
  rw [List.foldl_append, foldl_digits]
  rfl

/-- A string of digits and points with at most one point is a run of digits, or two runs of
digits around one point. -/
theorem digits_or_point_shape (body : List Char)
    (hall : ∀ c ∈ body, isdigit c = true ∨ c = '.') (hcount : body.count '.' ≤ 1) :
    (∀ c ∈ body, isdigit c = true) ∨
      ∃ ip fp, body = ip ++ '.' :: fp ∧ (∀ c ∈ ip, isdigit c = true) ∧
        (∀ c ∈ fp, isdigit c = true) := by
  induction body with
  | nil => exact Or.inl (by simp)
  | cons c rest ih =>
    have hall' : ∀ c ∈ rest, isdigit c = true ∨ c = '.' :=
      fun x hx => hall x (List.mem_cons_of_mem c hx)
    rcases hall c (List.mem_cons_self c rest) with hd | hp
    · have hne : ('.' == c) = false := by
        simp only [beq_eq_false_iff_ne, ne_eq]
        exact fun e => isdigit_ne_dot hd e.symm
      have hcount' : rest.count '.' ≤ 1 := by
        simpa [List.count_cons, isdigit_ne_dot hd] using hcount
      rcases ih hall' hcount' with h | ⟨ip, fp, hb, hi, hf⟩
      · left
        intro x hx
        rcases List.mem_cons.mp hx with rfl | hx
        · exact hd
        · exact h x hx
      · right
        refine ⟨c :: ip, fp, by rw [hb]; rfl, ?_, hf⟩
        intro x hx
        rcases List.mem_cons.mp hx with rfl | hx
        · exact hd
        · exact hi x hx
    · subst hp
      have hcount' : rest.count '.' = 0 := by
        simp only [List.count_cons_self] at hcount
        omega
      have hnot : '.' ∉ rest := List.count_eq_zero.mp hcount'
      right
      refine ⟨[], rest, rfl, by simp, ?_⟩
      intro x hx
      rcases hall' x hx with h | h
      · exact h
      · exact absurd (h ▸ hx) hnot

theorem all_digits_no_dot (ds : List Char) (h : ∀ c ∈ ds, isdigit c = true) :
    ds.dropWhile (fun c => decide (c ≠ '.')) = [] := by
  rw [List.dropWhile_eq_nil_iff]
  intro x hx
  simpa using isdigit_ne_dot (h x hx)

theorem strtodValue_of_decimal_numeral (str : List Char) (h : isDecimalNumeral str) :
    strtodValue str = some (decimalValue str) := by
  obtain ⟨⟨hne, hall, hcount⟩, c0, hc0, hd0⟩ := h
  unfold strtodValue decimalValue
  simp only [stod_body_eq_stripSign]
  generalize stripSign str = body at *
  rcases digits_or_point_shape body hall hcount with hds | ⟨ip, fp, hb, hi, hf⟩
  · have htake : body.takeWhile isdigit = body := List.takeWhile_eq_self_iff.mpr hds
    have hdrop : body.dropWhile isdigit = [] := List.dropWhile_eq_nil_iff.mpr hds
    have hfilter : body.filter isdigit = body := List.filter_eq_self.mpr hds
    have hdot := all_digits_no_dot body hds
    have hdot' : List.dropWhile (fun c => !decide (c = '.')) body = [] := by simpa using hdot
    simp [htake, hdrop, hfilter, hdot', hne, digitsValue]
  · subst hb
    have hdotdigit : isdigit '.' = false := by decide
    have htake : (ip ++ '.' :: fp).takeWhile isdigit = ip := by
      rw [List.takeWhile_append_of_pos hi]
      simp [List.takeWhile, hdotdigit]
    have hdrop : (ip ++ '.' :: fp).dropWhile isdigit = '.' :: fp := by
      rw [List.dropWhile_append_of_pos hi]
      simp [List.dropWhile, hdotdigit]
    have hfp : fp.takeWhile isdigit = fp := List.takeWhile_eq_self_iff.mpr hf
    have hfilter : (ip ++ '.' :: fp).filter isdigit = ip ++ fp := by
      rw [List.filter_append, List.filter_cons_of_neg (by simp [hdotdigit]),
        List.filter_eq_self.mpr hi, List.filter_eq_self.mpr hf]
    have hdw : (ip ++ '.' :: fp).dropWhile (fun c => decide (c ≠ '.')) = '.' :: fp := by
      rw [List.dropWhile_append_of_pos (fun x hx => by simpa using isdigit_ne_dot (hi x hx))]
      simp [List.dropWhile]
    have hsome : ¬ (ip = [] ∧ fp = []) := by
      rintro ⟨rfl, rfl⟩
      rcases List.mem_cons.mp hc0 with rfl | hx
      · exact absurd hd0 (by decide)
      · cases hx
    simp only [htake, hdrop, List.head?_cons, if_true, List.tail_cons, hfp, hsome, if_false,
      hfilter, hdw, List.drop_succ_cons, List.drop_zero, digitsValue_append]
    have hpow : ((10 : ℚ) ^ fp.length) ≠ 0 := pow_ne_zero _ (by norm_num)
    have hv : (digitsValue ip : ℚ) + (digitsValue fp : ℚ) / (10 : ℚ) ^ fp.length =
        ((digitsValue ip * 10 ^ fp.length + digitsValue fp : Nat) : ℚ) / (10 : ℚ) ^ fp.length := by
      push_cast
      field_simp
    rw [hv]

theorem strtodRangeError_of_fitsDouble (v : ℚ) (h : fitsDouble v) :
    strtodRangeError v = false := by
  obtain ⟨h1, h2, h3⟩ := h
  have hmin : (0 : ℚ) < DBL_MIN := by unfold DBL_MIN; positivity
  unfold strtodRangeError
  rw [Bool.or_eq_false_iff, decide_eq_false_iff_not, decide_eq_false_iff_not]
  constructor
  · rintro (h | h)
    · exact absurd h2 (not_lt.mpr h)
    · exact absurd h1 (not_lt.mpr h)
  · rintro ⟨(⟨hpos, hlt⟩ | ⟨hgt, hneg⟩), -⟩
    · rcases h3 with h0 | hge | hle
      · rw [h0] at hpos
        exact lt_irrefl _ hpos
      · exact absurd hlt (not_lt.mpr hge)
      · linarith
    · rcases h3 with h0 | hge | hle
      · rw [h0] at hneg
        exact lt_irrefl _ hneg
      · linarith
      · exact absurd hgt (not_lt.mpr hle)

theorem stod_of_decimal_numeral (str : List Char) (h : isDecimalNumeral str)
    (hfit : fitsDouble (decimalValue str)) : stod str = some (decimalValue str) := by
  unfold stod
  rw [strtodValue_of_decimal_numeral str h]
  simp only [strtodRangeError_of_fitsDouble _ hfit, Bool.false_eq_true, if_false]

/-! ## Lemmas on `parseLine` -/

theorem splitLine_nil (d : Char) : splitLine [] d = [[]] := by
  simp [splitLine, splitLoop, trim]

theorem parseLine_of_fields (p : CsvParser) (line : List Char)
    (hcount : 21 ≤ (splitLine line p.delimiter_).length) :
    parseLine p line =
      if isNumeric (fieldAt p line 20) = false then none
      else
        match stod (fieldAt p line 20) with
        | none => none
        | some revenue =>
          if fieldAt p line 8 = [] ∨ fieldAt p line 2 = [] then none
          else if extractYearFromDate (fieldAt p line 1) < 1900 ∨
              extractYearFromDate (fieldAt p line 1) > 2100 then none
          else some ⟨String.mk (fieldAt p line 8), String.mk (fieldAt p line 2),
            extractYearFromDate (fieldAt p line 1), 1, revenue⟩ := by
  have hne : line ≠ [] := by
    rintro rfl
    rw [splitLine_nil] at hcount
    simp at hcount
  have hlt : ¬ (splitLine line p.delimiter_).length < 21 := by omega
  unfold parseLine fieldAt
  simp only [hne, if_false, hlt, Bool.not_eq_true']

theorem parseLine_valid (p : CsvParser) (line : List Char)
    (hcount : 21 ≤ (splitLine line p.delimiter_).length)
    (hdate : isDateDDMMYYYY (fieldAt p line 1) = true)
    (hyear : 1900 ≤ dateYear (fieldAt p line 1) ∧ dateYear (fieldAt p line 1) ≤ 2100)
    (hcountry : fieldAt p line 2 ≠ []) (hbrand : fieldAt p line 8 ≠ [])
    (hprice : isDecimalNumeral (fieldAt p line 20))
    (hfit : fitsDouble (decimalValue (fieldAt p line 20))) :
    parseLine p line =
      some ⟨String.mk (fieldAt p line 8), String.mk (fieldAt p line 2),
        dateYear (fieldAt p line 1), 1, decimalValue (fieldAt p line 20)⟩ := by
  rw [parseLine_of_fields p line hcount, extractYearFromDate_date _ hdate,
    stod_of_decimal_numeral _ hprice hfit]
  have hnum : isNumeric (fieldAt p line 20) = true := (isNumeric_eq_true_iff _).mpr hprice.1
  have hy : ¬ (dateYear (fieldAt p line 1) < 1900 ∨ dateYear (fieldAt p line 1) > 2100) := by
    omega
  simp only [hnum, Bool.true_eq_false, if_false, hbrand, hcountry, or_self, hy]

theorem stod_of_overflow (str : List Char) (h : isDecimalNumeral str)
    (hover : DBL_OVERFLOW ≤ decimalValue str ∨ decimalValue str ≤ -DBL_OVERFLOW) :
    stod str = none := by
  unfold stod
  rw [strtodValue_of_decimal_numeral str h]
  have hr : strtodRangeError (decimalValue str) = true := by
    unfold strtodRangeError
    rw [Bool.or_eq_true]
    exact Or.inl (decide_eq_true hover)
  simp only [hr, if_true]

theorem parseLine_same_fields (p : CsvParser) (line line' : List Char)
    (hcount : 21 ≤ (splitLine line p.delimiter_).length)
    (hcount' : 21 ≤ (splitLine line' p.delimiter_).length)
    (h1 : fieldAt p line' 1 = fieldAt p line 1) (h2 : fieldAt p line' 2 = fieldAt p line 2)
    (h8 : fieldAt p line' 8 = fieldAt p line 8)
    (h20 : fieldAt p line' 20 = fieldAt p line 20) :
    parseLine p line' = parseLine p line := by
  rw [parseLine_of_fields p line hcount, parseLine_of_fields p line' hcount', h1, h2, h8, h20]

theorem string_mk_ne_empty (l : List Char) (h : l ≠ []) : String.mk l ≠ "" := by
  intro e
  apply h
  have := congrArg String.data e
  simpa using this

theorem parseLine_some_invariants (p : CsvParser) (line : List Char) (r : CarSaleRecord)
    (h : parseLine p line = some r) :
    r.brand ≠ "" ∧ r.country ≠ "" ∧ 1900 ≤ r.year ∧ r.year ≤ 2100 ∧ r.quantity = 1 := by
  unfold parseLine at h
  split at h
  · cases h
  · simp only at h
    split at h
    · cases h
    · split at h
      · cases h
      · split at h
        · cases h
        · split at h
          · cases h
          · split at h
            · cases h
            · rename_i hbc hy
              simp only [Option.some.injEq] at h
              subst h
              simp only [not_or, not_lt, gt_iff_lt] at hbc hy
              exact ⟨string_mk_ne_empty _ hbc.1, string_mk_ne_empty _ hbc.2, hy.1, hy.2, rfl⟩

theorem parseLine_few_fields (p : CsvParser) (line : List Char)
    (h : (splitLine line p.delimiter_).length < 21) : parseLine p line = none := by
  unfold parseLine
  by_cases hl : line = []
  · simp [hl]
  · simp [hl, h]

theorem parseLine_price_overflow (p : CsvParser) (line : List Char)
    (hprice : isDecimalNumeral (fieldAt p line 20))
    (hover : DBL_OVERFLOW ≤ decimalValue (fieldAt p line 20) ∨
      decimalValue (fieldAt p line 20) ≤ -DBL_OVERFLOW) :
    parseLine p line = none := by
  by_cases hcount : 21 ≤ (splitLine line p.delimiter_).length
  · rw [parseLine_of_fields p line hcount, stod_of_overflow _ hprice hover]
    split <;> rfl
  · exact parseLine_few_fields p line (by omega)

theorem parseLine_bad_price (p : CsvParser) (line : List Char)
    (hcount : 21 ≤ (splitLine line p.delimiter_).length)
    (hbad : ¬ matchesPriceGrammar (fieldAt p line 20)) : parseLine p line = none := by
  rw [parseLine_of_fields p line hcount]
  have hnum : isNumeric (fieldAt p line 20) = false := by
    rw [← Bool.not_eq_true, isNumeric_eq_true_iff]
    exact hbad
  simp [hnum]

theorem not_matchesPriceGrammar_iff (str : List Char) :
    ¬ matchesPriceGrammar str ↔
      str = [] ∨ stripSign str = [] ∨ 2 ≤ (stripSign str).count '.' ∨
        ∃ c ∈ stripSign str, isdigit c = false ∧ c ≠ '.' := by
  unfold matchesPriceGrammar
  constructor
  · intro h
    by_cases h1 : stripSign str = []
    · exact Or.inr (Or.inl h1)
    · by_cases h2 : (stripSign str).count '.' ≤ 1
      · right; right; right
        by_contra hno
        apply h
        refine ⟨h1, ?_, h2⟩
        intro c hc
        by_cases hd : isdigit c = true
        · exact Or.inl hd
        · right
          by_contra hp
          exact hno ⟨c, hc, by simpa using hd, hp⟩
      · exact Or.inr (Or.inr (Or.inl (by omega)))
  · rintro (h | h | h | ⟨c, hc, hd, hp⟩) hg
    · subst h
      exact hg.1 rfl
    · exact hg.1 h
    · omega
    · rcases hg.2.1 c hc with h | h
      · rw [h] at hd; cases hd
      · exact hp h

/-! ## Lemmas on `parseString` -/

theorem forget_invokeProcessor {σ : Type} (processor : ChunkProcessor σ)
    (st : ParseLoop (σ × CallLog)) :
    (invokeProcessor (recording processor) st).forget =
      invokeProcessor processor st.forget := rfl

theorem forget_decodeLine {σ : Type} (p : CsvParser) (st : ParseLoop (σ × CallLog))
    (line : List Char) : (decodeLine p st line).forget = decodeLine p st.forget line := by
  unfold decodeLine
  cases parseLine p line <;> rfl

theorem forget_flushIfFull {σ : Type} (p : CsvParser) (processor : ChunkProcessor σ)
    (st : ParseLoop (σ × CallLog)) :
    (flushIfFull p (recording processor) st).forget = flushIfFull p processor st.forget := by
  by_cases h : st.chunk.length ≥ p.chunk_size_
  · rw [flushIfFull, flushIfFull, if_pos h, if_pos (show st.forget.chunk.length ≥ _ from h)]
    rfl
  · rw [flushIfFull, flushIfFull, if_neg h, if_neg (show ¬ st.forget.chunk.length ≥ _ from h)]

theorem forget_parseStringLine {σ : Type} (p : CsvParser) (processor : ChunkProcessor σ)
    (st : ParseLoop (σ × CallLog)) (line : List Char) :
    (parseStringLine p (recording processor) st line).forget =
      parseStringLine p processor st.forget line := by
  unfold parseStringLine
  by_cases hh : st.is_header = true
  · rw [if_pos hh, if_pos (show st.forget.is_header = true from hh)]
    rfl
  · rw [if_neg hh, if_neg (show ¬ st.forget.is_header = true from hh)]
    by_cases ht : trim line = []
    · rw [if_pos ht, if_pos ht]
      rfl
    · rw [if_neg ht, if_neg ht, forget_flushIfFull, forget_decodeLine]
      rfl

theorem forget_foldl {σ : Type} (p : CsvParser) (processor : ChunkProcessor σ)
    (lines : List (List Char)) (st : ParseLoop (σ × CallLog)) :
    (lines.foldl (parseStringLine p (recording processor)) st).forget =
      lines.foldl (parseStringLine p processor) st.forget := by
  induction lines generalizing st with
  | nil => rfl
  | cons l rest ih => rw [List.foldl_cons, List.foldl_cons, ih, forget_parseStringLine]

/-- Instrumenting the processor changes neither the result, nor the parser, nor the state the
processor has captured. -/
theorem parseString_recording {σ : Type} (p : CsvParser) (content : List Char)
    (processor : ChunkProcessor σ) (captured : σ) (log : CallLog) :
    (parseString p content (recording processor) (captured, log)).1 =
      (parseString p content processor captured).1 ∧
    (parseString p content (recording processor) (captured, log)).2.1 =
      (parseString p content processor captured).2.1 ∧
    (parseString p content (recording processor) (captured, log)).2.2.1 =
      (parseString p content processor captured).2.2 := by
  have hf := forget_foldl p processor (getlines content)
    { overall_result := ChunkResult.new, total_records_processed := 0, chunk := [],
      line_number := 0, is_header := true, captured := (captured, log) }
  unfold parseString
  simp only
  generalize hst : List.foldl (parseStringLine p (recording processor))
    { overall_result := ChunkResult.new, total_records_processed := 0, chunk := [],
      line_number := 0, is_header := true, captured := (captured, log) } (getlines content) = st
    at hf
  have hf' : List.foldl (parseStringLine p processor)
      { overall_result := ChunkResult.new, total_records_processed := 0, chunk := [],
        line_number := 0, is_header := true, captured := captured } (getlines content) =
      st.forget := hf.symm
  rw [hf']
  have hc : st.forget.chunk = st.chunk := rfl
  by_cases hch : st.chunk = []
  · simp only [hc, hch, if_true]
    exact ⟨rfl, rfl, rfl⟩
  · simp only [hc, hch, if_false, ← forget_invokeProcessor]
    exact ⟨rfl, rfl, rfl⟩

theorem dropWhile_eq_nil_iff_all (l : List Char) :
    l.dropWhile isspace = [] ↔ l.all isspace = true := by
  rw [List.dropWhile_eq_nil_iff, List.all_eq_true]

theorem trim_eq_nil_iff (l : List Char) : trim l = [] ↔ isBlank l = true := by
  unfold trim isBlank
  rw [List.reverse_eq_nil_iff, List.dropWhile_eq_nil_iff, List.all_eq_true]
  constructor
  · intro h
    by_cases hd : l.dropWhile isspace = []
    · exact List.dropWhile_eq_nil_iff.mp hd
    · exfalso
      obtain ⟨x, rest, hx⟩ := List.exists_cons_of_ne_nil hd
      have hmem : x ∈ (l.dropWhile isspace).reverse := by
        rw [List.mem_reverse, hx]
        exact List.mem_cons_self _ _
      have hsp := h x hmem
      have hnot : ¬ isspace x = true := by
        have := List.head_dropWhile_not isspace l hd
        simp only [hx, List.head_cons] at this
        simpa using this
      exact hnot hsp
  · intro h x hx
    rw [List.mem_reverse] at hx
    exact h x ((List.dropWhile_sublist _).subset hx)

theorem decodedOf_append (p : CsvParser) (a b : List (List Char)) :
    decodedOf p (a ++ b) = decodedOf p a ++ decodedOf p b := by
  simp [decodedOf, List.filter_append, List.filterMap_append]

theorem failedOf_append (p : CsvParser) (a b : List (List Char)) :
    failedOf p (a ++ b) = failedOf p a + failedOf p b := by
  simp [failedOf, List.filter_append]

theorem decodedOf_blank (p : CsvParser) (line : List Char) (h : isBlank line = true) :
    decodedOf p [line] = [] := by
  simp [decodedOf, h]

theorem failedOf_blank (p : CsvParser) (line : List Char) (h : isBlank line = true) :
    failedOf p [line] = 0 := by
  simp [failedOf, h]

theorem decodedOf_some (p : CsvParser) (line : List Char) (r : CarSaleRecord)
    (h : isBlank line = false) (hp : parseLine p line = some r) : decodedOf p [line] = [r] := by
  simp [decodedOf, h, hp]

theorem failedOf_some (p : CsvParser) (line : List Char) (r : CarSaleRecord)
    (h : isBlank line = false) (hp : parseLine p line = some r) : failedOf p [line] = 0 := by
  simp [failedOf, h, hp]

theorem decodedOf_none (p : CsvParser) (line : List Char)
    (h : isBlank line = false) (hp : parseLine p line = none) : decodedOf p [line] = [] := by
  simp [decodedOf, h, hp]

theorem failedOf_none (p : CsvParser) (line : List Char)
    (h : isBlank line = false) (hp : parseLine p line = none) : failedOf p [line] = 1 := by
  simp [failedOf, h, hp]


theorem recordFailure_fields (o : ChunkResult) (n : Nat) :
    (recordFailure o n).records_failed = (o.records_failed + 1) % SIZE_T_MOD ∧
    (recordFailure o n).errors.length =
      (if o.errors.length < 100 then o.errors.length + 1 else o.errors.length) ∧
    (recordFailure o n).records_processed = o.records_processed ∧
    (recordFailure o n).success = o.success := by
  unfold recordFailure
  by_cases h : o.errors.length < 100
  · simp [h]
  · simp [h]

theorem invokeProcessor_fields {σ : Type} (q : ChunkProcessor σ) (st : ParseLoop σ) :
    (invokeProcessor q st).overall_result.records_failed = st.overall_result.records_failed ∧
    (invokeProcessor q st).overall_result.errors = st.overall_result.errors ∧
    (invokeProcessor q st).overall_result.records_processed =
      (st.overall_result.records_processed + st.chunk.length) % SIZE_T_MOD ∧
    (invokeProcessor q st).overall_result.success =
      (st.overall_result.success && (q st.chunk ChunkResult.new st.captured).1) ∧
    (invokeProcessor q st).total_records_processed =
      (st.total_records_processed + st.chunk.length) % SIZE_T_MOD ∧
    (invokeProcessor q st).captured = (q st.chunk ChunkResult.new st.captured).2.2 ∧
    (invokeProcessor q st).is_header = st.is_header ∧
    (invokeProcessor q st).chunk = st.chunk := by
  unfold invokeProcessor
  cases hv : (q st.chunk ChunkResult.new st.captured).1 <;> simp [hv]

theorem recording_log {σ : Type} (processor : ChunkProcessor σ) (chunk : List CarSaleRecord)
    (r : ChunkResult) (captured : σ × CallLog) :
    ((recording processor) chunk r captured).2.2.2 =
      captured.2 ++ [(chunk, ((recording processor) chunk r captured).1)] := rfl

theorem LoopInv.withLineNumber {σ : Type} {c : Nat} {D : List CarSaleRecord} {F k : Nat}
    {st : ParseLoop (σ × CallLog)} (h : LoopInv c D F k st) (n : Nat) :
    LoopInv c D F k { st with line_number := n } :=
  ⟨h.header, h.failed, h.errors, h.records, h.processed, h.total, h.success, h.full, h.room⟩

theorem LoopInv.decode {σ : Type} {c : Nat} {D : List CarSaleRecord} {F : Nat}
    {st : ParseLoop (σ × CallLog)} (h : LoopInv c D F 0 st) (p : CsvParser) (line : List Char)
    (hb : isBlank line = false) :
    LoopInv c (D ++ decodedOf p [line]) (F + failedOf p [line]) 1 (decodeLine p st line) := by
  unfold decodeLine
  cases hp : parseLine p line with
  | some r =>
    rw [decodedOf_some p line r hb hp, failedOf_some p line r hb hp]
    refine ⟨h.header, h.failed, h.errors, ?_, h.processed, h.total, h.success, h.full, ?_⟩
    · show (batchesOf st.captured.2).flatten ++ (st.chunk ++ [r]) = D ++ [r]
      rw [← List.append_assoc, h.records]
    · intro hc
      have := h.room hc
      show (st.chunk ++ [r]).length < c + 1
      rw [List.length_append, List.length_singleton]
      omega
  | none =>
    rw [decodedOf_none p line hb hp, failedOf_none p line hb hp, List.append_nil]
    obtain ⟨f1, f2, f3, f4⟩ := recordFailure_fields st.overall_result st.line_number
    refine ⟨h.header, ?_, ?_, h.records, ?_, h.total, ?_, h.full, ?_⟩
    · show (recordFailure st.overall_result st.line_number).records_failed = _
      rw [f1, h.failed]
      unfold SIZE_T_MOD
      omega
    · show (recordFailure st.overall_result st.line_number).errors.length = _
      rw [f2, h.errors]
      split <;> omega
    · show (recordFailure st.overall_result st.line_number).records_processed = _
      rw [f3, h.processed]
    · show (recordFailure st.overall_result st.line_number).success = _
      rw [f4, h.success]
    · intro hc
      have := h.room hc
      show st.chunk.length < c + 1
      omega

theorem LoopInv.flush {σ : Type} {D : List CarSaleRecord} {F : Nat}
    {st : ParseLoop (σ × CallLog)} (p : CsvParser) (h : LoopInv p.chunk_size_ D F 1 st)
    (processor : ChunkProcessor σ) :
    LoopInv p.chunk_size_ D F 0 (flushIfFull p (recording processor) st) := by
  unfold flushIfFull
  by_cases hge : st.chunk.length ≥ p.chunk_size_
  · rw [if_pos hge]
    obtain ⟨i1, i2, i3, i4, i5, i6, i7, i8⟩ := invokeProcessor_fields (recording processor) st
    have hlog : (invokeProcessor (recording processor) st).captured.2 =
        st.captured.2 ++ [(st.chunk, ((recording processor) st.chunk ChunkResult.new
          st.captured).1)] := by
      rw [i6]
      exact recording_log processor st.chunk ChunkResult.new st.captured
    have hbatches : batchesOf (invokeProcessor (recording processor) st).captured.2 =
        batchesOf st.captured.2 ++ [st.chunk] := by
      rw [hlog]
      simp [batchesOf]
    have hsum : ((batchesOf (invokeProcessor (recording processor) st).captured.2).map
        List.length).sum = ((batchesOf st.captured.2).map List.length).sum + st.chunk.length := by
      rw [hbatches]
      simp
    refine ⟨?_, ?_, ?_, ?_, ?_, ?_, ?_, ?_, ?_⟩
    · show (invokeProcessor (recording processor) st).is_header = false
      rw [i7, h.header]
    · show (invokeProcessor (recording processor) st).overall_result.records_failed = _
      rw [i1, h.failed]
    · show (invokeProcessor (recording processor) st).overall_result.errors.length = _
      rw [i2, h.errors]
    · show (batchesOf (invokeProcessor (recording processor) st).captured.2).flatten ++ [] = D
      rw [hbatches, List.append_nil, List.flatten_append, List.flatten_singleton, h.records]
    · show (invokeProcessor (recording processor) st).overall_result.records_processed = _
      rw [i3, hsum, h.processed]
      unfold SIZE_T_MOD
      omega
    · show (invokeProcessor (recording processor) st).total_records_processed = _
      rw [i5, hsum, h.total]
      unfold SIZE_T_MOD
      omega
    · show (invokeProcessor (recording processor) st).overall_result.success = _
      rw [i4, hlog, List.all_append, h.success]
      simp
    · intro hc b hb
      show b.length = p.chunk_size_
      rw [hbatches] at hb
      rcases List.mem_append.mp hb with hb | hb
      · exact h.full hc b hb
      · have hroom := h.room hc
        rw [List.mem_singleton.mp hb]
        omega
    · intro hc
      show ([] : List CarSaleRecord).length < p.chunk_size_ + 0
      simp only [List.length_nil]
      omega
  · rw [if_neg hge]
    exact ⟨h.header, h.failed, h.errors, h.records, h.processed, h.total, h.success, h.full,
      fun _ => by omega⟩

theorem parseStringLine_data {σ : Type} (p : CsvParser) (q : ChunkProcessor σ)
    (st : ParseLoop σ) (line : List Char) (h : st.is_header = false) :
    parseStringLine p q st line =
      if trim line = [] then { st with line_number := (st.line_number + 1) % SIZE_T_MOD }
      else flushIfFull p q
        (decodeLine p { st with line_number := (st.line_number + 1) % SIZE_T_MOD } line) := by
  unfold parseStringLine
  have hh : ¬ ({ st with line_number := (st.line_number + 1) % SIZE_T_MOD } : ParseLoop σ).is_header
      = true := by
    show ¬ st.is_header = true
    rw [h]
    exact Bool.false_ne_true
  rw [if_neg hh]

theorem LoopInv.step {σ : Type} {D : List CarSaleRecord} {F : Nat}
    {st : ParseLoop (σ × CallLog)} (p : CsvParser) (h : LoopInv p.chunk_size_ D F 0 st)
    (processor : ChunkProcessor σ) (line : List Char) :
    LoopInv p.chunk_size_ (D ++ decodedOf p [line]) (F + failedOf p [line]) 0
      (parseStringLine p (recording processor) st line) := by
  rw [parseStringLine_data p _ st line h.header]
  by_cases ht : trim line = []
  · have hb : isBlank line = true := (trim_eq_nil_iff line).mp ht
    rw [if_pos ht, decodedOf_blank p line hb, failedOf_blank p line hb, List.append_nil,
      Nat.add_zero]
    exact h.withLineNumber _
  · have hb : isBlank line = false := by
      rw [← Bool.not_eq_true, ← trim_eq_nil_iff]
      exact ht
    rw [if_neg ht]
    exact LoopInv.flush p ((h.withLineNumber _).decode p line hb) processor

theorem LoopInv.foldl {σ : Type} (p : CsvParser) (processor : ChunkProcessor σ)
    (lines : List (List Char)) :
    ∀ (pre : List (List Char)) (st : ParseLoop (σ × CallLog)),
      LoopInv p.chunk_size_ (decodedOf p pre) (failedOf p pre) 0 st →
      LoopInv p.chunk_size_ (decodedOf p (pre ++ lines)) (failedOf p (pre ++ lines)) 0
        (lines.foldl (parseStringLine p (recording processor)) st) := by
  induction lines with
  | nil =>
    intro pre st h
    rw [List.append_nil]
    exact h
  | cons l rest ih =>
    intro pre st h
    rw [List.foldl_cons]
    have hstep := LoopInv.step p h processor l
    rw [← decodedOf_append, ← failedOf_append] at hstep
    have := ih (pre ++ [l]) _ hstep
    rw [List.append_assoc] at this
    exact this

theorem sum_length_of_full (c : Nat) (L : List (List CarSaleRecord))
    (h : ∀ b ∈ L, b.length = c) : (L.map List.length).sum = L.length * c := by
  induction L with
  | nil => simp
  | cons b rest ih =>
    have hb := h b (List.mem_cons_self b rest)
    have := ih (fun x hx => h x (List.mem_cons_of_mem b hx))
    simp only [List.map_cons, List.sum_cons, List.length_cons, hb, this]
    rw [Nat.add_mul, Nat.one_mul, Nat.add_comm]

theorem LoopInv.finish {σ : Type} {c : Nat} {D : List CarSaleRecord} {F : Nat}
    {st : ParseLoop (σ × CallLog)} (h : LoopInv c D F 0 st) (processor : ChunkProcessor σ) :
    RunSummary c D F
      (if st.chunk = [] then st else invokeProcessor (recording processor) st).overall_result
      (if st.chunk = [] then st
        else invokeProcessor (recording processor) st).total_records_processed
      (if st.chunk = [] then st else invokeProcessor (recording processor) st).captured.2 := by
  have hlenD : D.length = ((batchesOf st.captured.2).map List.length).sum + st.chunk.length := by
    rw [← h.records, List.length_append, List.length_flatten]
  by_cases hch : st.chunk = []
  · simp only [hch, if_true]
    have hrec : (batchesOf st.captured.2).flatten = D := by
      have := h.records
      rw [hch, List.append_nil] at this
      exact this
    have hlen : D.length = ((batchesOf st.captured.2).map List.length).sum := by
      rw [hlenD, hch, List.length_nil, Nat.add_zero]
    refine ⟨hrec, h.failed, h.errors, ?_, h.processed, ?_, h.success, ?_, ?_, ?_⟩
    · rw [h.processed, hlen]
    · rw [h.total, hlen]
    · intro hc b hb
      exact h.full hc b (List.dropLast_subset _ hb)
    · intro hc b hb
      have := h.full hc b (List.mem_of_getLast?_eq_some hb)
      omega
    · intro hc
      rw [hlen, sum_length_of_full c _ (h.full hc)]
      symm
      apply Nat.div_eq_of_lt_le
      · omega
      · rw [Nat.add_mul, Nat.one_mul]
        omega
  · simp only [hch, if_false]
    obtain ⟨i1, i2, i3, i4, i5, i6, i7, i8⟩ := invokeProcessor_fields (recording processor) st
    have hlog : (invokeProcessor (recording processor) st).captured.2 =
        st.captured.2 ++ [(st.chunk, ((recording processor) st.chunk ChunkResult.new
          st.captured).1)] := by
      rw [i6]
      exact recording_log processor st.chunk ChunkResult.new st.captured
    have hbatches : batchesOf (invokeProcessor (recording processor) st).captured.2 =
        batchesOf st.captured.2 ++ [st.chunk] := by
      rw [hlog]
      simp [batchesOf]
    have hsum : ((batchesOf (invokeProcessor (recording processor) st).captured.2).map
        List.length).sum = D.length := by
      rw [hbatches, hlenD]
      simp
    have hpos : 0 < st.chunk.length := List.length_pos.mpr hch
    refine ⟨?_, ?_, ?_, ?_, ?_, ?_, ?_, ?_, ?_, ?_⟩
    · rw [hbatches, List.flatten_append, List.flatten_singleton, h.records]
    · rw [i1, h.failed]
    · rw [i2, h.errors]
    · rw [i3, h.processed, hlenD]
      unfold SIZE_T_MOD
      omega
    · rw [i3, h.processed, hsum, hlenD]
      unfold SIZE_T_MOD
      omega
    · rw [i5, h.total, hlenD]
      unfold SIZE_T_MOD
      omega
    · rw [i4, hlog, List.all_append, h.success]
      simp
    · intro hc b hb
      rw [hbatches, List.dropLast_concat] at hb
      exact h.full hc b hb
    · intro hc b hb
      rw [hbatches, List.getLast?_concat] at hb
      have hroom := h.room hc
      cases hb
      omega
    · intro hc
      have hroom := h.room hc
      rw [hbatches, List.length_append, List.length_singleton, hlenD,
        sum_length_of_full c _ (h.full hc)]
      symm
      apply Nat.div_eq_of_lt_le
      · rw [Nat.add_mul, Nat.one_mul]
        omega
      · rw [Nat.add_mul, Nat.add_mul, Nat.one_mul]
        omega

theorem runSummary_empty (c : Nat) : RunSummary c [] 0 ChunkResult.new 0 [] := by
  refine ⟨rfl, rfl, rfl, rfl, rfl, rfl, rfl, ?_, ?_, ?_⟩
  · intro _ b hb
    cases hb
  · intro _ b hb
    cases hb
  · intro hc
    show 0 = (0 + c - 1) / c
    symm
    apply Nat.div_eq_of_lt
    omega

theorem loopInv_after_header {σ : Type} (p : CsvParser) (processor : ChunkProcessor σ)
    (captured : σ) (header : List Char) :
    LoopInv p.chunk_size_ (decodedOf p []) (failedOf p []) 0
      (parseStringLine p (recording processor)
        { overall_result := ChunkResult.new, total_records_processed := 0, chunk := [],
          line_number := 0, is_header := true, captured := (captured, []) } header) := by
  refine ⟨rfl, rfl, rfl, rfl, rfl, rfl, rfl, ?_, ?_⟩
  · intro _ b hb
    cases hb
  · intro hc
    show 0 < p.chunk_size_ + 0
    omega

theorem parseString_summary {σ : Type} (p : CsvParser) (content : List Char)
    (processor : ChunkProcessor σ) (captured : σ) :
    RunSummary p.chunk_size_ (decodedRecords p content) (failedLineCount p content)
      (parseString p content (recording processor) (captured, [])).1
      (parseString p content (recording processor) (captured, [])).2.1._total_records_processed
      (parseString p content (recording processor) (captured, [])).2.2.2 := by
  unfold parseString decodedRecords failedLineCount
  simp only
  cases hl : getlines content with
  | nil => exact runSummary_empty p.chunk_size_
  | cons header rest =>
    have h1 := LoopInv.foldl p processor rest [] _
      (loopInv_after_header p processor captured header)
    rw [List.nil_append] at h1
    rw [List.foldl_cons, List.drop_succ_cons, List.drop_zero]
    exact h1.finish processor

theorem getlineLoop_length_le (s cur : List Char) :
    (getlineLoop s cur).length ≤ s.length + (if cur = [] then 0 else 1) := by
  induction s generalizing cur with
  | nil =>
    unfold getlineLoop
    split <;> simp
  | cons c rest ih =>
    unfold getlineLoop
    split
    · have := ih []
      simp only [List.length_cons, if_true] at this ⊢
      split <;> omega
    · have := ih (cur ++ [c])
      have hne : cur ++ [c] ≠ [] := by simp
      simp only [hne, if_false, List.length_cons] at this ⊢
      split <;> omega

theorem getlines_length_le (content : List Char) :
    (getlines content).length ≤ content.length := by
  have := getlineLoop_length_le content []
  simpa [getlines] using this

theorem decodedRecords_length_le (p : CsvParser) (content : List Char) :
    (decodedRecords p content).length ≤ content.length := by
  unfold decodedRecords decodedOf
  have h1 := List.length_filterMap_le (parseLine p)
    (((getlines content).drop 1).filter (fun l => !isBlank l))
  have h2 := List.length_filter_le (fun l => !isBlank l) ((getlines content).drop 1)
  have h3 : ((getlines content).drop 1).length ≤ (getlines content).length := by
    rw [List.length_drop]
    omega
  have h4 := getlines_length_le content
  omega

theorem failedLineCount_le (p : CsvParser) (content : List Char) :
    failedLineCount p content ≤ content.length := by
  unfold failedLineCount failedOf
  have h1 := List.length_filter_le (fun l => (parseLine p l).isNone)
    (((getlines content).drop 1).filter (fun l => !isBlank l))
  have h2 := List.length_filter_le (fun l => !isBlank l) ((getlines content).drop 1)
  have h3 : ((getlines content).drop 1).length ≤ (getlines content).length := by
    rw [List.length_drop]
    omega
  have h4 := getlines_length_le content
  omega

theorem length_filterMap_add_isNone (f : List Char → Option CarSaleRecord)
    (l : List (List Char)) :
    (l.filterMap f).length + (l.filter (fun x => (f x).isNone)).length = l.length := by
  induction l with
  | nil => rfl
  | cons x rest ih =>
    cases hx : f x with
    | none =>
      rw [List.filterMap_cons_none hx, List.filter_cons_of_pos (by simp [hx]), List.length_cons,
        List.length_cons, ← ih]
      omega
    | some y =>
      rw [List.filterMap_cons_some hx, List.filter_cons_of_neg (by simp [hx]), List.length_cons,
        List.length_cons, ← ih]
      omega

/-! ## Claims on the decoder and on `parseString` -/

/-- Counterexample for C11.  The row has 21 fields, the date 15-01-2025, the country China,
the brand Audi and as price the decimal numeral 1 followed by 400 zeros, so every condition
of the claim holds.  The value `10 ^ 400` is beyond the range of `double`: `std::stod` throws
`std::out_of_range`, the `catch` block of `parseLine` returns `nullopt`, and no record is
returned. -/
theorem parseLine_rejects_price_beyond_double :
    21 ≤ (splitLine hugePriceRow '\t').length ∧
    isDateDDMMYYYY (fieldAt (CsvParser.new 100 '\t') hugePriceRow 1) = true ∧
    dateYear (fieldAt (CsvParser.new 100 '\t') hugePriceRow 1) = 2025 ∧
    fieldAt (CsvParser.new 100 '\t') hugePriceRow 2 = "China".toList ∧
    fieldAt (CsvParser.new 100 '\t') hugePriceRow 8 = "Audi".toList ∧
    isDecimalNumeral (fieldAt (CsvParser.new 100 '\t') hugePriceRow 20) ∧
    decimalValue (fieldAt (CsvParser.new 100 '\t') hugePriceRow 20) = 10 ^ 400 ∧
    parseLine (CsvParser.new 100 '\t') hugePriceRow = none := by
  refine ⟨?_, ?_, ?_, ?_, ?_, ?_, ?_, ?_⟩ <;> decide!

/-- C11 as amended (decode correctness).  A line with at least 21 fields whose field 1 is a
DD-MM-YYYY date with year in [1900, 2100], whose fields 2 and 8 are not empty and whose
field 20 is a decimal numeral with a value in the range of `double` decodes to the record with
brand = field 8, country = field 2, year = the year of the date, quantity = 1 and revenue =
the exact value of field 20.  When the value of field 20 is at or beyond the overflow bound
of `double`, the line is rejected.  A second line with the same fields 1, 2, 8 and 20 decodes
to the same result: no other column has any influence. -/
theorem parseLine_decodes (p : CsvParser) (line : List Char)
    (hcount : 21 ≤ (splitLine line p.delimiter_).length)
    (hdate : isDateDDMMYYYY (fieldAt p line 1) = true)
    (hyear : 1900 ≤ dateYear (fieldAt p line 1) ∧ dateYear (fieldAt p line 1) ≤ 2100)
    (hcountry : fieldAt p line 2 ≠ []) (hbrand : fieldAt p line 8 ≠ [])
    (hprice : isDecimalNumeral (fieldAt p line 20)) :
    (fitsDouble (decimalValue (fieldAt p line 20)) →
      parseLine p line =
        some ⟨String.mk (fieldAt p line 8), String.mk (fieldAt p line 2),
          dateYear (fieldAt p line 1), 1, decimalValue (fieldAt p line 20)⟩) ∧
    ((DBL_OVERFLOW ≤ decimalValue (fieldAt p line 20) ∨
        decimalValue (fieldAt p line 20) ≤ -DBL_OVERFLOW) →
      parseLine p line = none) ∧
    ∀ line' : List Char, 21 ≤ (splitLine line' p.delimiter_).length →
      fieldAt p line' 1 = fieldAt p line 1 → fieldAt p line' 2 = fieldAt p line 2 →
      fieldAt p line' 8 = fieldAt p line 8 → fieldAt p line' 20 = fieldAt p line 20 →
      parseLine p line' = parseLine p line :=
  ⟨fun hfit => parseLine_valid p line hcount hdate hyear hcountry hbrand hprice hfit,
    fun hover => parseLine_price_overflow p line hprice hover,
    fun line' hcount' h1 h2 h8 h20 => parseLine_same_fields p line line' hcount hcount' h1 h2 h8 h20⟩

/-- Witness for C11 as amended: date "15-01-2025", country "China", brand "Audi", price
"45000" decodes to year 2025, quantity 1, revenue 45000. -/
theorem parseLine_decodes_witness :
    21 ≤ (splitLine (createLine "15-01-2025" "China" "Audi" "45000") '\t').length ∧
    isDateDDMMYYYY (fieldAt (CsvParser.new 100 '\t')
      (createLine "15-01-2025" "China" "Audi" "45000") 1) = true ∧
    isDecimalNumeral (fieldAt (CsvParser.new 100 '\t')
      (createLine "15-01-2025" "China" "Audi" "45000") 20) ∧
    fitsDouble (decimalValue (fieldAt (CsvParser.new 100 '\t')
      (createLine "15-01-2025" "China" "Audi" "45000") 20)) ∧
    parseLine (CsvParser.new 100 '\t') (createLine "15-01-2025" "China" "Audi" "45000") =
      some ⟨"Audi", "China", 2025, 1, 45000⟩ :=
  ⟨by decide!, by decide!, by decide!, by decide!,
    ((parseLine_decodes (CsvParser.new 100 '\t')
      (createLine "15-01-2025" "China" "Audi" "45000") (by decide!) (by decide!) (by decide!)
      (by decide!) (by decide!) (by decide!)).1 (by decide!)).trans (by decide!)⟩

/-- C12 (record invariants).  Every record returned by `parseLine`, for any line and any
delimiter, has a non-empty brand, a non-empty country, a year between 1900 and 2100 inclusive
and quantity 1. -/
theorem parseLine_record_invariants (p : CsvParser) (line : List Char) (r : CarSaleRecord)
    (h : parseLine p line = some r) :
    r.brand ≠ "" ∧ r.country ≠ "" ∧ 1900 ≤ r.year ∧ r.year ≤ 2100 ∧ r.quantity = 1 :=
  parseLine_some_invariants p line r h

/-- Witness for C12: the record decoded from a BMW row sold in Germany. -/
theorem parseLine_record_invariants_witness :
    parseLine (CsvParser.new 100 '\t') (createLine "20-02-2025" "Germany" "BMW" "75000.000000") =
      some ⟨"BMW", "Germany", 2025, 1, 75000⟩ ∧
    (("BMW" : String) ≠ "" ∧ ("Germany" : String) ≠ "" ∧ (1900 : Int) ≤ 2025 ∧
      (2025 : Int) ≤ 2100 ∧ (1 : Int) = 1) :=
  ⟨by decide!,
    parseLine_record_invariants (CsvParser.new 100 '\t')
      (createLine "20-02-2025" "Germany" "BMW" "75000.000000") ⟨"BMW", "Germany", 2025, 1, 75000⟩
      (by decide!)⟩


/-- C13 (minimum field count).  A line that `splitLine` divides into fewer than 21 fields is
rejected, and so is the empty line. -/
theorem parseLine_rejects_short_line (p : CsvParser) (line : List Char)
    (h : (splitLine line p.delimiter_).length < 21) :
    parseLine p line = none ∧ parseLine p [] = none :=
  ⟨parseLine_few_fields p line h, rfl⟩

/-- Witness for C13: "SALE001\t15-01-2025\tChina" has three fields and is rejected, as is the
empty line. -/
theorem parseLine_rejects_short_line_witness :
    (splitLine "SALE001\t15-01-2025\tChina".toList (CsvParser.new 100 '\t').delimiter_).length
      < 21 ∧
    parseLine (CsvParser.new 100 '\t') "SALE001\t15-01-2025\tChina".toList = none ∧
    parseLine (CsvParser.new 100 '\t') "".toList = none :=
  ⟨by decide!,
    (parseLine_rejects_short_line (CsvParser.new 100 '\t') "SALE001\t15-01-2025\tChina".toList
      (by decide!)).1,
    (parseLine_rejects_short_line (CsvParser.new 100 '\t') "SALE001\t15-01-2025\tChina".toList
      (by decide!)).2⟩

/-- C14 (price grammar).  A price field fails the grammar "optional leading + or -, then
digits with at most one decimal point" exactly when it is empty, is only a sign, holds two
points, or holds a character other than a digit or a point after the optional sign; a line
with at least 21 fields whose field 20 fails the grammar is rejected. -/
theorem parseLine_rejects_bad_price (p : CsvParser) (line : List Char)
    (hcount : 21 ≤ (splitLine line p.delimiter_).length)
    (hbad : ¬ matchesPriceGrammar (fieldAt p line 20)) :
    parseLine p line = none ∧
    (fieldAt p line 20 = [] ∨ stripSign (fieldAt p line 20) = [] ∨
      2 ≤ (stripSign (fieldAt p line 20)).count '.' ∨
      ∃ c ∈ stripSign (fieldAt p line 20), isdigit c = false ∧ c ≠ '.') ∧
    ∀ str : List Char, ¬ matchesPriceGrammar str ↔
      str = [] ∨ stripSign str = [] ∨ 2 ≤ (stripSign str).count '.' ∨
        ∃ c ∈ stripSign str, isdigit c = false ∧ c ≠ '.' :=
  ⟨parseLine_bad_price p line hcount hbad, (not_matchesPriceGrammar_iff _).mp hbad,
    not_matchesPriceGrammar_iff⟩

/-- Witness for C14: the prices "12.3.4", "+", "" and "45k" are rejected. -/
theorem parseLine_rejects_bad_price_witness :
    (21 ≤ (splitLine (createLine "15-01-2025" "China" "Audi" "12.3.4")
      (CsvParser.new 100 '\t').delimiter_).length ∧
    ¬ matchesPriceGrammar (fieldAt (CsvParser.new 100 '\t')
      (createLine "15-01-2025" "China" "Audi" "12.3.4") 20) ∧
    parseLine (CsvParser.new 100 '\t') (createLine "15-01-2025" "China" "Audi" "12.3.4") =
      none) ∧
    parseLine (CsvParser.new 100 '\t') (createLine "15-01-2025" "China" "Audi" "+") = none ∧
    parseLine (CsvParser.new 100 '\t') (createLine "15-01-2025" "China" "Audi" "") = none ∧
    parseLine (CsvParser.new 100 '\t') (createLine "15-01-2025" "China" "Audi" "45k") = none :=
  ⟨⟨by decide!, by decide!,
      (parseLine_rejects_bad_price (CsvParser.new 100 '\t')
        (createLine "15-01-2025" "China" "Audi" "12.3.4") (by decide!) (by decide!)).1⟩,
    (parseLine_rejects_bad_price (CsvParser.new 100 '\t')
      (createLine "15-01-2025" "China" "Audi" "+") (by decide!) (by decide!)).1,
    (parseLine_rejects_bad_price (CsvParser.new 100 '\t')
      (createLine "15-01-2025" "China" "Audi" "") (by decide!) (by decide!)).1,
    (parseLine_rejects_bad_price (CsvParser.new 100 '\t')
      (createLine "15-01-2025" "China" "Audi" "45k") (by decide!) (by decide!)).1⟩

/-- Counterexample for C15.  In "1-1-2025" the text after the last dash is "2025", which is
the integer 2025, but the field has fewer than ten characters and the extracted year is 0.
In "15-01-20255" the text after the last dash is the integer 20255, but only four characters
are read and the extracted year is 2025.  In "15-01-20ab" the text after the last dash is not
an integer, but the extracted year is 20. -/
theorem extractYearFromDate_not_text_after_last_dash :
    ("1-1-2025".toList = "1-1".toList ++ '-' :: "2025".toList ∧ '-' ∉ "2025".toList ∧
      integerValue "2025".toList = some 2025 ∧ extractYearFromDate "1-1-2025".toList = 0) ∧
    ("15-01-20255".toList = "15-01".toList ++ '-' :: "20255".toList ∧ '-' ∉ "20255".toList ∧
      integerValue "20255".toList = some 20255 ∧
      extractYearFromDate "15-01-20255".toList = 2025) ∧
    ("15-01-20ab".toList = "15-01".toList ++ '-' :: "20ab".toList ∧ '-' ∉ "20ab".toList ∧
      integerValue "20ab".toList = none ∧ extractYearFromDate "15-01-20ab".toList = 20) := by
  decide!

/-- C15 as amended.  The extracted year is 0 when the date field has fewer than ten
characters, has no dash, or has nothing after its last dash; otherwise it is the integer that
`std::stoi` reads at the start of the first four characters after the last dash, and 0 when
these do not start with an integer.  The function returns a value for every input. -/
theorem extractYearFromDate_characterised (pre suf : List Char) (h : '-' ∉ suf) :
    extractYearFromDate (pre ++ '-' :: suf) =
      (if (pre ++ '-' :: suf).length < 10 ∨ suf = [] then 0
       else (stoi (suf.take 4)).getD 0) ∧
    (∀ s : List Char, '-' ∉ s → extractYearFromDate s = 0) ∧
    (∀ s : List Char, s.length < 10 → extractYearFromDate s = 0) :=
  ⟨extractYearFromDate_split pre suf h, extractYearFromDate_no_dash,
    fun s hs => by unfold extractYearFromDate; rw [if_pos hs]⟩

/-- Witness for C15 as amended: "15-01-2025" gives 2025. -/
theorem extractYearFromDate_characterised_witness :
    '-' ∉ "2025".toList ∧
    extractYearFromDate ("15-01".toList ++ '-' :: "2025".toList) =
      (if ("15-01".toList ++ '-' :: "2025".toList).length < 10 ∨ "2025".toList = [] then 0
       else (stoi ("2025".toList.take 4)).getD 0) ∧
    extractYearFromDate ("15-01".toList ++ '-' :: "2025".toList) = 2025 :=
  ⟨by decide!,
    (extractYearFromDate_characterised "15-01".toList "2025".toList (by decide!)).1,
    by decide!⟩

/-- C16 (DD-MM-YYYY dates).  For every date of the form two digits, dash, two digits, dash,
four digits, `extractYearFromDate` returns the numeric value of YYYY; a line with such a date
that is otherwise valid (at least 21 fields, fields 2 and 8 not empty, field 20 a decimal
numeral with a value in the range of `double`) decodes with year = YYYY whenever
1900 <= YYYY <= 2100. -/
theorem extractYearFromDate_of_date (s : List Char) (h : isDateDDMMYYYY s = true) :
    extractYearFromDate s = dateYear s ∧
    ∀ (p : CsvParser) (line : List Char), fieldAt p line 1 = s →
      21 ≤ (splitLine line p.delimiter_).length →
      1900 ≤ dateYear s ∧ dateYear s ≤ 2100 →
      fieldAt p line 2 ≠ [] → fieldAt p line 8 ≠ [] → isDecimalNumeral (fieldAt p line 20) →
      fitsDouble (decimalValue (fieldAt p line 20)) →
      ∃ r, parseLine p line = some r ∧ r.year = dateYear s := by
  refine ⟨extractYearFromDate_date s h, ?_⟩
  intro p line hs hcount hyear hcountry hbrand hprice hfit
  subst hs
  exact ⟨_, parseLine_valid p line hcount h hyear hcountry hbrand hprice hfit, rfl⟩

/-- Witness for C16: "15-03-2025" gives 2025 and "20-06-2024" gives 2024, also through
`parseLine`. -/
theorem extractYearFromDate_of_date_witness :
    isDateDDMMYYYY "15-03-2025".toList = true ∧
    extractYearFromDate "15-03-2025".toList = 2025 ∧
    extractYearFromDate "20-06-2024".toList = 2024 ∧
    (parseLine (CsvParser.new 100 '\t')
      (createLine "15-03-2025" "France" "Mercedes" "50000.000000")).map (·.year) = some 2025 ∧
    (parseLine (CsvParser.new 100 '\t')
      (createLine "20-06-2024" "USA" "Ford" "35000.000000")).map (·.year) = some 2024 :=
  ⟨by decide!,
    ((extractYearFromDate_of_date "15-03-2025".toList (by decide!)).1).trans (by decide!),
    ((extractYearFromDate_of_date "20-06-2024".toList (by decide!)).1).trans (by decide!),
    by decide!, by decide!⟩

/-- C17 (batching).  For a chunk size `c >= 1` and `n` decoded records, `parseString` invokes
the processor exactly `ceil(n / c)` times; every batch but the last holds exactly `c` records,
the last holds between 1 and `c` records, and the batches, in invocation order, concatenate to
the decoded records in input order.  Logging the calls does not change the run. -/
theorem parseString_batches {σ : Type} (p : CsvParser) (content : List Char)
    (processor : ChunkProcessor σ) (captured : σ) (hc : 1 ≤ p.chunk_size_) :
    (callsOf p content processor captured).length =
      ((decodedRecords p content).length + p.chunk_size_ - 1) / p.chunk_size_ ∧
    (∀ b ∈ (batchesOf (callsOf p content processor captured)).dropLast,
      b.length = p.chunk_size_) ∧
    (∀ b, (batchesOf (callsOf p content processor captured)).getLast? = some b →
      1 ≤ b.length ∧ b.length ≤ p.chunk_size_) ∧
    (batchesOf (callsOf p content processor captured)).flatten = decodedRecords p content ∧
    (parseString p content (recording processor) (captured, [])).1 =
      (parseString p content processor captured).1 ∧
    (parseString p content (recording processor) (captured, [])).2.2.1 =
      (parseString p content processor captured).2.2 := by
  have h := parseString_summary p content processor captured
  have hr := parseString_recording p content processor captured []
  refine ⟨?_, h.full hc, h.last hc, h.records, hr.1, hr.2.2⟩
  have := h.count hc
  simpa [batchesOf] using this

/-- Witness for C17: ten valid rows with chunk size 3 give four invocations, with batches of
3, 3, 3 and 1 records. -/
theorem parseString_batches_witness :
    1 ≤ (CsvParser.new 3 '\t').chunk_size_ ∧
    (callsOf (CsvParser.new 3 '\t') tenRows countingProcessor 0).length = 4 ∧
    (batchesOf (callsOf (CsvParser.new 3 '\t') tenRows countingProcessor 0)).map List.length =
      [3, 3, 3, 1] :=
  ⟨by decide,
    ((parseString_batches (CsvParser.new 3 '\t') tenRows countingProcessor 0 (by decide)).1).trans
      (by decide!),
    by decide!⟩

/-- C18 (record counters).  For a content that fits a `std::string`, `parseString` returns
`records_processed` equal to the number of lines after the first that are not blank and
decode, and `records_failed` equal to the number of lines after the first that are not blank
and do not decode; every non-blank line after the first is counted in exactly one of the two,
and `records_processed` is the total number of records handed to the processor. -/
theorem parseString_counters {σ : Type} (p : CsvParser) (content : List Char)
    (processor : ChunkProcessor σ) (captured : σ) (hfit : content.length < SIZE_T_MOD) :
    (parseString p content processor captured).1.records_processed =
      (decodedRecords p content).length ∧
    (parseString p content processor captured).1.records_failed =
      failedLineCount p content ∧
    (decodedRecords p content).length + failedLineCount p content =
      (((getlines content).drop 1).filter (fun l => !isBlank l)).length ∧
    (parseString p content processor captured).1.records_processed =
      ((batchesOf (callsOf p content processor captured)).map List.length).sum := by
  have h := parseString_summary p content processor captured
  have hr := parseString_recording p content processor captured []
  have hD := decodedRecords_length_le p content
  have hF := failedLineCount_le p content
  have hsum : ((batchesOf (callsOf p content processor captured)).map List.length).sum =
      (decodedRecords p content).length := by
    rw [← List.length_flatten]
    exact congrArg List.length h.records
  refine ⟨?_, ?_, ?_, ?_⟩
  · rw [← hr.1, h.processed]
    exact Nat.mod_eq_of_lt (by omega)
  · rw [← hr.1, h.failed]
    exact Nat.mod_eq_of_lt (by omega)
  · exact length_filterMap_add_isNone (parseLine p) _
  · rw [hsum, ← hr.1, h.processed]
    exact Nat.mod_eq_of_lt (by omega)

/-- Witness for C18: of five lines after the header, one is blank, two fail and two decode. -/
theorem parseString_counters_witness :
    mixedRows.length < SIZE_T_MOD ∧
    (parseString (CsvParser.new 100 '\t') mixedRows countingProcessor 0).1.records_processed
      = 2 ∧
    (parseString (CsvParser.new 100 '\t') mixedRows countingProcessor 0).1.records_failed = 2 :=
  ⟨by decide!,
    ((parseString_counters (CsvParser.new 100 '\t') mixedRows countingProcessor 0
      (by decide!)).1).trans (by decide!),
    ((parseString_counters (CsvParser.new 100 '\t') mixedRows countingProcessor 0
      (by decide!)).2.1).trans (by decide!)⟩

/-- C19 (processor failure).  `parseString` returns `success = false` exactly when the
processor returned `false` for at least one batch.  Whatever the verdicts, the batches handed
to the processor concatenate to all decoded records, and `records_processed` counts the
records of every batch. -/
theorem parseString_success {σ : Type} (p : CsvParser) (content : List Char)
    (processor : ChunkProcessor σ) (captured : σ) (hfit : content.length < SIZE_T_MOD) :
    ((parseString p content processor captured).1.success = false ↔
      ∃ e ∈ callsOf p content processor captured, e.2 = false) ∧
    (batchesOf (callsOf p content processor captured)).flatten = decodedRecords p content ∧
    (parseString p content processor captured).1.records_processed =
      ((batchesOf (callsOf p content processor captured)).map List.length).sum := by
  have h := parseString_summary p content processor captured
  have hr := parseString_recording p content processor captured []
  have hD := decodedRecords_length_le p content
  refine ⟨?_, h.records, ?_⟩
  · rw [← hr.1, h.success]
    show (List.all (callsOf p content processor captured) (fun e => e.2)) = false ↔ _
    rw [← Bool.not_eq_true, List.all_eq_true]
    constructor
    · intro hn
      by_contra hno
      apply hn
      intro e he
      by_contra hf
      exact hno ⟨e, he, by simpa using hf⟩
    · rintro ⟨e, he, hf⟩ hall
      have := hall e he
      rw [hf] at this
      cases this
  · rw [← hr.1, h.handed]
    have hsum : ((batchesOf (callsOf p content processor captured)).map List.length).sum =
        (decodedRecords p content).length := by
      rw [← List.length_flatten]
      exact congrArg List.length h.records
    show ((batchesOf (callsOf p content processor captured)).map List.length).sum % SIZE_T_MOD = _
    rw [hsum]
    exact Nat.mod_eq_of_lt (by omega)

/-- Witness for C19: with chunk size 3 and a processor that rejects every batch, the ten rows
are still handed over in four batches, `records_processed` is 10 and `success` is false. -/
theorem parseString_success_witness :
    tenRows.length < SIZE_T_MOD ∧
    (parseString (CsvParser.new 3 '\t') tenRows failingProcessor ()).1.success = false ∧
    (callsOf (CsvParser.new 3 '\t') tenRows failingProcessor ()).map Prod.snd =
      [false, false, false, false] ∧
    (parseString (CsvParser.new 3 '\t') tenRows failingProcessor ()).1.records_processed = 10 :=
  ⟨by decide!,
    ((parseString_success (CsvParser.new 3 '\t') tenRows failingProcessor ()
      (by decide!)).1).mpr (by decide!),
    by decide!, by decide!⟩

/-- C20 (error log).  For a content that fits a `std::string`, the error list returned by
`parseString` holds exactly `min(records_failed, 100)` entries, whatever the processor
does. -/
theorem parseString_error_log {σ : Type} (p : CsvParser) (content : List Char)
    (processor : ChunkProcessor σ) (captured : σ) (hfit : content.length < SIZE_T_MOD) :
    (parseString p content processor captured).1.errors.length =
      min (parseString p content processor captured).1.records_failed 100 ∧
    (parseString p content processor captured).1.errors.length =
      min (failedLineCount p content) 100 := by
  have h := parseString_summary p content processor captured
  have hr := parseString_recording p content processor captured []
  have hF := failedLineCount_le p content
  have hfail : (parseString p content processor captured).1.records_failed =
      failedLineCount p content := by
    rw [← hr.1, h.failed]
    exact Nat.mod_eq_of_lt (by omega)
  refine ⟨?_, ?_⟩
  · rw [hfail, ← hr.1, h.errors]
  · rw [← hr.1, h.errors]

/-- Witness for C20: 101 failures are counted and 100 messages are logged. -/
theorem parseString_error_log_witness :
    manyBadRows.length < SIZE_T_MOD ∧
    (parseString (CsvParser.new 100 '\t') manyBadRows failingProcessor ()).1.records_failed
      = 101 ∧
    (parseString (CsvParser.new 100 '\t') manyBadRows failingProcessor ()).1.errors.length
      = 100 :=
  ⟨by decide!, by decide!,
    ((parseString_error_log (CsvParser.new 100 '\t') manyBadRows failingProcessor ()
      (by decide!)).2).trans (by decide!)⟩

/-! ## Lemmas on the captured state and on the analyzer run -/

theorem related_invokeProcessor {σ τ : Type} {R : σ → τ → Prop} {q : ChunkProcessor σ}
    {q' : ChunkProcessor τ} (hq : Simulates R q q') {st : ParseLoop σ} {st' : ParseLoop τ}
    (h : ParseLoop.Related R st st') :
    ParseLoop.Related R (invokeProcessor q st) (invokeProcessor q' st') := by
  obtain ⟨o, t, c, l, hd, cap⟩ := st
  obtain ⟨o', t', c', l', hd', cap'⟩ := st'
  obtain ⟨h1, h2, h3, h4, h5, h6⟩ := h
  simp only at h1 h2 h3 h4 h5 h6
  subst h1 h2 h3 h4 h5
  have hv := hq c cap cap' h6
  exact ⟨by simp only [invokeProcessor, hv.1], rfl, rfl, rfl, rfl, hv.2⟩

theorem related_decodeLine {σ τ : Type} {R : σ → τ → Prop} (p : CsvParser) {st : ParseLoop σ}
    {st' : ParseLoop τ} (h : ParseLoop.Related R st st') (line : List Char) :
    ParseLoop.Related R (decodeLine p st line) (decodeLine p st' line) := by
  obtain ⟨h1, h2, h3, h4, h5, h6⟩ := h
  unfold decodeLine
  cases parseLine p line with
  | none => exact ⟨by simp only [h1, h4], h2, h3, h4, h5, h6⟩
  | some r => exact ⟨h1, h2, by simp only [h3], h4, h5, h6⟩

theorem related_flushIfFull {σ τ : Type} {R : σ → τ → Prop} {q : ChunkProcessor σ}
    {q' : ChunkProcessor τ} (hq : Simulates R q q') (p : CsvParser) {st : ParseLoop σ}
    {st' : ParseLoop τ} (h : ParseLoop.Related R st st') :
    ParseLoop.Related R (flushIfFull p q st) (flushIfFull p q' st') := by
  have h3 : st.chunk = st'.chunk := h.2.2.1
  by_cases hc : st.chunk.length ≥ p.chunk_size_
  · rw [flushIfFull, flushIfFull, if_pos hc, if_pos (show st'.chunk.length ≥ _ from h3 ▸ hc)]
    obtain ⟨k1, k2, -, k4, k5, k6⟩ := related_invokeProcessor hq h
    exact ⟨k1, k2, rfl, k4, k5, k6⟩
  · rw [flushIfFull, flushIfFull, if_neg hc, if_neg (show ¬ st'.chunk.length ≥ _ from h3 ▸ hc)]
    exact h

theorem related_parseStringLine {σ τ : Type} {R : σ → τ → Prop} {q : ChunkProcessor σ}
    {q' : ChunkProcessor τ} (hq : Simulates R q q') (p : CsvParser) {st : ParseLoop σ}
    {st' : ParseLoop τ} (h : ParseLoop.Related R st st') (line : List Char) :
    ParseLoop.Related R (parseStringLine p q st line) (parseStringLine p q' st' line) := by
  obtain ⟨h1, h2, h3, h4, h5, h6⟩ := h
  have h0 : ParseLoop.Related R { st with line_number := (st.line_number + 1) % SIZE_T_MOD }
      { st' with line_number := (st'.line_number + 1) % SIZE_T_MOD } :=
    ⟨h1, h2, h3, by simp only [h4], h5, h6⟩
  unfold parseStringLine
  by_cases hh : st.is_header = true
  · rw [if_pos hh, if_pos (show st'.is_header = true from h5 ▸ hh)]
    exact ⟨h1, h2, h3, by simp only [h4], rfl, h6⟩
  · rw [if_neg hh, if_neg (show ¬ st'.is_header = true from h5 ▸ hh)]
    by_cases ht : trim line = []
    · rw [if_pos ht, if_pos ht]
      exact h0
    · rw [if_neg ht, if_neg ht]
      exact related_flushIfFull hq p (related_decodeLine p h0 line)

theorem related_foldl {σ τ : Type} {R : σ → τ → Prop} {q : ChunkProcessor σ}
    {q' : ChunkProcessor τ} (hq : Simulates R q q') (p : CsvParser) (lines : List (List Char))
    {st : ParseLoop σ} {st' : ParseLoop τ} (h : ParseLoop.Related R st st') :
    ParseLoop.Related R (lines.foldl (parseStringLine p q) st)
      (lines.foldl (parseStringLine p q') st') := by
  induction lines generalizing st st' with
  | nil => exact h
  | cons l rest ih =>
    rw [List.foldl_cons, List.foldl_cons]
    exact ih (related_parseStringLine hq p h l)

/-- Simulation: related processors started in related states give the same result and parser and
leave related states. -/
theorem parseString_simulation {σ τ : Type} {R : σ → τ → Prop} {q : ChunkProcessor σ}
    {q' : ChunkProcessor τ} (hq : Simulates R q q') (p : CsvParser) (content : List Char)
    (s : σ) (t : τ) (h : R s t) :
    (parseString p content q s).1 = (parseString p content q' t).1 ∧
    (parseString p content q s).2.1 = (parseString p content q' t).2.1 ∧
    R (parseString p content q s).2.2 (parseString p content q' t).2.2 := by
  have hf := related_foldl hq p (getlines content)
    (show ParseLoop.Related R
      { overall_result := ChunkResult.new, total_records_processed := 0, chunk := [],
        line_number := 0, is_header := true, captured := s }
      { overall_result := ChunkResult.new, total_records_processed := 0, chunk := [],
        line_number := 0, is_header := true, captured := t } from ⟨rfl, rfl, rfl, rfl, rfl, h⟩)
  unfold parseString
  simp only
  generalize List.foldl (parseStringLine p q)
    { overall_result := ChunkResult.new, total_records_processed := 0, chunk := [],
      line_number := 0, is_header := true, captured := s } (getlines content) = st at hf
  generalize List.foldl (parseStringLine p q')
    { overall_result := ChunkResult.new, total_records_processed := 0, chunk := [],
      line_number := 0, is_header := true, captured := t } (getlines content) = st' at hf
  have h3 : st.chunk = st'.chunk := hf.2.2.1
  by_cases hch : st.chunk = []
  · rw [if_pos hch, if_pos (show st'.chunk = [] from h3 ▸ hch)]
    exact ⟨hf.1, by rw [hf.2.1], hf.2.2.2.2.2⟩
  · rw [if_neg hch, if_neg (show ¬ st'.chunk = [] from h3 ▸ hch)]
    have hi := related_invokeProcessor hq hf
    exact ⟨hi.1, by rw [hi.2.1], hi.2.2.2.2.2⟩

/-- A property of the captured state that every call of the processor keeps holds after the
run. -/
theorem parseString_captured {σ : Type} (P : σ → Prop) (q : ChunkProcessor σ)
    (hq : ∀ chunk s, P s → P (q chunk ChunkResult.new s).2.2) (p : CsvParser) (content : List Char)
    (s : σ) (h : P s) : P (parseString p content q s).2.2 := by
  have hsim : Simulates (fun a b => a = b ∧ P a) q q := fun chunk a b hab => by
    obtain ⟨rfl, ha⟩ := hab
    exact ⟨rfl, rfl, hq chunk a ha⟩
  have := parseString_simulation hsim p content s s ⟨rfl, h⟩
  exact this.2.2.2

theorem afterBatches_append {σ : Type} (q : ChunkProcessor σ) (bs : List (List CarSaleRecord))
    (b : List CarSaleRecord) (s : σ) :
    afterBatches q (bs ++ [b]) s = (q b ChunkResult.new (afterBatches q bs s)).2.2 := by
  simp [afterBatches, List.foldl_append]

/-- The captured state after the run is the state the processor reaches on the batches of the
call log. -/
theorem parseString_threads {σ : Type} (p : CsvParser) (content : List Char)
    (q : ChunkProcessor σ) (s : σ) :
    (parseString p content q s).2.2 = afterBatches q (batchesOf (callsOf p content q s)) s := by
  have h := parseString_captured (fun x : σ × CallLog => x.1 = afterBatches q (batchesOf x.2) s)
    (recording q)
    (fun chunk x hx => by
      show (q chunk ChunkResult.new x.1).2.2 =
        afterBatches q (batchesOf (x.2 ++ [(chunk, (q chunk ChunkResult.new x.1).1)])) s
      rw [batchesOf, List.map_append, List.map_singleton, afterBatches_append, ← batchesOf, ← hx])
    p content (s, []) rfl
  have h' : (parseString p content (recording q) (s, [])).2.2.1 =
      afterBatches q (batchesOf (callsOf p content q s)) s := h
  rw [(parseString_recording p content q s []).2.2] at h'
  exact h'

/-- Every verdict of the call log is `true` when the processor accepts every batch. -/
theorem callsOf_all_true {σ : Type} (p : CsvParser) (content : List Char)
    (q : ChunkProcessor σ) (s : σ) (hq : ∀ chunk t, (q chunk ChunkResult.new t).1 = true) :
    (callsOf p content q s).all (fun e => e.2) = true := by
  exact parseString_captured (fun x : σ × CallLog => x.2.all (fun e => e.2) = true)
    (recording q)
    (fun chunk x hx => by
      show (x.2 ++ [(chunk, (q chunk ChunkResult.new x.1).1)]).all (fun e => e.2) = true
      rw [List.all_append, hx, hq]
      rfl)
    p content (s, []) rfl

theorem parseString_success_of_accepting {σ : Type} (p : CsvParser) (content : List Char)
    (q : ChunkProcessor σ) (s : σ) (hq : ∀ chunk t, (q chunk ChunkResult.new t).1 = true) :
    (parseString p content q s).1.success = true := by
  rw [← (parseString_recording p content q s []).1, (parseString_summary p content q s).success]
  exact callsOf_all_true p content q s hq

theorem afterBatches_processor (batches : List (List CarSaleRecord)) (a : CarSalesAnalyzer) :
    afterBatches CarSalesAnalyzer.processor batches a =
      batches.foldl CarSalesAnalyzer.processChunk a := rfl

theorem metrics_foldl_processChunk (batches : List (List CarSaleRecord))
    (a : CarSalesAnalyzer) :
    (batches.foldl CarSalesAnalyzer.processChunk a).metrics =
      batches.flatten.foldl metricStep a.metrics := by
  induction batches generalizing a with
  | nil => rfl
  | cons b rest ih =>
    rw [List.foldl_cons, ih, metrics_processChunk, List.flatten_cons, List.foldl_append]

theorem total_processRecord (a : CarSalesAnalyzer) (r : CarSaleRecord) :
    (a.processRecord r)._total_records_processed = a._total_records_processed := by
  unfold CarSalesAnalyzer.processRecord
  split_ifs <;> rfl

theorem total_foldl_processRecord (records : List CarSaleRecord) (a : CarSalesAnalyzer) :
    (records.foldl CarSalesAnalyzer.processRecord a)._total_records_processed =
      a._total_records_processed := by
  induction records generalizing a with
  | nil => rfl
  | cons r rest ih => rw [List.foldl_cons, ih, total_processRecord]

theorem total_processChunk (a : CarSalesAnalyzer) (records : List CarSaleRecord) :
    (a.processChunk records)._total_records_processed =
      (a._total_records_processed + records.length) % SIZE_T_MOD := by
  show ((records.foldl CarSalesAnalyzer.processRecord a)._total_records_processed +
    records.length) % SIZE_T_MOD = _
  rw [total_foldl_processRecord]

theorem total_foldl_processChunk (batches : List (List CarSaleRecord)) (a : CarSalesAnalyzer)
    (h : a._total_records_processed < SIZE_T_MOD) :
    (batches.foldl CarSalesAnalyzer.processChunk a)._total_records_processed =
      (a._total_records_processed + batches.flatten.length) % SIZE_T_MOD := by
  induction batches generalizing a with
  | nil =>
    rw [List.foldl_nil, List.flatten_nil, List.length_nil, Nat.add_zero, Nat.mod_eq_of_lt h]
  | cons b rest ih =>
    have hlt : (a.processChunk b)._total_records_processed < SIZE_T_MOD := by
      rw [total_processChunk]
      exact Nat.mod_lt _ (by decide)
    rw [List.foldl_cons, ih _ hlt, total_processChunk, List.flatten_cons, List.length_append,
      Nat.mod_add_mod, Nat.add_assoc]

theorem parser_reset (a : CarSalesAnalyzer) : a.reset.parser_ = a.parser_ := rfl

/-- The run of `analyzeString`: what the parser returns and what the analyzer has accumulated
when `parseString` comes back. -/
theorem analyzeString_run (a : CarSalesAnalyzer) (content : List Char) :
    (parseString a.parser_ content CarSalesAnalyzer.processor a.reset).1.success = true ∧
    (parseString a.parser_ content CarSalesAnalyzer.processor a.reset).1.records_failed =
      failedLineCount a.parser_ content % SIZE_T_MOD ∧
    (parseString a.parser_ content CarSalesAnalyzer.processor a.reset).2.2.metrics =
      (decodedRecords a.parser_ content).foldl metricStep (0, 0, RevenueMap.empty) ∧
    (parseString a.parser_ content
        CarSalesAnalyzer.processor a.reset).2.2._total_records_processed =
      (decodedRecords a.parser_ content).length % SIZE_T_MOD := by
  have hs := parseString_summary a.parser_ content CarSalesAnalyzer.processor a.reset
  have hr := parseString_recording a.parser_ content CarSalesAnalyzer.processor a.reset []
  have ht := parseString_threads a.parser_ content CarSalesAnalyzer.processor a.reset
  rw [afterBatches_processor] at ht
  have hrec : (batchesOf (callsOf a.parser_ content CarSalesAnalyzer.processor
      a.reset)).flatten = decodedRecords a.parser_ content := hs.records
  refine ⟨parseString_success_of_accepting _ _ _ _ (fun _ _ => rfl), ?_, ?_, ?_⟩
  · rw [← hr.1]
    exact hs.failed
  · rw [ht, metrics_foldl_processChunk, hrec]
    rfl
  · rw [ht, total_foldl_processChunk _ _ (show (0 : Nat) < SIZE_T_MOD by decide), hrec]
    show (0 + _) % SIZE_T_MOD = _
    rw [Nat.zero_add]

/-- The result of `analyzeString` in closed form. -/
theorem analyzeString_result (a : CarSalesAnalyzer) (content : List Char) :
    (a.analyzeString content).1 =
      { audi_china_year_sales :=
          ((decodedRecords a.parser_ content).foldl metricStep (0, 0, RevenueMap.empty)).1
        bmw_year_total_revenue :=
          ((decodedRecords a.parser_ content).foldl metricStep (0, 0, RevenueMap.empty)).2.1
        _bmw_europe_revenuedistribution :=
          CarSalesAnalyzer.sortByRevenueDesc
            ((decodedRecords a.parser_ content).foldl metricStep
              (0, 0, RevenueMap.empty)).2.2.entries
        total_records_processed := (decodedRecords a.parser_ content).length % SIZE_T_MOD
        total_records_failed := failedLineCount a.parser_ content % SIZE_T_MOD
        analysis_complete := true
        errors := (parseString a.parser_ content CarSalesAnalyzer.processor a.reset).1.errors } := by
  obtain ⟨h1, h2, h3, h4⟩ := analyzeString_run a content
  unfold CarSalesAnalyzer.analyzeString
  simp only [parser_reset, h1]
  rw [← h3, ← h4, ← h2]
  rfl

theorem getlineLoop_line (line rest cur : List Char) (h : '\n' ∉ line) :
    getlineLoop (line ++ '\n' :: rest) cur = (cur ++ line) :: getlineLoop rest [] := by
  induction line generalizing cur with
  | nil => simp [getlineLoop]
  | cons c t ih =>
    have hc : c ≠ '\n' := fun e => h (by simp [e])
    have ht : '\n' ∉ t := fun e => h (by simp [e])
    rw [List.cons_append, getlineLoop, if_neg hc, ih _ ht]
    simp

theorem getlineLoop_last (line cur : List Char) (h : '\n' ∉ line) :
    getlineLoop line cur = if cur ++ line = [] then [] else [cur ++ line] := by
  induction line generalizing cur with
  | nil => simp [getlineLoop]
  | cons c t ih =>
    have hc : c ≠ '\n' := fun e => h (by simp [e])
    have ht : '\n' ∉ t := fun e => h (by simp [e])
    rw [getlineLoop, if_neg hc, ih _ ht]
    simp

theorem getlines_line (line rest : List Char) (h : '\n' ∉ line) :
    getlines (line ++ '\n' :: rest) = line :: getlines rest := by
  rw [getlines, getlineLoop_line line rest [] h]
  rfl

/-- The result of `parseString` is a function of the lines after the first. -/
theorem parseString_eq_parseDataLines {σ : Type} (p : CsvParser) (content : List Char)
    (q : ChunkProcessor σ) (s : σ) :
    parseString p content q s = parseDataLines p ((getlines content).drop 1) q s := by
  unfold parseString parseDataLines
  cases getlines content with
  | nil => rfl
  | cons header rest => rfl


theorem foldl_blank_lines {σ : Type} (p : CsvParser) (q : ChunkProcessor σ)
    (lines : List (List Char)) (st : ParseLoop σ) (hh : st.is_header = false)
    (hb : ∀ l ∈ lines, isBlank l = true) :
    ∃ n, lines.foldl (parseStringLine p q) st = { st with line_number := n } := by
  induction lines generalizing st with
  | nil => exact ⟨st.line_number, rfl⟩
  | cons l rest ih =>
    have hl : trim l = [] := (trim_eq_nil_iff l).2 (hb l (List.mem_cons_self _ _))
    rw [List.foldl_cons, parseStringLine_data p q st l hh, if_pos hl]
    obtain ⟨n, hn⟩ := ih { st with line_number := (st.line_number + 1) % SIZE_T_MOD } hh
      (fun x hx => hb x (List.mem_cons_of_mem _ hx))
    exact ⟨n, hn⟩

theorem parseDataLines_blank {σ : Type} (p : CsvParser) (q : ChunkProcessor σ) (s : σ)
    (lines : List (List Char)) (hb : ∀ l ∈ lines, isBlank l = true) :
    parseDataLines p lines q s =
      (ChunkResult.new, { p with _total_records_processed := 0 }, s) := by
  unfold parseDataLines
  obtain ⟨n, hn⟩ := foldl_blank_lines p q lines
    { overall_result := ChunkResult.new, total_records_processed := 0, chunk := [],
      line_number := (0 + 1) % SIZE_T_MOD, is_header := false, captured := s } rfl hb
  rw [hn]
  rfl

theorem getlineLoop_append_newline (s x cur : List Char) :
    getlineLoop (s ++ '\n' :: x) cur = getlineLoop (s ++ ['\n']) cur ++ getlineLoop x [] := by
  induction s generalizing cur with
  | nil => simp [getlineLoop]
  | cons c t ih =>
    by_cases hc : c = '\n'
    · rw [List.cons_append, List.cons_append, getlineLoop, getlineLoop, if_pos hc, if_pos hc,
        ih, List.cons_append]
    · rw [List.cons_append, List.cons_append, getlineLoop, getlineLoop, if_neg hc, if_neg hc,
        ih]

theorem getlineLoop_newline_ne_nil (s cur : List Char) : getlineLoop (s ++ ['\n']) cur ≠ [] := by
  induction s generalizing cur with
  | nil => simp [getlineLoop]
  | cons c t ih =>
    by_cases hc : c = '\n'
    · rw [List.cons_append, getlineLoop, if_pos hc]
      exact List.cons_ne_nil _ _
    · rw [List.cons_append, getlineLoop, if_neg hc]
      exact ih _

/-- Lines of a text put after a text that ends with a line end. -/
theorem getlines_append (pre x : List Char) (hpre : pre.getLast? = some '\n') :
    ∃ header rest, getlines pre = header :: rest ∧
      getlines (pre ++ x) = header :: (rest ++ getlines x) := by
  obtain ⟨s, rfl⟩ : ∃ s, pre = s ++ ['\n'] := by
    rcases List.eq_nil_or_concat pre with h | ⟨s, c, h⟩
    · subst h
      simp at hpre
    · subst h
      have hc : c = '\n' := by
        simpa [List.getLast?_append] using hpre
      subst hc
      exact ⟨s, by simp⟩
  have hne := getlineLoop_newline_ne_nil s []
  cases hl : getlineLoop (s ++ ['\n']) [] with
  | nil => exact absurd hl hne
  | cons header rest =>
    refine ⟨header, rest, hl, ?_⟩
    rw [getlines, List.append_assoc, List.singleton_append, getlineLoop_append_newline, hl]
    rfl

/-- Inserting a line that does not decode after the header keeps the decoded records and adds
one failure. -/
theorem insert_failing_line (p : CsvParser) (pre post line : List Char)
    (hpre : pre.getLast? = some '\n') (hline : '\n' ∉ line) (hblank : isBlank line = false)
    (hnone : parseLine p line = none) :
    decodedRecords p (pre ++ line ++ '\n' :: post) = decodedRecords p (pre ++ post) ∧
    failedLineCount p (pre ++ line ++ '\n' :: post) = failedLineCount p (pre ++ post) + 1 := by
  obtain ⟨header', rest', h0, h2⟩ := getlines_append pre (line ++ '\n' :: post) hpre
  obtain ⟨header2, rest2, h0', h1'⟩ := getlines_append pre post hpre
  rw [h0] at h0'
  obtain ⟨rfl, rfl⟩ := List.cons.inj h0'
  rw [getlines_line line post hline] at h2
  unfold decodedRecords failedLineCount
  rw [List.append_assoc, h2, h1', List.drop_succ_cons, List.drop_zero, List.drop_succ_cons,
    List.drop_zero]
  have hsplit : rest' ++ line :: getlines post = rest' ++ ([line] ++ getlines post) := rfl
  rw [hsplit, decodedOf_append, decodedOf_append, decodedOf_append, failedOf_append,
    failedOf_append, failedOf_append, decodedOf_none p line hblank hnone,
    failedOf_none p line hblank hnone, List.nil_append]
  exact ⟨rfl, by omega⟩

theorem errors_decodeAllLines (p : CsvParser) (lines : List (List Char))
    (acc : List CarSaleRecord × ChunkResult) :
    (lines.foldl
      (fun acc line =>
        match parseLine p line with
        | some record => (acc.1 ++ [record], acc.2)
        | none =>
          (acc.1, { acc.2 with records_failed := (acc.2.records_failed + 1) % SIZE_T_MOD }))
      acc).2.errors = acc.2.errors := by
  induction lines generalizing acc with
  | nil => rfl
  | cons l rest ih =>
    rw [List.foldl_cons, ih]
    cases parseLine p l <;> rfl

theorem errors_collectResults (partials : List ChunkResult) (overall : ChunkResult) :
    (collectResults overall partials).errors = overall.errors := by
  unfold collectResults
  induction partials generalizing overall with
  | nil => rfl
  | cons x rest ih =>
    rw [List.foldl_cons, ih]
    rfl

theorem errors_aggregateConcurrent (overall : ChunkResult) (records : List CarSaleRecord)
    (n : Nat) : (aggregateConcurrent overall records n).errors = overall.errors := by
  unfold aggregateConcurrent
  split
  · rfl
  · exact errors_collectResults _ _

/-! ## Claims on files and on the analyzer -/

/-- C21 (cap of the error list; the code departs from the claim).  `parseFile` tests the cap
of 100 messages only where it logs a line that does not decode; the message for a rejected
batch is pushed without that test.  On a file with a header, 100 lines that do not decode and
one valid row, read with a processor that rejects its batch, `parseFile` returns 101
messages, the last one being the message of the rejected batch. -/
theorem parseFile_error_list_exceeds_cap :
    (parseFile (CsvParser.new 0 '\t') "sales.tsv" (some badRowsThenValidRow) failingProcessor
      ()).1.errors.length = 101 ∧
    (parseFile (CsvParser.new 0 '\t') "sales.tsv" (some badRowsThenValidRow) failingProcessor
      ()).1.errors.getLast? = some "Final chunk processing failed" := by
  constructor <;> decide!

/-- C22 (decode failures in concurrent mode; the code departs from the claim).
`parseFileConcurrent` counts a line that does not decode and logs no message for it: for
every file that opens, every worker count and every value of `hardware_concurrency`, the
returned error list is empty.  On a file with a header, one line that does not decode and one
valid row it returns `records_failed = 1` and `records_processed = 1`, so the list holds
0 messages where the claim asks for 1. -/
theorem parseFileConcurrent_logs_no_decode_failure :
    (∀ (p : CsvParser) (filename : String) (content : List Char)
        (num_threads hardware_concurrency : Nat),
      (parseFileConcurrent p filename (some content) num_threads
        hardware_concurrency).1.errors = []) ∧
    (parseFileConcurrent (CsvParser.new 0 '\t') "sales.tsv" (some badRowAndValidRow) 2
      8).1.records_failed = 1 ∧
    (parseFileConcurrent (CsvParser.new 0 '\t') "sales.tsv" (some badRowAndValidRow) 2
      8).1.records_processed = 1 := by
  refine ⟨?_, by decide!, by decide!⟩
  intro p filename content num_threads hardware_concurrency
  unfold parseFileConcurrent
  simp only
  split
  · rfl
  · split
    · exact errors_decodeAllLines p _ _
    · rw [errors_aggregateConcurrent]
      exact errors_decodeAllLines p _ _

/-- C23 (the first line is discarded).  For every parser, processor and analyzer, replacing
the first line of a content by any other line without line end leaves everything that
`parseString` and `analyzeString` return unchanged (metrics, counters, error list, success
flag, parser and captured state), whether the first line is followed by a line end and more
text or is the whole content.  A content that is one line with its line end gives the zero
result with no call of the processor, whatever the line holds: a first line that is a valid
data row is neither processed nor counted as failed. -/
theorem first_line_discarded {σ : Type} (p : CsvParser) (q : ChunkProcessor σ) (s : σ)
    (a : CarSalesAnalyzer) (first other rest : List Char)
    (hfirst : '\n' ∉ first) (hother : '\n' ∉ other) :
    parseString p (first ++ '\n' :: rest) q s = parseString p (other ++ '\n' :: rest) q s ∧
    parseString p first q s = parseString p other q s ∧
    a.analyzeString (first ++ '\n' :: rest) = a.analyzeString (other ++ '\n' :: rest) ∧
    a.analyzeString first = a.analyzeString other ∧
    parseString p (first ++ ['\n']) q s =
      (ChunkResult.new, { p with _total_records_processed := 0 }, s) := by
  have h1 : ∀ {τ : Type} (p : CsvParser) (q : ChunkProcessor τ) (s : τ),
      parseString p (first ++ '\n' :: rest) q s = parseString p (other ++ '\n' :: rest) q s := by
    intro τ p q s
    rw [parseString_eq_parseDataLines, parseString_eq_parseDataLines,
      getlines_line first rest hfirst, getlines_line other rest hother]
    rfl
  have hd : ∀ line : List Char, '\n' ∉ line → (getlines line).drop 1 = [] := by
    intro line hline
    rw [getlines, getlineLoop_last line [] hline]
    split <;> rfl
  have h2 : ∀ {τ : Type} (p : CsvParser) (q : ChunkProcessor τ) (s : τ),
      parseString p first q s = parseString p other q s := by
    intro τ p q s
    rw [parseString_eq_parseDataLines, parseString_eq_parseDataLines, hd first hfirst,
      hd other hother]
  refine ⟨h1 p q s, h2 p q s, ?_, ?_, ?_⟩
  · unfold CarSalesAnalyzer.analyzeString
    simp only [h1]
  · unfold CarSalesAnalyzer.analyzeString
    simp only [h2]
  · rw [parseString_eq_parseDataLines, getlines_line first [] hfirst]
    rfl

/-- Witness for C23: replacing the header by a row that decodes changes nothing, and the row
as only line is neither processed nor counted. -/
theorem first_line_discarded_witness :
    '\n' ∉ audiRow ∧ '\n' ∉ "sale_id\tsale_date".toList ∧
    (parseLine (CsvParser.new 0 '\t') audiRow).isSome = true ∧
    ((CarSalesAnalyzer.new 0).analyzeString
      (audiRow ++ '\n' :: audiRow)).1.audi_china_year_sales = 1 ∧
    parseString (CsvParser.new 0 '\t') (audiRow ++ ['\n']) countingProcessor 0 =
      (ChunkResult.new, { CsvParser.new 0 '\t' with _total_records_processed := 0 }, 0) :=
  ⟨by decide!, by decide!, by decide!,
    (congrArg (fun r => r.1.audi_china_year_sales)
      (first_line_discarded (CsvParser.new 0 '\t') countingProcessor 0
        (CarSalesAnalyzer.new 0) audiRow "sale_id\tsale_date".toList audiRow
        (by decide!) (by decide!)).2.2.1).trans (by decide!),
    (first_line_discarded (CsvParser.new 0 '\t') countingProcessor 0
      (CarSalesAnalyzer.new 0) audiRow "sale_id\tsale_date".toList audiRow
      (by decide!) (by decide!)).2.2.2.2⟩

/-- C24 (a short line is one failure).  Let `pre` end with a line end (so it holds the header
line), and let `line` hold no line end, be not blank and split into fewer than 21 fields.
For a content that fits a `std::string`, inserting `line` with its line end between `pre` and
`post` leaves the unit count, the revenue sum, the distribution and `total_records_processed`
returned by `analyzeString` unchanged and makes `total_records_failed` larger by exactly 1. -/
theorem short_line_counts_as_failure (a : CarSalesAnalyzer) (pre post line : List Char)
    (hpre : pre.getLast? = some '\n') (hline : '\n' ∉ line) (hblank : isBlank line = false)
    (hshort : (splitLine line a.parser_.delimiter_).length < 21)
    (hfit : (pre ++ line ++ '\n' :: post).length < SIZE_T_MOD) :
    (a.analyzeString (pre ++ line ++ '\n' :: post)).1.audi_china_year_sales =
      (a.analyzeString (pre ++ post)).1.audi_china_year_sales ∧
    (a.analyzeString (pre ++ line ++ '\n' :: post)).1.bmw_year_total_revenue =
      (a.analyzeString (pre ++ post)).1.bmw_year_total_revenue ∧
    (a.analyzeString (pre ++ line ++ '\n' :: post)).1._bmw_europe_revenuedistribution =
      (a.analyzeString (pre ++ post)).1._bmw_europe_revenuedistribution ∧
    (a.analyzeString (pre ++ line ++ '\n' :: post)).1.total_records_processed =
      (a.analyzeString (pre ++ post)).1.total_records_processed ∧
    (a.analyzeString (pre ++ line ++ '\n' :: post)).1.total_records_failed =
      (a.analyzeString (pre ++ post)).1.total_records_failed + 1 := by
  obtain ⟨hd, hf⟩ := insert_failing_line a.parser_ pre post line hpre hline hblank
    (parseLine_few_fields a.parser_ line hshort)
  have hle := failedLineCount_le a.parser_ (pre ++ line ++ '\n' :: post)
  rw [analyzeString_result, analyzeString_result, hd]
  refine ⟨rfl, rfl, rfl, rfl, ?_⟩
  show failedLineCount a.parser_ (pre ++ line ++ '\n' :: post) % SIZE_T_MOD =
    failedLineCount a.parser_ (pre ++ post) % SIZE_T_MOD + 1
  rw [hf] at hle ⊢
  rw [Nat.mod_eq_of_lt (by omega), Nat.mod_eq_of_lt (by omega)]

/-- Witness for C24: a line of three fields put between two valid rows. -/
theorem short_line_counts_as_failure_witness :
    (exampleHeader ++ audiRow ++ ['\n']).getLast? = some '\n' ∧
    '\n' ∉ threeFieldLine ∧ isBlank threeFieldLine = false ∧
    (splitLine threeFieldLine (CarSalesAnalyzer.new 0).parser_.delimiter_).length < 21 ∧
    ((exampleHeader ++ audiRow ++ ['\n']) ++ threeFieldLine ++ '\n' :: audiRow).length
      < SIZE_T_MOD ∧
    ((CarSalesAnalyzer.new 0).analyzeString
      ((exampleHeader ++ audiRow ++ ['\n']) ++ threeFieldLine ++
        '\n' :: audiRow)).1.audi_china_year_sales = 2 ∧
    ((CarSalesAnalyzer.new 0).analyzeString
      ((exampleHeader ++ audiRow ++ ['\n']) ++ threeFieldLine ++
        '\n' :: audiRow)).1.total_records_failed = 1 :=
  ⟨by decide!, by decide!, by decide!, by decide!, by decide!,
    ((short_line_counts_as_failure (CarSalesAnalyzer.new 0) (exampleHeader ++ audiRow ++ ['\n'])
      audiRow threeFieldLine (by decide!) (by decide!) (by decide!) (by decide!)
      (by decide!)).1).trans (by decide!),
    ((short_line_counts_as_failure (CarSalesAnalyzer.new 0) (exampleHeader ++ audiRow ++ ['\n'])
      audiRow threeFieldLine (by decide!) (by decide!) (by decide!) (by decide!)
      (by decide!)).2.2.2.2).trans (by decide!)⟩

/-- C25 (empty and header-only input).  For every content in which every line after the
first is blank (the empty content and a content of one header line included), `analyzeString`
returns unit count 0, revenue sum 0, an empty distribution, both counters 0, no error message
and `analysis_complete = true`; `parseString` returns `success = true` with both counters 0,
leaves the captured state as it was and makes no call to the processor. -/
theorem header_only_input {σ : Type} (p : CsvParser) (q : ChunkProcessor σ) (s : σ)
    (a : CarSalesAnalyzer) (content : List Char)
    (h : ∀ line ∈ (getlines content).drop 1, isBlank line = true) :
    (a.analyzeString content).1 =
      { audi_china_year_sales := 0, bmw_year_total_revenue := 0,
        _bmw_europe_revenuedistribution := [], total_records_processed := 0,
        total_records_failed := 0, analysis_complete := true, errors := [] } ∧
    (parseString p content q s).1.success = true ∧
    (parseString p content q s).1.records_processed = 0 ∧
    (parseString p content q s).1.records_failed = 0 ∧
    (parseString p content q s).2.2 = s ∧
    callsOf p content q s = [] := by
  have hp : ∀ {τ : Type} (p : CsvParser) (q : ChunkProcessor τ) (s : τ),
      parseString p content q s =
        (ChunkResult.new, { p with _total_records_processed := 0 }, s) := by
    intro τ p q s
    rw [parseString_eq_parseDataLines, parseDataLines_blank p q s _ h]
  refine ⟨?_, ?_, ?_, ?_, ?_, ?_⟩
  · unfold CarSalesAnalyzer.analyzeString
    simp only [hp]
    rfl
  · rw [hp]; rfl
  · rw [hp]; rfl
  · rw [hp]; rfl
  · rw [hp]
  · unfold callsOf
    rw [hp]

/-- Witness for C25: a header followed by two lines of white space, and the empty content. -/
theorem header_only_input_witness :
    (∀ line ∈ (getlines headerAndBlankLines).drop 1, isBlank line = true) ∧
    ((CarSalesAnalyzer.new 0).analyzeString headerAndBlankLines).1.analysis_complete = true ∧
    callsOf (CsvParser.new 0 '\t') headerAndBlankLines countingProcessor 0 = [] ∧
    ((CarSalesAnalyzer.new 0).analyzeString []).1.analysis_complete = true :=
  ⟨by decide!,
    congrArg (fun r => r.analysis_complete)
      (header_only_input (CsvParser.new 0 '\t') countingProcessor 0 (CarSalesAnalyzer.new 0)
        headerAndBlankLines (by decide!)).1,
    (header_only_input (CsvParser.new 0 '\t') countingProcessor 0 (CarSalesAnalyzer.new 0)
      headerAndBlankLines (by decide!)).2.2.2.2.2,
    congrArg (fun r => r.analysis_complete)
      (header_only_input (CsvParser.new 0 '\t') countingProcessor 0 (CarSalesAnalyzer.new 0)
        [] (by decide!)).1⟩

/-- C27 (reset).  In every analyzer state, after `reset` the unit count is 0, the revenue sum
is 0, the distribution is empty, both counters are 0 and the error list is empty, and
`getResults` returns what it returns on a freshly constructed analyzer of any chunk size. -/
theorem reset_clears (a : CarSalesAnalyzer) (chunk_size : Nat) :
    a.reset._audi_china_year_sales = 0 ∧ a.reset._bmw_2025_revenue = 0 ∧
    a.reset.getBmwEuropeRevenueDistribution = [] ∧
    a.reset._total_records_processed = 0 ∧ a.reset._total_records_failed = 0 ∧
    a.reset._errors = [] ∧
    a.reset.getResults = (CarSalesAnalyzer.new chunk_size).getResults :=
  ⟨rfl, rfl, rfl, rfl, rfl, rfl, rfl⟩

/-- C28 (the accumulator persists across `processChunk` calls).  In every analyzer state,
`processChunk xs` followed by `processChunk ys` leaves the same unit count, the same revenue
sum (exactly), the same region mapping and the same `total_records_processed` as the single
call `processChunk (xs ++ ys)`.  `processChunk` of the empty sequence keeps the three metrics
and reduces the counter modulo `2 ^ 64`; when the counter is a `size_t` value, the state is
unchanged. -/
theorem processChunk_accumulates (a : CarSalesAnalyzer) (xs ys : List CarSaleRecord) :
    ((a.processChunk xs).processChunk ys)._audi_china_year_sales =
      (a.processChunk (xs ++ ys))._audi_china_year_sales ∧
    ((a.processChunk xs).processChunk ys)._bmw_2025_revenue =
      (a.processChunk (xs ++ ys))._bmw_2025_revenue ∧
    ((a.processChunk xs).processChunk ys)._bmw_europe_revenue =
      (a.processChunk (xs ++ ys))._bmw_europe_revenue ∧
    ((a.processChunk xs).processChunk ys)._total_records_processed =
      (a.processChunk (xs ++ ys))._total_records_processed ∧
    (a.processChunk [])._audi_china_year_sales = a._audi_china_year_sales ∧
    (a.processChunk [])._bmw_2025_revenue = a._bmw_2025_revenue ∧
    (a.processChunk [])._bmw_europe_revenue = a._bmw_europe_revenue ∧
    (a.processChunk [])._total_records_processed = a._total_records_processed % SIZE_T_MOD ∧
    (a._total_records_processed < SIZE_T_MOD → a.processChunk [] = a) := by
  have hm : ((a.processChunk xs).processChunk ys).metrics = (a.processChunk (xs ++ ys)).metrics := by
    rw [metrics_processChunk, metrics_processChunk, metrics_processChunk, List.foldl_append]
  have ht : ((a.processChunk xs).processChunk ys)._total_records_processed =
      (a.processChunk (xs ++ ys))._total_records_processed := by
    rw [total_processChunk, total_processChunk, total_processChunk, List.length_append,
      Nat.mod_add_mod, Nat.add_assoc]
  refine ⟨congrArg (fun m => m.1) hm, congrArg (fun m => m.2.1) hm,
    congrArg (fun m => m.2.2) hm, ht, rfl, rfl, rfl, rfl, ?_⟩
  intro hlt
  show { a with _total_records_processed := (a._total_records_processed + 0) % SIZE_T_MOD } = a
  rw [Nat.add_zero, Nat.mod_eq_of_lt hlt]

/-- Witness for C28: on a freshly constructed analyzer `processChunk` of the empty sequence
changes nothing. -/
theorem processChunk_accumulates_witness :
    (CarSalesAnalyzer.new 0)._total_records_processed < SIZE_T_MOD ∧
    (CarSalesAnalyzer.new 0).processChunk [] = CarSalesAnalyzer.new 0 :=
  ⟨by decide,
    (processChunk_accumulates (CarSalesAnalyzer.new 0) [] []).2.2.2.2.2.2.2.2 (by decide)⟩

/-- C29 (a file that cannot be opened).  `parseFile` and `parseFileConcurrent` return
`success = false`, both counters 0, zero metrics and exactly one message, the one that names
the file; `parseFile` leaves the captured state as it was and makes no call to the processor.
`analyzeFile`, in either mode, returns `analysis_complete = false` with zero metrics, zero
counters, an empty distribution and that one message. -/
theorem unopened_file {σ : Type} (p : CsvParser) (filename : String) (q : ChunkProcessor σ)
    (s : σ) (a : CarSalesAnalyzer) (use_concurrent : Bool)
    (num_threads hardware_concurrency : Nat) :
    ((parseFile p filename none q s).1.success = false ∧
      (parseFile p filename none q s).1.records_processed = 0 ∧
      (parseFile p filename none q s).1.records_failed = 0 ∧
      (parseFile p filename none q s).1.metrics = (0, 0, RevenueMap.empty) ∧
      (parseFile p filename none q s).1.errors = ["Failed to open file: " ++ filename] ∧
      (parseFile p filename none q s).2.2 = s ∧
      (parseFile p filename none (recording q) (s, [])).2.2.2 = []) ∧
    ((parseFileConcurrent p filename none num_threads hardware_concurrency).1.success = false ∧
      (parseFileConcurrent p filename none num_threads
        hardware_concurrency).1.records_processed = 0 ∧
      (parseFileConcurrent p filename none num_threads
        hardware_concurrency).1.records_failed = 0 ∧
      (parseFileConcurrent p filename none num_threads hardware_concurrency).1.metrics =
        (0, 0, RevenueMap.empty) ∧
      (parseFileConcurrent p filename none num_threads hardware_concurrency).1.errors =
        ["Failed to open file: " ++ filename]) ∧
    ((a.analyzeFile filename none use_concurrent num_threads
        hardware_concurrency).1.analysis_complete = false ∧
      (a.analyzeFile filename none use_concurrent num_threads
        hardware_concurrency).1.audi_china_year_sales = 0 ∧
      (a.analyzeFile filename none use_concurrent num_threads
        hardware_concurrency).1.bmw_year_total_revenue = 0 ∧
      (a.analyzeFile filename none use_concurrent num_threads
        hardware_concurrency).1._bmw_europe_revenuedistribution = [] ∧
      (a.analyzeFile filename none use_concurrent num_threads
        hardware_concurrency).1.total_records_processed = 0 ∧
      (a.analyzeFile filename none use_concurrent num_threads
        hardware_concurrency).1.total_records_failed = 0 ∧
      (a.analyzeFile filename none use_concurrent num_threads
        hardware_concurrency).1.errors = ["Failed to open file: " ++ filename]) := by
  refine ⟨⟨rfl, rfl, rfl, rfl, rfl, rfl, rfl⟩, ⟨rfl, rfl, rfl, rfl, rfl⟩, ?_⟩
  cases use_concurrent
  · exact ⟨rfl, rfl, rfl, rfl, rfl, rfl, rfl⟩
  · exact ⟨rfl, rfl, rfl, rfl, rfl, rfl, rfl⟩

/-- C30 (decode failures never escalate).  For every analyzer and every content,
`analyzeString` returns `analysis_complete = true`; the lines that do not decode are counted
in `total_records_failed`. -/
theorem decode_failures_never_escalate (a : CarSalesAnalyzer) (content : List Char) :
    (a.analyzeString content).1.analysis_complete = true ∧
    (a.analyzeString content).1.total_records_failed =
      failedLineCount a.parser_ content % SIZE_T_MOD := by
  rw [analyzeString_result]
  exact ⟨rfl, rfl⟩

/-! ## Lemmas on fields, ranges and the two execution modes -/

theorem mem_trim (str : List Char) (c : Char) (h : c ∈ trim str) : c ∈ str := by
  unfold trim at h
  rw [List.mem_reverse] at h
  have h1 := (List.dropWhile_sublist isspace).subset h
  rw [List.mem_reverse] at h1
  exact (List.dropWhile_sublist isspace).subset h1

theorem head_dropWhile_isspace (l : List Char) (c : Char)
    (h : (l.dropWhile isspace).head? = some c) : isspace c = false := by
  have := List.head?_dropWhile_not isspace l
  rw [h] at this
  simpa using this

theorem trim_getLast (str : List Char) (c : Char) (h : (trim str).getLast? = some c) :
    isspace c = false := by
  unfold trim at h
  rw [List.getLast?_reverse] at h
  exact head_dropWhile_isspace _ c h

theorem trim_head (str : List Char) (c : Char) (h : (trim str).head? = some c) :
    isspace c = false := by
  unfold trim at h
  rw [List.head?_reverse] at h
  obtain ⟨pre, hpre⟩ : (List.dropWhile isspace (List.dropWhile isspace str).reverse) <:+
      (List.dropWhile isspace str).reverse := List.dropWhile_suffix isspace
  have hne : List.dropWhile isspace (List.dropWhile isspace str).reverse ≠ [] := by
    intro e
    rw [e] at h
    cases h
  have hlast : (List.dropWhile isspace str).reverse.getLast? = some c := by
    rw [← hpre, List.getLast?_append_of_ne_nil _ hne]
    exact h
  rw [List.getLast?_reverse] at hlast
  exact head_dropWhile_isspace _ c hlast

theorem splitLoop_normal (d : Char) (rest field : List Char) (q : Bool)
    (hfield : '"' ∉ field) (f : List Char) (hf : f ∈ splitLoop d rest field q) :
    '"' ∉ f ∧ (∀ c, f.head? = some c → isspace c = false) ∧
      (∀ c, f.getLast? = some c → isspace c = false) := by
  induction rest generalizing field q with
  | nil =>
    rw [splitLoop, List.mem_singleton] at hf
    subst hf
    exact ⟨fun h => hfield (mem_trim _ _ h), trim_head field, trim_getLast field⟩
  | cons c rest ih =>
    rw [splitLoop] at hf
    by_cases hq : c = '"'
    · rw [if_pos hq] at hf
      exact ih field _ hfield hf
    · rw [if_neg hq] at hf
      by_cases hd : c = d ∧ q = false
      · rw [if_pos hd, List.mem_cons] at hf
        rcases hf with rfl | hf
        · exact ⟨fun h => hfield (mem_trim _ _ h), trim_head field, trim_getLast field⟩
        · exact ih [] _ (List.not_mem_nil _) hf
      · rw [if_neg hd] at hf
        refine ih (field ++ [c]) _ ?_ hf
        intro hmem
        rcases List.mem_append.1 hmem with h | h
        · exact hfield h
        · exact hq (List.mem_singleton.1 h).symm

theorem extractYearFromDate_short (date_str : List Char) (h : date_str.length < 10) :
    extractYearFromDate date_str = 0 := by
  unfold extractYearFromDate
  rw [if_pos h]

theorem parseLine_year_zero (p : CsvParser) (line : List Char)
    (h : extractYearFromDate (fieldAt p line 1) = 0) : parseLine p line = none := by
  by_cases hcount : 21 ≤ (splitLine line p.delimiter_).length
  · rw [parseLine_of_fields p line hcount, h]
    split
    · rfl
    · split
      · rfl
      · split
        · rfl
        · rw [if_pos (Or.inl (by decide))]
  · exact parseLine_few_fields p line (by omega)

theorem joinLoop_ok (partials : List ChunkResult) (overall : ChunkResult) :
    joinLoop overall (partials.map Except.ok) = collectResults overall partials := by
  unfold joinLoop collectResults
  induction partials generalizing overall with
  | nil => rfl
  | cons x rest ih =>
    rw [List.map_cons, List.foldl_cons, List.foldl_cons, ih]

theorem aggregateConcurrentWith_ok (overall : ChunkResult) (records : List CarSaleRecord)
    (n : Nat) :
    aggregateConcurrentWith (fun chunk => Except.ok (workerTask chunk)) overall records n =
      aggregateConcurrent overall records n := by
  unfold aggregateConcurrentWith aggregateConcurrent
  rw [← joinLoop_ok, List.map_map]
  rfl

theorem parseFileConcurrentWith_ok (p : CsvParser) (filename : String)
    (file : Option (List Char)) (num_threads hardware_concurrency : Nat) :
    parseFileConcurrentWith (fun chunk => Except.ok (workerTask chunk)) p filename file
      num_threads hardware_concurrency =
    parseFileConcurrent p filename file num_threads hardware_concurrency := by
  unfold parseFileConcurrentWith parseFileConcurrent
  simp only [aggregateConcurrentWith_ok]

theorem success_aggregateConcurrentWith (task : List CarSaleRecord → Except String ChunkResult)
    (overall : ChunkResult) (records : List CarSaleRecord) (n : Nat) :
    (aggregateConcurrentWith task overall records n).success = true := by
  unfold aggregateConcurrentWith
  split <;> rfl

theorem success_parseFileConcurrentWith (task : List CarSaleRecord → Except String ChunkResult)
    (p : CsvParser) (filename : String) (content : List Char)
    (num_threads hardware_concurrency : Nat) :
    (parseFileConcurrentWith task p filename (some content) num_threads
      hardware_concurrency).1.success = true := by
  unfold parseFileConcurrentWith
  simp only
  split
  · rfl
  · split
    · rfl
    · exact success_aggregateConcurrentWith _ _ _ _

theorem analyzeFile_concurrent (a : CarSalesAnalyzer) (filename : String)
    (file : Option (List Char)) (num_threads hardware_concurrency : Nat) :
    a.analyzeFile filename file true num_threads hardware_concurrency =
      CarSalesAnalyzer.transferConcurrent
        (parseFileConcurrent a.reset.parser_ filename file num_threads hardware_concurrency) :=
  rfl

theorem complete_transferConcurrent (run : ChunkResult × CsvParser) :
    (CarSalesAnalyzer.transferConcurrent run).1.analysis_complete = run.1.success := by
  unfold CarSalesAnalyzer.transferConcurrent
  cases h : run.1.success <;> simp [h, CarSalesAnalyzer.getResults]

theorem dropWhile_of_head (l : List Char) (h : ∀ c, l.head? = some c → isspace c = false) :
    l.dropWhile isspace = l := by
  cases l with
  | nil => rfl
  | cons c rest =>
    have hc := h c rfl
    rw [List.dropWhile_cons, hc]
    rfl

theorem trim_of_normal (field : List Char)
    (hhead : ∀ c, field.head? = some c → isspace c = false)
    (hlast : ∀ c, field.getLast? = some c → isspace c = false) : trim field = field := by
  unfold trim
  rw [dropWhile_of_head field hhead, dropWhile_of_head field.reverse, List.reverse_reverse]
  intro c hc
  rw [List.head?_reverse] at hc
  exact hlast c hc

theorem delimitersAfterQuotes_zero (line : List Char) (d : Char) :
    delimitersAfterQuotes 0 line d = delimitersOutsideQuotes line d := by
  unfold delimitersAfterQuotes delimitersOutsideQuotes
  simp only [Nat.zero_add]

theorem delimitersAfterQuotes_congr (k k' : Nat) (h : k % 2 = k' % 2) (line : List Char)
    (d : Char) : delimitersAfterQuotes k line d = delimitersAfterQuotes k' line d := by
  unfold delimitersAfterQuotes
  congr 2
  funext i
  have : ((k + (line.take i).count '"') % 2 = 0) ↔ ((k' + (line.take i).count '"') % 2 = 0) := by
    omega
  simp only [this]

theorem delimitersAfterQuotes_nil (k : Nat) (d : Char) : delimitersAfterQuotes k [] d = 0 := rfl

theorem delimitersAfterQuotes_cons (k : Nat) (c : Char) (rest : List Char) (d : Char) :
    delimitersAfterQuotes k (c :: rest) d =
      (if c = d ∧ k % 2 = 0 then 1 else 0) +
        delimitersAfterQuotes (k + (if c = '"' then 1 else 0)) rest d := by
  unfold delimitersAfterQuotes
  rw [List.length_cons, List.range_succ_eq_map, List.filter_cons, List.filter_map]
  have hrest : (List.filter
      ((fun i => decide ((c :: rest).getD i ' ' = d ∧
        (k + List.count '"' (List.take i (c :: rest))) % 2 = 0)) ∘ Nat.succ)
      (List.range rest.length)) =
      List.filter (fun i => decide (rest.getD i ' ' = d ∧
        (k + (if c = '"' then 1 else 0) + List.count '"' (List.take i rest)) % 2 = 0))
      (List.range rest.length) := by
    congr 1
    funext i
    simp only [Function.comp, List.getD_cons_succ, List.take_succ_cons, List.count_cons]
    by_cases hq : c = '"'
    · simp [hq, Nat.add_comm, Nat.add_left_comm]
    · have hq' : ¬ (c == '"') = true := by simpa using hq
      simp [hq, hq']
  rw [hrest]
  simp only [List.getD_cons_zero, List.take_zero, List.count_nil, Nat.add_zero]
  by_cases h0 : c = d ∧ k % 2 = 0
  · rw [if_pos (by simpa using h0), if_pos h0, List.length_cons, List.length_map, Nat.add_comm]
  · rw [if_neg (by simpa using h0), if_neg h0, List.length_map, Nat.zero_add]

theorem length_splitLoop (d : Char) (hd : d ≠ '"') (rest field : List Char) (q : Bool) :
    (splitLoop d rest field q).length =
      delimitersAfterQuotes (if q then 1 else 0) rest d + 1 := by
  induction rest generalizing field q with
  | nil => rfl
  | cons c rest ih =>
    rw [splitLoop, delimitersAfterQuotes_cons]
    by_cases hq : c = '"'
    · have hcd : ¬ (c = d ∧ (if q = true then 1 else 0) % 2 = 0) := fun h => hd (h.1 ▸ hq)
      rw [if_pos hq, if_neg hcd, if_pos hq, ih, Nat.zero_add]
      congr 1
      apply delimitersAfterQuotes_congr
      cases q <;> rfl
    · rw [if_neg hq, if_neg hq]
      simp only [Nat.add_zero]
      by_cases hdl : c = d ∧ q = false
      · have hcd : c = d ∧ (if q = true then 1 else 0) % 2 = 0 := ⟨hdl.1, by simp [hdl.2]⟩
        rw [if_pos hdl, if_pos hcd, List.length_cons, ih]
        omega
      · have hcd : ¬ (c = d ∧ (if q = true then 1 else 0) % 2 = 0) := by
          rintro ⟨h1, h2⟩
          apply hdl
          refine ⟨h1, ?_⟩
          cases q
          · rfl
          · simp at h2
        rw [if_neg hdl, if_neg hcd, ih, Nat.zero_add]

/-- The chunks are the slices of the record sequence at the dispatched index pairs. -/
theorem dispatchFrom_eq_map (records : List CarSaleRecord) (r : Nat) (remaining t : Nat) :
    dispatchFrom records r remaining t =
      (dispatchRangesFrom records.length r remaining t).map
        (fun x => (records.drop x.1).take (x.2 - x.1)) := by
  induction remaining generalizing t with
  | zero => rfl
  | succ rem ih =>
    simp only [dispatchFrom, dispatchRangesFrom]
    split
    · rfl
    · rw [List.map_cons, ih]

theorem dispatchRangesFrom_eq (n r : Nat) (remaining t : Nat)
    (hfit : (t + remaining) * r < SIZE_T_MOD) :
    dispatchRangesFrom n r remaining t =
      ((List.range' t remaining).takeWhile (fun i => decide (i * r < n))).map
        (fun i => (i * r, min ((i + 1) * r) n)) := by
  induction remaining generalizing t with
  | zero => rfl
  | succ rem ih =>
    have hle2 : t * r + r ≤ (t + (rem + 1)) * r := by
      have : (t + 1) * r ≤ (t + (rem + 1)) * r := Nat.mul_le_mul_right r (by omega)
      rw [Nat.add_mul, Nat.one_mul] at this
      exact this
    have hs : (t * r) % SIZE_T_MOD = t * r := Nat.mod_eq_of_lt (by omega)
    have he : (t * r + r) % SIZE_T_MOD = t * r + r := Nat.mod_eq_of_lt (by omega)
    have hnext : (t + 1) * r = t * r + r := by rw [Nat.add_mul, Nat.one_mul]
    have hih := ih (t + 1) (by rw [show t + 1 + rem = t + (rem + 1) by omega]; exact hfit)
    simp only [dispatchRangesFrom, hs, he, List.range'_succ, List.takeWhile_cons]
    by_cases hstart : t * r ≥ n
    · rw [if_pos hstart]
      have : decide (t * r < n) = false := by simpa using hstart
      rw [this]
      rfl
    · rw [if_neg hstart]
      have : decide (t * r < n) = true := by simpa using hstart
      rw [this, hih, if_pos rfl, List.map_cons, hnext]

theorem mul_lt_iff_lt_ceil (n r t : Nat) (hr : 1 ≤ r) : t * r < n ↔ t < (n + r - 1) / r := by
  have h : t + 1 ≤ (n + r - 1) / r ↔ (t + 1) * r ≤ n + r - 1 :=
    Nat.le_div_iff_mul_le (by omega)
  rw [Nat.add_mul, Nat.one_mul] at h
  constructor
  · intro h1
    exact h.2 (by omega)
  · intro h1
    have := h.1 h1
    omega

theorem takeWhile_range (p : Nat → Bool) (K m : Nat) (hK : K ≤ m)
    (hp : ∀ t, p t = true ↔ t < K) : (List.range m).takeWhile p = List.range K := by
  obtain ⟨b, rfl⟩ : ∃ b, m = K + b := ⟨m - K, by omega⟩
  rw [List.range_add, List.takeWhile_append_of_pos]
  · cases b with
    | zero => simp
    | succ b =>
      have hf : p K = false := by
        cases h : p K with
        | false => rfl
        | true => exact absurd ((hp K).1 h) (Nat.lt_irrefl K)
      rw [List.range_succ_eq_map, List.map_cons, List.takeWhile_cons]
      simp [hf]
  · intro t ht
    exact (hp t).2 (List.mem_range.1 ht)

/-- Closed form of the dispatched index pairs and of the ranges of the specification. -/
theorem dispatchRanges_closed (n W : Nat) (hn : 1 ≤ n) (hW : 1 ≤ W)
    (hfit : n + W - 1 < SIZE_T_MOD) :
    1 ≤ (n + W - 1) / W ∧
    (n + (n + W - 1) / W - 1) / ((n + W - 1) / W) ≤ W ∧
    dispatchRanges n W =
      (List.range ((n + (n + W - 1) / W - 1) / ((n + W - 1) / W))).map
        (fun t => (t * ((n + W - 1) / W), min ((t + 1) * ((n + W - 1) / W)) n)) ∧
    shareRanges n W =
      (List.range ((n + (n + W - 1) / W - 1) / ((n + W - 1) / W))).map
        (fun t => (t * ((n + W - 1) / W), min ((t + 1) * ((n + W - 1) / W)) n)) := by
  have hdm := Nat.div_add_mod (n + W - 1) W
  have hmod := Nat.mod_lt (n + W - 1) (show W > 0 by omega)
  generalize hr : (n + W - 1) / W = r at hdm ⊢
  have hr1 : 1 ≤ r := by
    rw [← hr]
    exact (Nat.one_le_div_iff (by omega)).2 (by omega)
  have hcov : n ≤ W * r := by omega
  have hWr : W * r < SIZE_T_MOD := by omega
  have hnr : n ≤ n * r := Nat.le_mul_of_pos_right n (by omega)
  have hKW : (n + r - 1) / r ≤ W := by
    have : (n + r - 1) / r < W + 1 := by
      rw [Nat.div_lt_iff_lt_mul (by omega), Nat.add_mul, Nat.one_mul]
      omega
    omega
  have hKn : (n + r - 1) / r ≤ n := by
    have : (n + r - 1) / r < n + 1 := by
      rw [Nat.div_lt_iff_lt_mul (by omega), Nat.add_mul, Nat.one_mul]
      omega
    omega
  have hp : ∀ t, decide (t * r < n) = true ↔ t < (n + r - 1) / r := by
    intro t
    rw [decide_eq_true_iff]
    exact mul_lt_iff_lt_ceil n r t hr1
  refine ⟨hr1, hKW, ?_, ?_⟩
  · unfold dispatchRanges
    have hrec : recordsPerThread n W = r := by
      unfold recordsPerThread
      rw [Nat.mod_eq_of_lt hfit, hr]
    rw [hrec, dispatchRangesFrom_eq n r W 0 (by rw [Nat.zero_add]; exact hWr),
      ← List.range_eq_range', takeWhile_range _ _ W hKW hp]
  · unfold shareRanges
    rw [hr, takeWhile_range _ _ n hKn hp]

theorem dispatchChunks_eq_map (records : List CarSaleRecord) (W : Nat) :
    dispatchChunks records W =
      (dispatchRanges records.length W).map (fun x => (records.drop x.1).take (x.2 - x.1)) :=
  dispatchFrom_eq_map records _ W 0

theorem withoutErrors_invokeProcessorFile {σ : Type} (q : ChunkProcessor σ)
    (st st' : ParseLoop σ) (message : String) (h : st.withoutErrors = st'.withoutErrors) :
    (invokeProcessorFile q st message).withoutErrors = (invokeProcessor q st').withoutErrors := by
  obtain ⟨⟨rp, rf, errs, succ, au, bm, eu⟩, t, c, l, hd, cap⟩ := st
  obtain ⟨⟨rp', rf', errs', succ', au', bm', eu'⟩, t', c', l', hd', cap'⟩ := st'
  simp only [ParseLoop.withoutErrors, ParseLoop.mk.injEq, ChunkResult.mk.injEq] at h
  obtain ⟨⟨rfl, rfl, -, rfl, rfl, rfl, rfl⟩, rfl, rfl, rfl, rfl, rfl⟩ := h
  by_cases hv : (q c ChunkResult.new cap).1 = false
  · simp [invokeProcessorFile, invokeProcessor, ParseLoop.withoutErrors, hv]
  · simp [invokeProcessorFile, invokeProcessor, ParseLoop.withoutErrors, hv]

theorem withoutErrors_decodeLineFile {σ : Type} (p : CsvParser)
    (st st' : ParseLoop σ) (line : List Char) (h : st.withoutErrors = st'.withoutErrors) :
    (decodeLineFile p st line).withoutErrors = (decodeLine p st' line).withoutErrors := by
  obtain ⟨⟨rp, rf, errs, succ, au, bm, eu⟩, t, c, l, hd, cap⟩ := st
  obtain ⟨⟨rp', rf', errs', succ', au', bm', eu'⟩, t', c', l', hd', cap'⟩ := st'
  simp only [ParseLoop.withoutErrors, ParseLoop.mk.injEq, ChunkResult.mk.injEq] at h
  obtain ⟨⟨rfl, rfl, -, rfl, rfl, rfl, rfl⟩, rfl, rfl, rfl, rfl, rfl⟩ := h
  unfold decodeLineFile decodeLine
  cases parseLine p line with
  | some r => rfl
  | none =>
    by_cases h1 : errs.length < 100 <;> by_cases h2 : errs'.length < 100 <;>
      simp [recordFailureFile, recordFailure, ParseLoop.withoutErrors, h1, h2]

theorem chunk_withoutErrors {σ : Type} (st st' : ParseLoop σ)
    (h : st.withoutErrors = st'.withoutErrors) :
    st.chunk = st'.chunk ∧ st.is_header = st'.is_header := by
  have h1 := congrArg ParseLoop.chunk h
  have h2 := congrArg ParseLoop.is_header h
  exact ⟨h1, h2⟩

theorem withoutErrors_flushIfFullFile {σ : Type} (p : CsvParser) (q : ChunkProcessor σ)
    (st st' : ParseLoop σ) (h : st.withoutErrors = st'.withoutErrors) :
    (flushIfFullFile p q st).withoutErrors = (flushIfFull p q st').withoutErrors := by
  have hc := (chunk_withoutErrors st st' h).1
  unfold flushIfFullFile flushIfFull
  by_cases hfull : st.chunk.length ≥ p.chunk_size_
  · rw [if_pos hfull, if_pos (hc ▸ hfull)]
    have := withoutErrors_invokeProcessorFile q st st'
      ("Chunk processing failed at line " ++ toString st.line_number) h
    have h2 := congrArg (fun s : ParseLoop σ => { s with chunk := [] }) this
    exact h2
  · rw [if_neg hfull, if_neg (hc ▸ hfull)]
    exact h

theorem withoutErrors_parseFileLine {σ : Type} (p : CsvParser) (q : ChunkProcessor σ)
    (st st' : ParseLoop σ) (line : List Char) (h : st.withoutErrors = st'.withoutErrors) :
    (parseFileLine p q st line).withoutErrors = (parseStringLine p q st' line).withoutErrors := by
  have hh := (chunk_withoutErrors st st' h).2
  have h0 : ({ st with line_number := (st.line_number + 1) % SIZE_T_MOD } :
      ParseLoop σ).withoutErrors =
      ({ st' with line_number := (st'.line_number + 1) % SIZE_T_MOD } :
        ParseLoop σ).withoutErrors := by
    have hl := congrArg ParseLoop.line_number h
    have := congrArg (fun s : ParseLoop σ =>
      { s with line_number := (s.line_number + 1) % SIZE_T_MOD }) h
    exact this
  unfold parseFileLine parseStringLine
  by_cases hhd : st.is_header = true
  · rw [if_pos hhd, if_pos (show st'.is_header = true from hh ▸ hhd)]
    exact congrArg (fun s : ParseLoop σ => { s with is_header := false }) h0
  · rw [if_neg hhd, if_neg (show ¬ st'.is_header = true from hh ▸ hhd)]
    by_cases ht : trim line = []
    · rw [if_pos ht, if_pos ht]
      exact h0
    · rw [if_neg ht, if_neg ht]
      exact withoutErrors_flushIfFullFile p q _ _ (withoutErrors_decodeLineFile p _ _ line h0)

theorem withoutErrors_foldl {σ : Type} (p : CsvParser) (q : ChunkProcessor σ)
    (lines : List (List Char)) (st st' : ParseLoop σ)
    (h : st.withoutErrors = st'.withoutErrors) :
    (lines.foldl (parseFileLine p q) st).withoutErrors =
      (lines.foldl (parseStringLine p q) st').withoutErrors := by
  induction lines generalizing st st' with
  | nil => exact h
  | cons l rest ih =>
    rw [List.foldl_cons, List.foldl_cons]
    exact ih _ _ (withoutErrors_parseFileLine p q st st' l h)

/-- On a file that opens, `parseFile` returns what `parseString` returns on the content,
except for the text of the logged messages. -/
theorem parseFile_eq_parseString {σ : Type} (p : CsvParser) (filename : String)
    (content : List Char) (q : ChunkProcessor σ) (s : σ) :
    { (parseFile p filename (some content) q s).1 with errors := [] } =
      { (parseString p content q s).1 with errors := [] } ∧
    (parseFile p filename (some content) q s).2 = (parseString p content q s).2 := by
  have hf := withoutErrors_foldl p q (getlines content)
    { overall_result := ChunkResult.new, total_records_processed := 0, chunk := [],
      line_number := 0, is_header := true, captured := s }
    { overall_result := ChunkResult.new, total_records_processed := 0, chunk := [],
      line_number := 0, is_header := true, captured := s } rfl
  unfold parseFile parseString
  simp only
  generalize List.foldl (parseFileLine p q)
    { overall_result := ChunkResult.new, total_records_processed := 0, chunk := [],
      line_number := 0, is_header := true, captured := s } (getlines content) = st at hf
  generalize List.foldl (parseStringLine p q)
    { overall_result := ChunkResult.new, total_records_processed := 0, chunk := [],
      line_number := 0, is_header := true, captured := s } (getlines content) = st' at hf
  have hc := (chunk_withoutErrors st st' hf).1
  have key : ∀ x y : ParseLoop σ, x.withoutErrors = y.withoutErrors →
      { x.overall_result with errors := [] } = { y.overall_result with errors := [] } ∧
      ((⟨p.chunk_size_, x.total_records_processed, p.delimiter_⟩ : CsvParser), x.captured) =
        (⟨p.chunk_size_, y.total_records_processed, p.delimiter_⟩, y.captured) := by
    intro x y hxy
    have h1 := congrArg ParseLoop.overall_result hxy
    have h2 := congrArg ParseLoop.total_records_processed hxy
    have h3 := congrArg ParseLoop.captured hxy
    have h2' : x.total_records_processed = y.total_records_processed := h2
    have h3' : x.captured = y.captured := h3
    exact ⟨h1, by rw [h2', h3']⟩
  by_cases hch : st.chunk = []
  · rw [if_pos hch, if_pos (show st'.chunk = [] from hc ▸ hch)]
    exact key st st' hf
  · rw [if_neg hch, if_neg (show ¬ st'.chunk = [] from hc ▸ hch)]
    exact key _ _ (withoutErrors_invokeProcessorFile q st st' _ hf)

theorem isEmpty_trim (line : List Char) : (trim line).isEmpty = isBlank line := by
  cases hb : isBlank line with
  | true => rw [(trim_eq_nil_iff line).2 hb]; rfl
  | false =>
    have hne : trim line ≠ [] := fun e => by
      rw [(trim_eq_nil_iff line).1 e] at hb
      cases hb
    cases ht : trim line with
    | nil => exact absurd ht hne
    | cons c rest => rfl

theorem foldl_decode (p : CsvParser)
    (f : List CarSaleRecord × ChunkResult → List Char → List CarSaleRecord × ChunkResult)
    (hsome : ∀ acc l r, parseLine p l = some r → f acc l = (acc.1 ++ [r], acc.2))
    (hnone : ∀ acc l, parseLine p l = none →
      f acc l = (acc.1, { acc.2 with records_failed := (acc.2.records_failed + 1) % SIZE_T_MOD }))
    (lines : List (List Char)) (acc : List CarSaleRecord × ChunkResult)
    (hacc : acc.2.records_failed < SIZE_T_MOD) :
    (lines.filter (fun line => !(trim line).isEmpty)).foldl f acc =
    (acc.1 ++ decodedOf p lines,
      { acc.2 with records_failed := (acc.2.records_failed + failedOf p lines) % SIZE_T_MOD }) := by
  induction lines generalizing acc with
  | nil =>
    have h0 : failedOf p [] = 0 := rfl
    have h1 : decodedOf p [] = [] := rfl
    rw [List.filter_nil, List.foldl_nil, h0, h1, List.append_nil, Nat.add_zero,
      Nat.mod_eq_of_lt hacc]
  | cons l rest ih =>
    have hd : decodedOf p (l :: rest) = decodedOf p [l] ++ decodedOf p rest :=
      decodedOf_append p [l] rest
    have hf : failedOf p (l :: rest) = failedOf p [l] + failedOf p rest :=
      failedOf_append p [l] rest
    rw [hd, hf, List.filter_cons, isEmpty_trim]
    cases hb : isBlank l with
    | true =>
      rw [decodedOf_blank p l hb, failedOf_blank p l hb, if_neg (by decide), List.nil_append,
        Nat.zero_add]
      exact ih acc hacc
    | false =>
      rw [if_pos (by decide), List.foldl_cons]
      cases hp : parseLine p l with
      | some r =>
        rw [decodedOf_some p l r hb hp, failedOf_some p l r hb hp, hsome acc l r hp,
          ih (acc.1 ++ [r], acc.2) hacc, Nat.zero_add, List.append_assoc]
      | none =>
        rw [decodedOf_none p l hb hp, failedOf_none p l hb hp, hnone acc l hp,
          ih _ (Nat.mod_lt _ (by decide)), List.nil_append]
        simp only [Nat.mod_add_mod, Nat.add_assoc]

/-- The decoding pass of `parseFileConcurrent` in closed form. -/
theorem decodeAllLines_readDataLines (p : CsvParser) (content : List Char) :
    decodeAllLines p ChunkResult.new (readDataLines content) =
      (decodedRecords p content,
        { ChunkResult.new with
          records_failed := failedLineCount p content % SIZE_T_MOD }) := by
  unfold decodeAllLines readDataLines
  rw [foldl_decode p _ (fun acc l r h => by simp only [h]) (fun acc l h => by simp only [h]) _ _
    (by decide)]
  have h0 : ChunkResult.new.records_failed = 0 := rfl
  simp only [List.nil_append, h0, Nat.zero_add]
  rfl

theorem failed_analysisStep (res : ChunkResult) (r : CarSaleRecord) :
    (analysisStep res r).records_failed = res.records_failed := by
  unfold analysisStep
  split_ifs <;> rfl

theorem failed_workerTask (chunk : List CarSaleRecord) :
    (workerTask chunk).records_failed = 0 := by
  show (chunk.foldl analysisStep ChunkResult.new).records_failed = 0
  have h : ∀ res : ChunkResult, (chunk.foldl analysisStep res).records_failed =
      res.records_failed := by
    induction chunk with
    | nil => intro res; rfl
    | cons r rest ih => intro res; rw [List.foldl_cons, ih, failed_analysisStep]
  rw [h]
  rfl

theorem failed_collectResults_workerTask (shares : List (List CarSaleRecord))
    (acc : ChunkResult) (hacc : acc.records_failed < SIZE_T_MOD) :
    (collectResults acc (shares.map workerTask)).records_failed = acc.records_failed := by
  induction shares generalizing acc with
  | nil => rfl
  | cons s rest ih =>
    have hstep : collectResults acc ((s :: rest).map workerTask) =
        collectResults (mergeResults acc (workerTask s)) (rest.map workerTask) := rfl
    have hm : (mergeResults acc (workerTask s)).records_failed = acc.records_failed := by
      show (acc.records_failed + (workerTask s).records_failed) % SIZE_T_MOD =
        acc.records_failed
      rw [failed_workerTask, Nat.add_zero, Nat.mod_eq_of_lt hacc]
    rw [hstep, ih _ (by rw [hm]; exact hacc), hm]

/-- The part of `parseFileConcurrent` after decoding, in closed form. -/
theorem aggregateConcurrent_closed (acc : ChunkResult) (records : List CarSaleRecord) (W : Nat)
    (hW : 1 ≤ W) (hfit : records.length + W - 1 < SIZE_T_MOD)
    (hp : acc.records_processed < SIZE_T_MOD) (hf : acc.records_failed < SIZE_T_MOD) :
    (aggregateConcurrent acc records W).audi_china_year_sales =
      acc.audi_china_year_sales + totalQuantity (audiChinaRecords records) ∧
    (aggregateConcurrent acc records W).bmw_2025_revenue =
      acc.bmw_2025_revenue + totalRevenue (bmwRecords records) ∧
    (∀ k, (aggregateConcurrent acc records W).bmw_europe_revenue.find k =
      bucketAfter (acc.bmw_europe_revenue.find k) records k) ∧
    (aggregateConcurrent acc records W).records_processed =
      (acc.records_processed + records.length) % SIZE_T_MOD ∧
    (aggregateConcurrent acc records W).records_failed = acc.records_failed := by
  unfold aggregateConcurrent
  by_cases he : records.isEmpty = true
  · rw [if_pos he]
    have hnil : records = [] := List.isEmpty_iff.mp he
    subst hnil
    obtain ⟨c1, c2, c3, c4⟩ := collectResults_workerTask [] acc hp
    exact ⟨c1, c2, c3, c4, rfl⟩
  · rw [if_neg he]
    obtain ⟨c1, c2, c3, c4⟩ := collectResults_workerTask (dispatchChunks records W) acc hp
    rw [join_dispatchChunks records W hW hfit] at c1 c2 c3 c4
    exact ⟨c1, c2, c3, c4, failed_collectResults_workerTask _ acc hf⟩

theorem parseFileConcurrent_result (p : CsvParser) (filename : String) (content : List Char)
    (W hardware_concurrency : Nat) (hW : 1 ≤ W) :
    (parseFileConcurrent p filename (some content) W hardware_concurrency).1 =
      aggregateConcurrent
        { ChunkResult.new with records_failed := failedLineCount p content % SIZE_T_MOD }
        (decodedRecords p content) W := by
  have hdec := decodeAllLines_readDataLines p content
  have hW0 : ¬ W = 0 := by omega
  unfold parseFileConcurrent
  simp only [if_neg hW0]
  by_cases hl : (readDataLines content).isEmpty = true
  · rw [if_pos hl]
    rw [List.isEmpty_iff.mp hl] at hdec
    have h2 : (([] : List CarSaleRecord), ChunkResult.new) =
        (decodedRecords p content,
          { ChunkResult.new with
            records_failed := failedLineCount p content % SIZE_T_MOD }) := hdec
    obtain ⟨hD, hX⟩ := Prod.mk.inj h2
    rw [← hD, ← hX]
    rfl
  · rw [if_neg hl, hdec]
    simp only
    by_cases hD : (decodedRecords p content).isEmpty = true
    · rw [if_pos hD]
      unfold aggregateConcurrent
      rw [if_pos hD]
    · rw [if_neg hD]

theorem fields_transferConcurrent (run : ChunkResult × CsvParser) :
    (CarSalesAnalyzer.transferConcurrent run).1.audi_china_year_sales =
      run.1.audi_china_year_sales ∧
    (CarSalesAnalyzer.transferConcurrent run).1.bmw_year_total_revenue =
      run.1.bmw_2025_revenue ∧
    (CarSalesAnalyzer.transferConcurrent run).2._bmw_europe_revenue =
      run.1.bmw_europe_revenue ∧
    (CarSalesAnalyzer.transferConcurrent run).1._bmw_europe_revenuedistribution =
      CarSalesAnalyzer.sortByRevenueDesc run.1.bmw_europe_revenue.entries ∧
    (CarSalesAnalyzer.transferConcurrent run).1.total_records_processed =
      run.1.records_processed ∧
    (CarSalesAnalyzer.transferConcurrent run).1.total_records_failed =
      run.1.records_failed := by
  unfold CarSalesAnalyzer.transferConcurrent
  simp only
  split <;> exact ⟨rfl, rfl, rfl, rfl, rfl, rfl⟩

theorem fields_analyzeFile_sequential (a : CarSalesAnalyzer) (filename : String)
    (file : Option (List Char)) (num_threads hardware_concurrency : Nat) :
    (a.analyzeFile filename file false num_threads hardware_concurrency).1.audi_china_year_sales =
      (parseFile a.parser_ filename file CarSalesAnalyzer.processor
        a.reset).2.2._audi_china_year_sales ∧
    (a.analyzeFile filename file false num_threads
        hardware_concurrency).1.bmw_year_total_revenue =
      (parseFile a.parser_ filename file CarSalesAnalyzer.processor
        a.reset).2.2._bmw_2025_revenue ∧
    (a.analyzeFile filename file false num_threads hardware_concurrency).2._bmw_europe_revenue =
      (parseFile a.parser_ filename file CarSalesAnalyzer.processor
        a.reset).2.2._bmw_europe_revenue ∧
    (a.analyzeFile filename file false num_threads
        hardware_concurrency).1._bmw_europe_revenuedistribution =
      CarSalesAnalyzer.sortByRevenueDesc
        (parseFile a.parser_ filename file CarSalesAnalyzer.processor
          a.reset).2.2._bmw_europe_revenue.entries ∧
    (a.analyzeFile filename file false num_threads
        hardware_concurrency).1.total_records_processed =
      (parseFile a.parser_ filename file CarSalesAnalyzer.processor
        a.reset).2.2._total_records_processed ∧
    (a.analyzeFile filename file false num_threads
        hardware_concurrency).1.total_records_failed =
      (parseFile a.parser_ filename file CarSalesAnalyzer.processor
        a.reset).1.records_failed := by
  unfold CarSalesAnalyzer.analyzeFile
  simp only [parser_reset, Bool.false_eq_true, if_false]
  split <;> exact ⟨rfl, rfl, rfl, rfl, rfl, rfl⟩

/-! ## Claims on fields, dispatch and the two execution modes -/

/-- C31 (number of fields).  For every line and every delimiter other than the double-quote
character, `splitLine` returns exactly one more field than the number of delimiter characters
of the line that are preceded by an even number of double-quote characters; a delimiter
preceded by an odd number of them is not counted, so it starts no field.  The result always
has at least one field. -/
theorem splitLine_field_count (line : List Char) (delimiter : Char) (hd : delimiter ≠ '"') :
    (splitLine line delimiter).length = delimitersOutsideQuotes line delimiter + 1 ∧
    1 ≤ (splitLine line delimiter).length := by
  have h := length_splitLoop delimiter hd line [] false
  have h' : (splitLine line delimiter).length = delimitersOutsideQuotes line delimiter + 1 := by
    rw [← delimitersAfterQuotes_zero]
    exact h
  exact ⟨h', by omega⟩

/-- Witness for C31: a comma inside quotes does not split the field. -/
theorem splitLine_field_count_witness :
    ',' ≠ '"' ∧
    delimitersOutsideQuotes "a,\"b,c\",d".toList ',' = 2 ∧
    (splitLine "a,\"b,c\",d".toList ',').length = 3 ∧
    splitLine "a,\"b,c\",d".toList ',' = ["a".toList, "b,c".toList, "d".toList] :=
  ⟨by decide, by decide!,
    ((splitLine_field_count "a,\"b,c\",d".toList ',' (by decide)).1).trans (by decide!),
    by decide!⟩

/-- C32 (dispatched ranges).  For `n >= 1` records and `W >= 1` workers with `n + W - 1`
below `2 ^ 64`, the index pairs computed by the dispatch loop of `parseFileConcurrent` are the
ranges `[t * r, min ((t + 1) * r) n)` for `r = ceil (n / W)` and `t = 0, 1, ...` while
`t * r < n`, and the chunks handed to the workers are the slices of the record sequence at
these pairs.  Every range is non-empty and ends within the sequence; every range ends no
later than each following range starts (ascending, pairwise disjoint); the chunks concatenate
to the whole sequence and every index lies in exactly one range; there are at most `W`
ranges. -/
theorem dispatch_ranges (records : List CarSaleRecord) (W : Nat)
    (hn : 1 ≤ records.length) (hW : 1 ≤ W) (hfit : records.length + W - 1 < SIZE_T_MOD) :
    dispatchRanges records.length W = shareRanges records.length W ∧
    dispatchChunks records W =
      (dispatchRanges records.length W).map
        (fun x => (records.drop x.1).take (x.2 - x.1)) ∧
    (∀ x ∈ dispatchRanges records.length W, x.1 < x.2 ∧ x.2 ≤ records.length) ∧
    (dispatchRanges records.length W).Pairwise (fun x y => x.2 ≤ y.1) ∧
    (dispatchChunks records W).flatten = records ∧
    (∀ i, i < records.length →
      ∃! x, x ∈ dispatchRanges records.length W ∧ x.1 ≤ i ∧ i < x.2) ∧
    (dispatchRanges records.length W).length ≤ W := by
  obtain ⟨hr1, hKW, hcode, hspec⟩ := dispatchRanges_closed records.length W hn hW hfit
  generalize hr : (records.length + W - 1) / W = r at hr1 hKW hcode hspec
  generalize hK : (records.length + r - 1) / r = K at hKW hcode hspec
  have hlt : ∀ t, t < K → t * r < records.length := by
    intro t ht
    rw [← hK] at ht
    exact (mul_lt_iff_lt_ceil _ r t hr1).2 ht
  have hnext : ∀ t, (t + 1) * r = t * r + r := fun t => by rw [Nat.add_mul, Nat.one_mul]
  refine ⟨hcode.trans hspec.symm, dispatchChunks_eq_map records W, ?_, ?_,
    join_dispatchChunks records W hW hfit, ?_, ?_⟩
  · intro x hx
    rw [hcode, List.mem_map] at hx
    obtain ⟨t, ht, rfl⟩ := hx
    have := hlt t (List.mem_range.1 ht)
    have := hnext t
    simp only
    omega
  · rw [hcode, List.pairwise_map]
    refine List.Pairwise.imp ?_ (List.pairwise_lt_range K)
    intro t u htu
    have h1 : (t + 1) * r ≤ u * r := Nat.mul_le_mul_right r htu
    simp only
    omega
  · intro i hi
    have hdiv : i / r * r ≤ i := Nat.div_mul_le_self i r
    have hdiv2 : i < (i / r + 1) * r := by
      rw [Nat.mul_comm]
      exact Nat.lt_mul_div_succ i (by omega)
    refine ⟨(i / r * r, min ((i / r + 1) * r) records.length), ⟨?_, ?_, ?_⟩, ?_⟩
    · rw [hcode, List.mem_map]
      refine ⟨i / r, List.mem_range.2 ?_, rfl⟩
      rw [← hK]
      exact (mul_lt_iff_lt_ceil _ r _ hr1).1 (by omega)
    · exact hdiv
    · simp only
      omega
    · rintro x ⟨hx, hlo, hhi⟩
      rw [hcode, List.mem_map] at hx
      obtain ⟨t, -, rfl⟩ := hx
      simp only at hlo hhi
      have ht : i / r = t := Nat.div_eq_of_lt_le hlo (by omega)
      rw [ht]
  · rw [hcode, List.length_map, List.length_range]
    exact hKW

/-- Witness for C32: five records and four workers give three ranges of at most two
records. -/
theorem dispatch_ranges_witness :
    1 ≤ exampleRecords.length ∧ 1 ≤ 4 ∧ exampleRecords.length + 4 - 1 < SIZE_T_MOD ∧
    dispatchRanges exampleRecords.length 4 = [(0, 2), (2, 4), (4, 5)] ∧
    (dispatchChunks exampleRecords 4).map List.length = [2, 2, 1] :=
  ⟨by decide, by decide, by decide!,
    ((dispatch_ranges exampleRecords 4 (by decide) (by decide) (by decide!)).1).trans
      (by decide!),
    by decide!⟩

/-- C33 (concurrent mode always reports success).  For every file that opens,
`parseFileConcurrent` returns `success = true`, whatever the content, the worker count and
the value of `hardware_concurrency`, and `analyzeFile` in concurrent mode returns
`analysis_complete = true`.  The same holds when workers throw: `parseFileConcurrentWith`
runs the join loop with its `catch` branch for an arbitrary outcome of every worker, it is
`parseFileConcurrent` when no worker throws, and it returns `success = true` (and the transfer
into the analyzer gives `analysis_complete = true`) for every such outcome.  With a worker
that throws, the message of the exception is logged and `success` is `true` all the same. -/
theorem parseFileConcurrent_always_succeeds :
    (∀ (task : List CarSaleRecord → Except String ChunkResult) (p : CsvParser)
        (filename : String) (content : List Char) (num_threads hardware_concurrency : Nat),
      (parseFileConcurrentWith task p filename (some content) num_threads
        hardware_concurrency).1.success = true ∧
      (CarSalesAnalyzer.transferConcurrent
        (parseFileConcurrentWith task p filename (some content) num_threads
          hardware_concurrency)).1.analysis_complete = true) ∧
    (∀ (p : CsvParser) (filename : String) (file : Option (List Char))
        (num_threads hardware_concurrency : Nat),
      parseFileConcurrent p filename file num_threads hardware_concurrency =
        parseFileConcurrentWith (fun chunk => Except.ok (workerTask chunk)) p filename file
          num_threads hardware_concurrency) ∧
    (∀ (p : CsvParser) (filename : String) (content : List Char)
        (num_threads hardware_concurrency : Nat),
      (parseFileConcurrent p filename (some content) num_threads
        hardware_concurrency).1.success = true) ∧
    (∀ (a : CarSalesAnalyzer) (filename : String) (content : List Char)
        (num_threads hardware_concurrency : Nat),
      (a.analyzeFile filename (some content) true num_threads
        hardware_concurrency).1.analysis_complete = true) ∧
    (parseFileConcurrentWith throwingTask (CsvParser.new 0 '\t') "sales.tsv"
      (some badRowAndValidRow) 2 8).1.errors = ["Thread error: std::bad_alloc"] ∧
    (parseFileConcurrentWith throwingTask (CsvParser.new 0 '\t') "sales.tsv"
      (some badRowAndValidRow) 2 8).1.success = true := by
  have h3 : ∀ (p : CsvParser) (filename : String) (content : List Char)
      (num_threads hardware_concurrency : Nat),
      (parseFileConcurrent p filename (some content) num_threads
        hardware_concurrency).1.success = true := by
    intro p filename content num_threads hardware_concurrency
    rw [← parseFileConcurrentWith_ok]
    exact success_parseFileConcurrentWith _ p filename content _ _
  refine ⟨?_, ?_, h3, ?_, by decide!, by decide!⟩
  · intro task p filename content num_threads hardware_concurrency
    have h := success_parseFileConcurrentWith task p filename content num_threads
      hardware_concurrency
    exact ⟨h, by rw [complete_transferConcurrent, h]⟩
  · intro p filename file num_threads hardware_concurrency
    exact (parseFileConcurrentWith_ok p filename file num_threads hardware_concurrency).symm
  · intro a filename content num_threads hardware_concurrency
    rw [analyzeFile_concurrent, complete_transferConcurrent]
    exact h3 _ filename content _ _

/-- C34 (sequential and concurrent mode agree).  For every analyzer (any chunk size), every
file that opens and every worker count `W >= 1` such that the number `n` of decoded records
satisfies `n + W - 1 < 2 ^ 64`, `analyzeFile` with `use_concurrent = false` and with
`use_concurrent = true` return the same unit count, the same revenue sum (exact numbers), the
same sum for every region (the distributions hold the same entries), the same
`total_records_processed` and the same `total_records_failed`. -/
theorem sequential_concurrent_agree (a : CarSalesAnalyzer) (filename : String)
    (content : List Char) (W hardware_concurrency : Nat) (hW : 1 ≤ W)
    (hfit : (decodedRecords a.parser_ content).length + W - 1 < SIZE_T_MOD) :
    (a.analyzeFile filename (some content) false W hardware_concurrency).1.audi_china_year_sales
      = (a.analyzeFile filename (some content) true W
          hardware_concurrency).1.audi_china_year_sales ∧
    (a.analyzeFile filename (some content) false W
        hardware_concurrency).1.bmw_year_total_revenue =
      (a.analyzeFile filename (some content) true W
        hardware_concurrency).1.bmw_year_total_revenue ∧
    (∀ region,
      (a.analyzeFile filename (some content) false W
        hardware_concurrency).2._bmw_europe_revenue.find region =
      (a.analyzeFile filename (some content) true W
        hardware_concurrency).2._bmw_europe_revenue.find region) ∧
    (a.analyzeFile filename (some content) false W
        hardware_concurrency).1._bmw_europe_revenuedistribution.Perm
      (a.analyzeFile filename (some content) true W
        hardware_concurrency).1._bmw_europe_revenuedistribution ∧
    (a.analyzeFile filename (some content) false W
        hardware_concurrency).1.total_records_processed =
      (a.analyzeFile filename (some content) true W
        hardware_concurrency).1.total_records_processed ∧
    (a.analyzeFile filename (some content) false W
        hardware_concurrency).1.total_records_failed =
      (a.analyzeFile filename (some content) true W
        hardware_concurrency).1.total_records_failed := by
  obtain ⟨s1, s2, s3, s4, s5, s6⟩ :=
    fields_analyzeFile_sequential a filename (some content) W hardware_concurrency
  obtain ⟨t1, t2, t3, t4, t5, t6⟩ := fields_transferConcurrent
    (parseFileConcurrent a.reset.parser_ filename (some content) W hardware_concurrency)
  obtain ⟨e1, e2⟩ := parseFile_eq_parseString a.parser_ filename content
    CarSalesAnalyzer.processor a.reset
  obtain ⟨-, r2, r3, r4⟩ := analyzeString_run a content
  have e3 : (parseFile a.parser_ filename (some content) CarSalesAnalyzer.processor
      a.reset).2.2 = (parseString a.parser_ content CarSalesAnalyzer.processor a.reset).2.2 :=
    congrArg Prod.snd e2
  have e4 : (parseFile a.parser_ filename (some content) CarSalesAnalyzer.processor
      a.reset).1.records_failed =
      (parseString a.parser_ content CarSalesAnalyzer.processor a.reset).1.records_failed :=
    show ({ (parseFile a.parser_ filename (some content) CarSalesAnalyzer.processor
      a.reset).1 with errors := [] } : ChunkResult).records_failed = _ by rw [e1]
  obtain ⟨c1, c2, c3, c4, c5⟩ := aggregateConcurrent_closed
    { ChunkResult.new with records_failed := failedLineCount a.parser_ content % SIZE_T_MOD }
    (decodedRecords a.parser_ content) W hW hfit
    (show (0 : Nat) < SIZE_T_MOD by decide) (Nat.mod_lt _ (by decide))
  rw [← parseFileConcurrent_result a.parser_ filename content W hardware_concurrency hW]
    at c1 c2 c3 c4 c5
  have m1 := foldl_metricStep_fst (decodedRecords a.parser_ content) (0, 0, RevenueMap.empty)
  have m2 := foldl_metricStep_snd (decodedRecords a.parser_ content) (0, 0, RevenueMap.empty)
  have m3 := foldl_metricStep_find (decodedRecords a.parser_ content) (0, 0, RevenueMap.empty)
  rw [← r3] at m1 m2 m3
  have hfind : ∀ region,
      (a.analyzeFile filename (some content) false W
        hardware_concurrency).2._bmw_europe_revenue.find region =
      (a.analyzeFile filename (some content) true W
        hardware_concurrency).2._bmw_europe_revenue.find region := by
    intro region
    rw [s3, e3, analyzeFile_concurrent, t3, parser_reset, c3 region]
    exact m3 region
  rw [analyzeFile_concurrent, parser_reset] at *
  refine ⟨?_, ?_, hfind, ?_, ?_, ?_⟩
  · rw [s1, e3, t1, c1]
    exact m1
  · rw [s2, e3, t2, c2]
    exact m2
  · rw [s4, t4]
    have hperm := perm_entries_of_find_eq
      (parseFile a.parser_ filename (some content) CarSalesAnalyzer.processor
        a.reset).2.2._bmw_europe_revenue
      (parseFileConcurrent a.parser_ filename (some content) W
        hardware_concurrency).1.bmw_europe_revenue
      (fun k => by
        have hk := hfind k
        rw [s3, t3] at hk
        exact hk)
    exact (perm_sortByRevenueDesc _).trans (hperm.trans (perm_sortByRevenueDesc _).symm)
  · rw [s5, e3, t5, c4, r4]
    exact congrArg (fun n => n % SIZE_T_MOD) (Nat.zero_add _).symm
  · rw [s6, e4, t6, c5, r2]

/-- Witness for C34: five lines after the header, two of which decode, read with three
workers. -/
theorem sequential_concurrent_agree_witness :
    1 ≤ 3 ∧
    (decodedRecords (CarSalesAnalyzer.new 2).parser_ mixedRows).length + 3 - 1 < SIZE_T_MOD ∧
    ((CarSalesAnalyzer.new 2).analyzeFile "sales.tsv" (some mixedRows) true 3
      8).1.audi_china_year_sales = 1 ∧
    ((CarSalesAnalyzer.new 2).analyzeFile "sales.tsv" (some mixedRows) false 3
      8).1.total_records_failed = 2 :=
  ⟨by decide, by decide!,
    ((sequential_concurrent_agree (CarSalesAnalyzer.new 2) "sales.tsv" mixedRows 3 8
      (by decide) (by decide!)).1).symm.trans (by decide!),
    ((sequential_concurrent_agree (CarSalesAnalyzer.new 2) "sales.tsv" mixedRows 3 8
      (by decide) (by decide!)).2.2.2.2.2).trans (by decide!)⟩

/-- C35 (the two aggregators agree).  For every record sequence that fits a `std::vector`,
`CsvParser::processChunkAnalysis` on a fresh `ChunkResult` and `CarSalesAnalyzer::processChunk`
on a reset analyzer give the same unit count, the same revenue sum, the same region mapping
and the same processed count.  The European-country set of `data_parser.cpp` and
`CarSalesAnalyzer::EUROPEAN_COUNTRIES` hold exactly the same names, and the two membership
tests agree on every name. -/
theorem aggregators_agree (a : CarSalesAnalyzer) (records : List CarSaleRecord)
    (hfit : records.length < SIZE_T_MOD) :
    (processChunkAnalysis records ChunkResult.new).audi_china_year_sales =
      (a.reset.processChunk records)._audi_china_year_sales ∧
    (processChunkAnalysis records ChunkResult.new).bmw_2025_revenue =
      (a.reset.processChunk records)._bmw_2025_revenue ∧
    (processChunkAnalysis records ChunkResult.new).bmw_europe_revenue =
      (a.reset.processChunk records)._bmw_europe_revenue ∧
    (processChunkAnalysis records ChunkResult.new).records_processed =
      (a.reset.processChunk records)._total_records_processed ∧
    EUROPEAN_COUNTRIES = CarSalesAnalyzer.EUROPEAN_COUNTRIES ∧
    (∀ country, country ∈ EUROPEAN_COUNTRIES ↔ country ∈ CarSalesAnalyzer.EUROPEAN_COUNTRIES) ∧
    (∀ country, isEuropeanCountry country = CarSalesAnalyzer.isEuropeanCountry country) := by
  have hm : (processChunkAnalysis records ChunkResult.new).metrics =
      (a.reset.processChunk records).metrics := by
    rw [metrics_processChunkAnalysis, metrics_processChunk]
    rfl
  refine ⟨congrArg (fun m => m.1) hm, congrArg (fun m => m.2.1) hm,
    congrArg (fun m => m.2.2) hm, ?_, rfl, fun _ => Iff.rfl, fun _ => rfl⟩
  rw [total_processChunk]
  show records.length = (0 + records.length) % SIZE_T_MOD
  rw [Nat.zero_add, Nat.mod_eq_of_lt hfit]

/-- Witness for C35: both aggregators find a BMW revenue of 325000 in the example records. -/
theorem aggregators_agree_witness :
    exampleRecords.length < SIZE_T_MOD ∧
    (processChunkAnalysis exampleRecords ChunkResult.new).bmw_2025_revenue = 325000 ∧
    ((CarSalesAnalyzer.new 0).reset.processChunk exampleRecords)._bmw_2025_revenue = 325000 :=
  ⟨by decide!, by decide!,
    ((aggregators_agree (CarSalesAnalyzer.new 0) exampleRecords (by decide!)).2.1).symm.trans
      (by decide!)⟩

/-- C36 (`mergeResults` and the error list).  For every target and source, the error list of
the target after the merge is its error list before; no message of the source is copied,
whatever the source's error list holds. -/
theorem mergeResults_keeps_target_errors (target source : ChunkResult)
    (messages : List String) :
    (mergeResults target source).errors = target.errors ∧
    (mergeResults target { source with errors := messages }).errors = target.errors ∧
    (mergeResults { target with errors := [] } { source with errors := messages }).errors = [] :=
  ⟨rfl, rfl, rfl⟩

/-- C37 (empty batches; the code departs from the claim).  The constructor replaces a chunk
size of 0 by the default, `setChunkSize` stores 0 as it is.  With chunk size 0 the test
`chunk.size() >= chunk_size_` holds for an empty chunk: on a header followed by one line that
does not decode, `parseString` and `parseFile` call the processor once, with the empty
batch. -/
theorem processor_receives_empty_batch :
    ((CsvParser.new 0 '\t').setChunkSize 0).chunk_size_ = 0 ∧
    callsOf ((CsvParser.new 0 '\t').setChunkSize 0) headerAndBadRow countingProcessor 0 =
      [([], true)] ∧
    (parseFile ((CsvParser.new 0 '\t').setChunkSize 0) "sales.tsv" (some headerAndBadRow)
      (recording countingProcessor) (0, [])).2.2.2 = [([], true)] ∧
    (parseString ((CsvParser.new 0 '\t').setChunkSize 0) headerAndBadRow countingProcessor
      0).2.2 = 1 := by
  refine ⟨rfl, ?_, ?_, ?_⟩ <;> decide!

/-- C38 (fields are in normal form).  Every field returned by `splitLine`, for every line and
delimiter, holds no double-quote character, does not start with white space and does not end
with white space; `trim` leaves it unchanged. -/
theorem splitLine_fields_normal (line : List Char) (delimiter : Char) (field : List Char)
    (hfield : field ∈ splitLine line delimiter) :
    '"' ∉ field ∧ (∀ c, field.head? = some c → isspace c = false) ∧
    (∀ c, field.getLast? = some c → isspace c = false) ∧ trim field = field := by
  obtain ⟨h1, h2, h3⟩ := splitLoop_normal delimiter line [] false (List.not_mem_nil _) field
    hfield
  exact ⟨h1, h2, h3, trim_of_normal field h2 h3⟩

/-- Witness for C38: the field `"Audi"` written with quotes and padded with spaces is
returned as `Audi`, and a row whose brand is written with quotes or with spaces decodes to
the brand `Audi`. -/
theorem splitLine_fields_normal_witness :
    "Audi".toList ∈ splitLine "S1\t \"Audi\" \t x".toList '\t' ∧
    '"' ∉ "Audi".toList ∧
    (parseLine (CsvParser.new 0 '\t')
      (shortRow "15-01-2025" "China" "\"Audi\"" "45000")).map (fun r => r.brand) =
        some "Audi" ∧
    (parseLine (CsvParser.new 0 '\t')
      (shortRow "15-01-2025" "China" " Audi " "45000")).map (fun r => r.brand) =
        some "Audi" :=
  ⟨by decide!,
    (splitLine_fields_normal "S1\t \"Audi\" \t x".toList '\t' "Audi".toList (by decide!)).1,
    by decide!, by decide!⟩

/-- C39 (short dates).  For every date text shorter than 10 characters
`extractYearFromDate` returns 0, and `parseLine` rejects every line whose date field is that
text. -/
theorem short_date_rejected (p : CsvParser) (line date_str : List Char)
    (hshort : date_str.length < 10) (hdate : fieldAt p line 1 = date_str) :
    extractYearFromDate date_str = 0 ∧ parseLine p line = none := by
  refine ⟨extractYearFromDate_short date_str hshort, parseLine_year_zero p line ?_⟩
  rw [hdate]
  exact extractYearFromDate_short date_str hshort

/-- Witness for C39: `1-1-2025` has 8 characters; the year is read as 0 and the row is
rejected, while the same row with `01-01-2025` decodes. -/
theorem short_date_rejected_witness :
    "1-1-2025".toList.length < 10 ∧
    fieldAt (CsvParser.new 0 '\t') (shortRow "1-1-2025" "China" "Audi" "45000") 1 =
      "1-1-2025".toList ∧
    extractYearFromDate "1-1-2025".toList = 0 ∧
    parseLine (CsvParser.new 0 '\t') (shortRow "1-1-2025" "China" "Audi" "45000") = none ∧
    (parseLine (CsvParser.new 0 '\t') (shortRow "01-01-2025" "China" "Audi" "45000")).isSome =
      true :=
  ⟨by decide!, by decide!,
    (short_date_rejected (CsvParser.new 0 '\t') (shortRow "1-1-2025" "China" "Audi" "45000")
      "1-1-2025".toList (by decide!) (by decide!)).1,
    (short_date_rejected (CsvParser.new 0 '\t') (shortRow "1-1-2025" "China" "Audi" "45000")
      "1-1-2025".toList (by decide!) (by decide!)).2,
    by decide!⟩

end car_sales
